import Mathlib

/-! HFI queue protocol of the Adreno a6xx GMU driver.

A shallow embedding of the ring-buffer queue code of
`drivers/gpu/msm/adreno_a6xx_hfi.c` and of the message-header macros of
`drivers/gpu/msm/adreno_a6xx_hfi.h`.

Conventions of the embedding:

* a `uint32_t` is a natural number; every arithmetic step that can leave the
  32-bit range in C is wrapped explicitly with `u32` (or `usub32`);
* memory reached through a `uint32_t *` is a total map from dword offset to
  word (`Mem`); a store of a `uint32_t` keeps the word as it is;
* a C `int` result is an `Int`, the errno codes are negated as in the source;
* an unsigned remainder with a zero divisor is undefined in C: the functions
  return `Option`, and `none` stands for that case only.
-/

namespace A6xxHfi

/-! ## Machine words and memory -/

/-- Memory behind a `uint32_t *`: dword offset to 32-bit word. -/
abbrev Mem := Nat → Nat

/-- The store `m[a] = v`. -/
def store (m : Mem) (a v : Nat) : Mem := fun j => if j = a then v else m j

/-- Truncation of an arithmetic result to 32 bits. -/
def u32 (x : Nat) : Nat := x % 2 ^ 32

/-- Unsigned 32-bit subtraction `a - b` of two `uint32_t` values. -/
def usub32 (a b : Nat) : Nat := (a + 2 ^ 32 - b) % 2 ^ 32

/-- Unsigned remainder `a % b`; the zero divisor is undefined behaviour. -/
def umod (a b : Nat) : Option Nat := if b = 0 then none else some (a % b)

/-- The call `memset(p, 0, nbytes)` on a little-endian word array: whole words
below `nbytes / 4` become zero, and the low `nbytes % 4` bytes of the next word
are cleared. -/
def memset_zero (p : Mem) (nbytes : Nat) : Mem := fun i =>
  if i < nbytes / 4 then 0
  else if i = nbytes / 4 then p i / 2 ^ (8 * (nbytes % 4)) * 2 ^ (8 * (nbytes % 4))
  else p i

/-! ## Constants -/

/-- Modelled from the spec: the errno constant behind the QueueDisabled result
(the errno header lies outside the driver sources). -/
def EINVAL : Int := 22

/-- Modelled from the spec: the errno constant behind the Empty result
(the errno header lies outside the driver sources). -/
def ENODATA : Int := 61

/-- Modelled from the spec: the errno constant behind the InsufficientSpace
result (the errno header lies outside the driver sources). -/
def ENOSPC : Int := 28

/-- Modelled from the spec: the errno constant behind the MessageTooLarge
result (the errno header lies outside the driver sources). -/
def EMSGSIZE : Int := 90

/-- Modelled from the spec: the size constant `SZ_1K` of the kernel headers,
which lie outside the driver sources. -/
def SZ_1K : Nat := 0x400

/-- Modelled from the spec: the size constant `SZ_4` of the kernel headers,
which lie outside the driver sources. -/
def SZ_4 : Nat := 4

def HFI_QUEUE_DEFAULT_CNT : Nat := 3
def HFI_QUEUE_DISPATCH_CNT : Nat := 1
def HFI_QUEUE_MAX : Nat := HFI_QUEUE_DEFAULT_CNT + HFI_QUEUE_DISPATCH_CNT

def MAX_RCVD_PAYLOAD_SIZE : Nat := 16
def MAX_RCVD_SIZE : Nat := MAX_RCVD_PAYLOAD_SIZE + 3
def HFI_MAX_MSG_SIZE : Nat := SZ_1K >>> 2

def HFI_QUEUE_STATUS_DISABLED : Nat := 0
def HFI_QUEUE_STATUS_ENABLED : Nat := 1

def HFI_MSG_CMD : Nat := 0
def HFI_MSG_ACK : Nat := 1

/-- Modelled from the spec: the kernel macro `ALIGN(x, a)` (its header lies
outside the driver sources), the round-up of `x` to the alignment boundary
`a`, computed in 32-bit arithmetic as `(x + (a - 1)) & ~(a - 1)`; for a power
of two `a` the mask clears the remainder modulo `a`. -/
def ALIGN (x a : Nat) : Nat := u32 (x + (a - 1)) / a * a

/-! ## Message header codec -/

def MSG_HDR_GET_ID (hdr : Nat) : Nat := hdr &&& 0xFF
def MSG_HDR_GET_SIZE (hdr : Nat) : Nat := (hdr >>> 8) &&& 0xFF
def MSG_HDR_GET_TYPE (hdr : Nat) : Nat := (hdr >>> 16) &&& 0xF
def MSG_HDR_GET_SEQNUM (hdr : Nat) : Nat := (hdr >>> 20) &&& 0xFFF

/-- Size is converted from bytes to dwords. -/
def CREATE_MSG_HDR (id size type : Nat) : Nat :=
  ((type <<< 16) ||| (((size >>> 2) &&& 0xFF) <<< 8)) ||| (id &&& 0xFF)

def CMD_MSG_HDR (id size : Nat) : Nat := CREATE_MSG_HDR id size HFI_MSG_CMD
def ACK_MSG_HDR (id size : Nat) : Nat := CREATE_MSG_HDR id size HFI_MSG_ACK

/-! ## Queue headers and queues -/

/-- The fields of `struct hfi_queue_header` (the five `unused` words are left
out: no code reads or writes them). -/
structure hfi_queue_header where
  status : Nat
  start_addr : Nat
  type : Nat
  queue_size : Nat
  msg_size : Nat
  read_index : Nat
  write_index : Nat

/-- One queue as the read and write paths see it: the header `tbl->qhdr[idx]`
and the ring body at `HOST_QUEUE_START_ADDR(mem, idx)`. -/
structure hfi_queue where
  hdr : hfi_queue_header
  queue : Mem

/-- The free space computed by `a6xx_hfi_queue_write`, in 32-bit arithmetic. -/
def empty_space (hdr : hfi_queue_header) : Nat :=
  if hdr.write_index ≥ hdr.read_index then
    usub32 hdr.queue_size (usub32 hdr.write_index hdr.read_index)
  else usub32 hdr.read_index hdr.write_index

/-- The copy loop of `a6xx_hfi_queue_read`, run for `n` more iterations from
loop counter `i`: `output[i] = queue[read]; read = (read + 1) % queue_size`. -/
def queue_read_copy (queue : Mem) (queue_size : Nat) :
    Nat → Nat → Nat → Mem → Option (Nat × Mem)
  | 0, _, read, output => some (read, output)
  | n + 1, i, read, output =>
    match umod (u32 (read + 1)) queue_size with
    | none => none
    | some next =>
      queue_read_copy queue queue_size n (i + 1) next (store output i (queue read))

/-- The function `a6xx_hfi_queue_read`. `major` is the value of
`GMU_VER_MAJOR(gmu->ver.hfi)`, `max_size` the size of `output` in bytes. The
result is the returned `int`, the queue and the output buffer afterwards. The
loop `for (i = 0; i < size && i < (max_size >> 2); i++)` runs
`min size (max_size >> 2)` times. -/
def a6xx_hfi_queue_read (major : Nat) (q : hfi_queue) (output : Mem) (max_size : Nat) :
    Option (Int × hfi_queue × Mem) :=
  if q.hdr.status = HFI_QUEUE_STATUS_DISABLED then some (-EINVAL, q, output)
  else if q.hdr.read_index = q.hdr.write_index then some (-ENODATA, q, output)
  else
    let output := memset_zero output max_size
    let msg_hdr := q.queue q.hdr.read_index
    let size := MSG_HDR_GET_SIZE msg_hdr
    if size > max_size >>> 2 then some (-EMSGSIZE, q, output)
    else
      let read := q.hdr.read_index
      let copied : Option (Int × Nat × Mem) :=
        if read < q.hdr.queue_size then
          match queue_read_copy q.queue q.hdr.queue_size (min size (max_size >>> 2)) 0 read
              output with
          | none => none
          | some (read, output) => some ((size : Int), read, output)
        else some (-ENODATA, read, output)
      match copied with
      | none => none
      | some (result, read, output) =>
        let aligned : Option Nat :=
          if major ≥ 2 then umod (ALIGN read SZ_4) q.hdr.queue_size else some read
        match aligned with
        | none => none
        | some read => some (result, { q with hdr := { q.hdr with read_index := read } }, output)

/-- The two store loops of `a6xx_hfi_queue_write`, run for `n` more iterations
from loop counter `i`: `queue[write] = src[i]; write = (write + 1) % queue_size`.
The first loop has `src = msg`, the second stores the constant `0xFAFAFAFA`. -/
def queue_write_copy (queue_size : Nat) (src : Mem) :
    Nat → Nat → Nat → Mem → Option (Nat × Mem)
  | 0, _, write, queue => some (write, queue)
  | n + 1, i, write, queue =>
    match umod (u32 (write + 1)) queue_size with
    | none => none
    | some next =>
      queue_write_copy queue_size src n (i + 1) next (store queue write (src i))

/-- The function `a6xx_hfi_queue_write`. `major` is the value of
`GMU_VER_MAJOR(gmu->ver.hfi)`. The result is the returned `int` and the queue
afterwards; the doorbell register write has no effect on the queue. -/
def a6xx_hfi_queue_write (major : Nat) (q : hfi_queue) (msg : Mem) :
    Option (Int × hfi_queue) :=
  let size := MSG_HDR_GET_SIZE (msg 0)
  let align_size := ALIGN size SZ_4
  if q.hdr.status = HFI_QUEUE_STATUS_DISABLED then some (-EINVAL, q)
  else if size > HFI_MAX_MSG_SIZE then some (-EINVAL, q)
  else if empty_space q.hdr ≤ align_size then some (-ENOSPC, q)
  else
    match queue_write_copy q.hdr.queue_size msg size 0 q.hdr.write_index q.queue with
    | none => none
    | some (write, queue) =>
      let padded : Option (Nat × Mem) :=
        if major ≥ 2 then
          queue_write_copy q.hdr.queue_size (fun _ => 0xFAFAFAFA) (align_size - size) size
            write queue
        else some (write, queue)
      match padded with
      | none => none
      | some (write, queue) =>
        some (0, { hdr := { q.hdr with write_index := write }, queue := queue })

/-- The first loop of `a6xx_hfi_start` on one queue header: an enabled queue
whose indices differ gets `read_index = write_index`. -/
def hfi_start_resync_hdr (hdr : hfi_queue_header) : hfi_queue_header :=
  if hdr.status = HFI_QUEUE_STATUS_DISABLED then hdr
  else if hdr.read_index ≠ hdr.write_index then { hdr with read_index := hdr.write_index }
  else hdr

/-- The first loop of `a6xx_hfi_start` over `tbl->qhdr[0 .. HFI_QUEUE_MAX)`. -/
def hfi_start_resync (qhdr : Fin HFI_QUEUE_MAX → hfi_queue_header) :
    Fin HFI_QUEUE_MAX → hfi_queue_header :=
  fun i => hfi_start_resync_hdr (qhdr i)

/-! ## Sequence numbers, acknowledgements and the blocking send -/

/-- Modelled from the spec: the errno constant returned when an acknowledgement
has no matching sender (the errno header lies outside the driver sources). -/
def ENODEV : Int := 19

/-- Modelled from the spec: the errno constant behind the Timeout result
(the errno header lies outside the driver sources). -/
def ETIMEDOUT : Int := 110

def HFI_V1_MSG_POST : Nat := 1
def HFI_V1_MSG_ACK : Nat := 2
def F2H_MSG_ERR : Nat := 100
def F2H_MSG_DEBUG : Nat := 101
def HFI_ACK_ERROR : Nat := 0xffffffff

/-- The bit `BIT(0)` of the interrupt status register. -/
def HFI_IRQ_MSGQ_MASK : Nat := 1

/-- The macro `MSG_HDR_SET_SEQNUM(hdr, num)`; the shift of the `unsigned int`
`num` is truncated to 32 bits. -/
def MSG_HDR_SET_SEQNUM (hdr num : Nat) : Nat := (hdr &&& 0xFFFFF) ||| u32 (num <<< 20)

/-- The macro `HDR_CMP_SEQNUM(out_hdr, in_hdr)`. -/
def HDR_CMP_SEQNUM (out_hdr in_hdr : Nat) : Bool :=
  MSG_HDR_GET_SEQNUM out_hdr == MSG_HDR_GET_SEQNUM in_hdr

/-- The call `memcpy(dst, src, nbytes)` on little-endian word arrays: whole
words below `nbytes / 4` are copied, and the low `nbytes % 4` bytes of the next
word. -/
def memcpy (dst src : Mem) (nbytes : Nat) : Mem := fun i =>
  if i < nbytes / 4 then src i
  else if i = nbytes / 4 then
    dst i / 2 ^ (8 * (nbytes % 4)) * 2 ^ (8 * (nbytes % 4)) + src i % 2 ^ (8 * (nbytes % 4))
  else dst i

/-- The fields of `struct pending_cmd`; `results` has `MAX_RCVD_SIZE` words. -/
structure pending_cmd where
  sent_hdr : Nat
  results : Mem

/-- The queue indices `HFI_CMD_ID`, `HFI_MSG_ID`, `HFI_DBG_ID` as positions of
`tbl->qhdr`. -/
def HFI_CMD_ID : Fin HFI_QUEUE_MAX := ⟨0, by decide⟩
def HFI_MSG_ID : Fin HFI_QUEUE_MAX := ⟨1, by decide⟩
def HFI_DBG_ID : Fin HFI_QUEUE_MAX := ⟨2, by decide⟩

/-- The shared HFI memory as the host sees it: for each of the `HFI_QUEUE_MAX`
queues its header and its ring body. -/
abbrev hfi_mem := Fin HFI_QUEUE_MAX → hfi_queue

/-- The assignment of one queue of the shared memory. -/
def hfi_mem_set (tbl : hfi_mem) (idx : Fin HFI_QUEUE_MAX) (q : hfi_queue) : hfi_mem :=
  fun j => if j = idx then q else tbl j

/-- The parts of `struct a6xx_hfi` the send path works on: the counter
`seqnum`, kept as the unsigned 32-bit value of the `atomic_t`, and the
contents of `hfi_mem`. -/
structure a6xx_hfi where
  seqnum : Nat
  hfi_mem : hfi_mem

/-- The function `receive_ack_cmd`; a null `ret_cmd` is `none`. The result is
the returned `int` and the pending command afterwards (the error print and the
fault snapshot leave both alone). -/
def receive_ack_cmd (rcvd : Mem) (ret_cmd : Option pending_cmd) : Int × Option pending_cmd :=
  let hdr := rcvd 0
  let req_hdr := rcvd 1
  match ret_cmd with
  | none => (-EINVAL, none)
  | some p =>
    if HDR_CMP_SEQNUM p.sent_hdr req_hdr then
      (0, some { p with results := memcpy p.results rcvd (MSG_HDR_GET_SIZE hdr <<< 2) })
    else (-ENODEV, some p)

/-- A call of one of the handlers that only print: `receive_err_req`,
`receive_debug_req`, or the `default` case of the request switch. Each carries
the header word of the message (the `default` case its id). -/
inductive hfi_event where
  | err_req (hdr : Nat)
  | debug_req (hdr : Nat)
  | not_supported (id : Nat)
  deriving DecidableEq, Repr

/-- The request `switch (MSG_HDR_GET_ID(rcvd[0]))` shared by the V1 and the V2
receive paths. -/
def hfi_request_handler (rcvd : Mem) : hfi_event :=
  if MSG_HDR_GET_ID (rcvd 0) = F2H_MSG_ERR then hfi_event.err_req (rcvd 0)
  else if MSG_HDR_GET_ID (rcvd 0) = F2H_MSG_DEBUG then hfi_event.debug_req (rcvd 0)
  else hfi_event.not_supported (MSG_HDR_GET_ID (rcvd 0))

/-- The function `a6xx_hfi_v1_receiver`: the result of `receive_ack_cmd` is
dropped. -/
def a6xx_hfi_v1_receiver (rcvd : Mem) (ret_cmd : Option pending_cmd) :
    Option pending_cmd × List hfi_event :=
  if MSG_HDR_GET_TYPE (rcvd 0) = HFI_V1_MSG_ACK then ((receive_ack_cmd rcvd ret_cmd).2, [])
  else (ret_cmd, [hfi_request_handler rcvd])

/-- What `a6xx_hfi_process_queue` leaves behind: the returned `int`, the queue,
the local buffer `rcvd`, the pending command and the handler calls made. -/
structure process_result where
  rc : Int
  q : hfi_queue
  rcvd : Mem
  ret_cmd : Option pending_cmd
  events : List hfi_event

/-- The function `a6xx_hfi_process_queue` on the queue `q`. The `while` loop
has no bound in the source: `fuel` bounds the number of reads, and `none`
also stands for a loop that has not ended within it. `rcvd` is the local
receive buffer, `events` the handler calls made so far. -/
def a6xx_hfi_process_queue (major : Nat) :
    Nat → hfi_queue → Mem → Option pending_cmd → List hfi_event → Option process_result
  | 0, _, _, _, _ => none
  | fuel + 1, q, rcvd, ret_cmd, events =>
    match a6xx_hfi_queue_read major q rcvd (4 * MAX_RCVD_SIZE) with
    | none => none
    | some (n, q, rcvd) =>
      if n > 0 then
        if major < 2 then
          a6xx_hfi_process_queue major fuel q rcvd (a6xx_hfi_v1_receiver rcvd ret_cmd).1
            (events ++ (a6xx_hfi_v1_receiver rcvd ret_cmd).2)
        else if MSG_HDR_GET_TYPE (rcvd 0) = HFI_MSG_ACK then
          if (receive_ack_cmd rcvd ret_cmd).1 ≠ 0 then
            some { rc := (receive_ack_cmd rcvd ret_cmd).1, q := q, rcvd := rcvd,
                   ret_cmd := (receive_ack_cmd rcvd ret_cmd).2, events := events }
          else
            a6xx_hfi_process_queue major fuel q rcvd (receive_ack_cmd rcvd ret_cmd).2 events
        else
          a6xx_hfi_process_queue major fuel q rcvd ret_cmd (events ++ [hfi_request_handler rcvd])
      else some { rc := 0, q := q, rcvd := rcvd, ret_cmd := ret_cmd, events := events }

/-- The function `poll_gmu_reg`: `reads` are the register values seen by the
loop before the deadline, `last` the value of the final read. -/
def poll_gmu_reg : List Nat → Nat → Nat → Nat → Int
  | [], last, expected_val, mask => if last &&& mask = expected_val then 0 else -ETIMEDOUT
  | val :: reads, last, expected_val, mask =>
    if val &&& mask = expected_val then 0 else poll_gmu_reg reads last expected_val mask

/-- What the surroundings contribute to one blocking send: the values of
`A6XX_GMU_GMU2HOST_INTR_INFO` read by `poll_gmu_reg`, the change `fw` the
firmware makes to the shared memory while the host waits, and the contents
`rcvd` of the not yet written receive buffer. -/
structure send_env where
  reads : List Nat
  last : Nat
  fw : hfi_mem → hfi_mem
  rcvd : Mem

/-- What `a6xx_hfi_send_cmd` leaves behind: the returned `int`, the HFI state,
the command buffer, the pending command and the handler calls made. -/
structure send_result where
  rc : Int
  hfi : a6xx_hfi
  cmd : Mem
  ret_cmd : Option pending_cmd
  events : List hfi_event

/-- The function `a6xx_hfi_send_cmd`. `atomic_inc_return` wraps at 32 bits; the
register writes (doorbell, interrupt clear) do not act on the state kept here. -/
def a6xx_hfi_send_cmd (major fuel : Nat) (env : send_env) (hfi : a6xx_hfi)
    (queue_idx : Fin HFI_QUEUE_MAX) (data : Mem) (ret_cmd : Option pending_cmd) :
    Option send_result :=
  let seqnum := u32 (hfi.seqnum + 1)
  let cmd := store data 0 (MSG_HDR_SET_SEQNUM (data 0) seqnum)
  match ret_cmd with
  | none =>
    match a6xx_hfi_queue_write major (hfi.hfi_mem queue_idx) cmd with
    | none => none
    | some (rc, q) =>
      some { rc := rc, hfi := { seqnum := seqnum, hfi_mem := hfi_mem_set hfi.hfi_mem queue_idx q },
             cmd := cmd, ret_cmd := none, events := [] }
  | some p =>
    let p : pending_cmd := { p with sent_hdr := cmd 0 }
    match a6xx_hfi_queue_write major (hfi.hfi_mem queue_idx) cmd with
    | none => none
    | some (rc, q) =>
      if rc ≠ 0 then
        some { rc := rc,
               hfi := { seqnum := seqnum, hfi_mem := hfi_mem_set hfi.hfi_mem queue_idx q },
               cmd := cmd, ret_cmd := some p, events := [] }
      else
        let rc := poll_gmu_reg env.reads env.last HFI_IRQ_MSGQ_MASK HFI_IRQ_MSGQ_MASK
        let mem := env.fw (hfi_mem_set hfi.hfi_mem queue_idx q)
        if rc ≠ 0 then
          some { rc := rc, hfi := { seqnum := seqnum, hfi_mem := mem },
                 cmd := cmd, ret_cmd := some p, events := [] }
        else
          match a6xx_hfi_process_queue major fuel (mem HFI_MSG_ID) env.rcvd (some p) [] with
          | none => none
          | some r =>
            some { rc := r.rc,
                   hfi := { seqnum := seqnum, hfi_mem := hfi_mem_set mem HFI_MSG_ID r.q },
                   cmd := cmd, ret_cmd := r.ret_cmd, events := r.events }

/-- The pending command after `memset(&ret_cmd, 0, sizeof(ret_cmd))`. -/
def pending_zero : pending_cmd := { sent_hdr := 0, results := fun _ => 0 }

/-- The function `a6xx_hfi_send_generic_req`; the pending command is a local
of the function, the result keeps it for inspection. -/
def a6xx_hfi_send_generic_req (major fuel : Nat) (env : send_env) (hfi : a6xx_hfi)
    (queue : Fin HFI_QUEUE_MAX) (cmd : Mem) : Option send_result :=
  match a6xx_hfi_send_cmd major fuel env hfi queue cmd (some pending_zero) with
  | none => none
  | some r =>
    if r.rc = 0 ∧ (r.ret_cmd.getD pending_zero).results 2 = HFI_ACK_ERROR then
      some { r with rc := -EINVAL }
    else some r

/-- One call in a run of consecutive calls of `a6xx_hfi_send_cmd`: its
arguments and surroundings, and the change `before` made to the shared memory
since the previous call. -/
structure send_call where
  fuel : Nat
  env : send_env
  before : hfi_mem → hfi_mem
  queue_idx : Fin HFI_QUEUE_MAX
  data : Mem
  ret_cmd : Option pending_cmd

/-- Consecutive calls of `a6xx_hfi_send_cmd` on one `struct a6xx_hfi`; the
result lists the header word each call left in its command buffer. -/
def send_cmd_run (major : Nat) : List send_call → a6xx_hfi → Option (List Nat × a6xx_hfi)
  | [], hfi => some ([], hfi)
  | c :: cs, hfi =>
    match a6xx_hfi_send_cmd major c.fuel c.env { hfi with hfi_mem := c.before hfi.hfi_mem }
        c.queue_idx c.data c.ret_cmd with
    | none => none
    | some r =>
      match send_cmd_run major cs r.hfi with
      | none => none
      | some (hdrs, hfi1) => some (r.cmd 0 :: hdrs, hfi1)

/-- The first loop of `a6xx_hfi_start` on the shared memory: only the headers
are visited. -/
def a6xx_hfi_start_index_check (tbl : hfi_mem) : hfi_mem :=
  fun i => { tbl i with hdr := hfi_start_resync (fun j => (tbl j).hdr) i }

/-! ## Start and stop of the link -/

/-- The calls made by `a6xx_hfi_start` and `a6xx_hfi_stop` whose result comes
from the firmware or from the power code: `a6xx_hfi_send_gmu_init`,
`a6xx_hfi_get_fw_version`, `a6xx_hfi_send_dcvstbl_v1`, the generic requests
for `dcvs_table`, `bw_table` and `acd_table`, `a6xx_hfi_send_feature_ctrl` for
ACD and for LM, the `H2F_MSG_SET_VALUE` request, `a6xx_hfi_send_core_fw_start`,
`a6xx_hfi_send_test`, `kgsl_pwrctrl_set_default_gpu_pwrlevel` and
`kgsl_pwrctrl_axi` with `KGSL_PWRFLAGS_ON` and `KGSL_PWRFLAGS_OFF`. -/
inductive hfi_step where
  | gmu_init
  | get_fw_version
  | dcvstbl_v1
  | dcvs_table
  | bw_table
  | acd_table
  | feature_ctrl_acd
  | feature_ctrl_lm
  | set_value_lm
  | core_fw_start
  | test
  | default_gpu_pwrlevel
  | axi_on
  | axi_off
  deriving DecidableEq, Repr

/-- The two version prints of `a6xx_hfi_verify_fw_version`, with the wanted
and the reported number. -/
inductive hfi_warning where
  | fw_major_error (wanted got : Nat)
  | fw_minor_error (wanted got : Nat)
  deriving DecidableEq, Repr

/-- What the surroundings contribute to a start or stop: the value each call
returns, what it does to the HFI state, and the version word the firmware
reports in its acknowledgement. -/
structure start_env where
  result : hfi_step → Int
  effect : hfi_step → a6xx_hfi → a6xx_hfi
  fw_ver : Nat

/-- The device properties read by `a6xx_hfi_start`: `legacy` is
`adreno_is_a630 || adreno_is_a615_family`, `major` is
`GMU_VER_MAJOR(gmu->ver.hfi)`, `quirk_hfi_use_reg` is
`ADRENO_QUIRK(adreno_dev, ADRENO_QUIRK_HFI_USE_REG)`, `gmu_major` and
`gmu_minor` are the fields of `a6xx_core`; `ver_major` and `ver_minor` stand
for the macros `GMU_VER_MAJOR` and `GMU_VER_MINOR`, whose header lies outside
the driver sources. -/
structure start_cfg where
  legacy : Bool
  major : Nat
  quirk_hfi_use_reg : Bool
  acd_enabled : Bool
  lm_enabled : Bool
  gmu_major : Nat
  gmu_minor : Nat
  ver_major : Nat → Nat
  ver_minor : Nat → Nat

/-- The device state `a6xx_hfi_start` and `a6xx_hfi_stop` work on: `started`
is the bit `GMU_PRIV_HFI_STARTED` of `gmu->flags`, `ver_core` is
`gmu->ver.core`; `calls` lists the calls made so far and `warnings` the
version prints. -/
structure gmu_dev where
  started : Bool
  ver_core : Nat
  hfi : a6xx_hfi
  calls : List hfi_step
  warnings : List hfi_warning

/-- One call of a step: its result, its effect on the HFI state, and its entry
in the list of calls. -/
def hfi_call (env : start_env) (s : hfi_step) (dev : gmu_dev) : Int × gmu_dev :=
  (env.result s, { dev with hfi := env.effect s dev.hfi, calls := dev.calls ++ [s] })

/-- The pattern `if (result) goto err;` between two steps: a non-zero result
ends the sequence. -/
def hfi_then (r : Int × gmu_dev) (next : gmu_dev → Int × gmu_dev) : Int × gmu_dev :=
  if r.1 ≠ 0 then r else next r.2

/-- The function `a6xx_hfi_verify_fw_version`. -/
def a6xx_hfi_verify_fw_version (cfg : start_cfg) (env : start_env) (dev : gmu_dev) :
    Int × gmu_dev :=
  if dev.ver_core ≠ 0 then (0, dev)
  else
    let major := cfg.gmu_major
    let minor := cfg.gmu_minor
    let r := hfi_call env hfi_step.get_fw_version dev
    if r.1 ≠ 0 then r
    else
      let ver := env.fw_ver
      let w1 := if major ≠ cfg.ver_major ver then
        [hfi_warning.fw_major_error major (cfg.ver_major ver)] else []
      let w2 := if minor > cfg.ver_minor ver then
        [hfi_warning.fw_minor_error (cfg.ver_minor ver) minor] else []
      (0, { r.2 with ver_core := ver, warnings := r.2.warnings ++ w1 ++ w2 })

/-- The function `a6xx_hfi_send_acd_feature_ctrl`. -/
def a6xx_hfi_send_acd_feature_ctrl (cfg : start_cfg) (env : start_env) (dev : gmu_dev) :
    Int × gmu_dev :=
  if cfg.acd_enabled then
    hfi_then (hfi_call env hfi_step.acd_table dev) (hfi_call env hfi_step.feature_ctrl_acd)
  else (0, dev)

/-- The function `a6xx_hfi_send_lm_feature_ctrl`. -/
def a6xx_hfi_send_lm_feature_ctrl (cfg : start_cfg) (env : start_env) (dev : gmu_dev) :
    Int × gmu_dev :=
  if !cfg.lm_enabled then (0, dev)
  else hfi_then (hfi_call env hfi_step.feature_ctrl_lm dev) (hfi_call env hfi_step.set_value_lm)

/-- The function `a6xx_hfi_stop`: the loop over the queues only prints, then
`kgsl_pwrctrl_axi` is called and the bit `GMU_PRIV_HFI_STARTED` is cleared. -/
def a6xx_hfi_stop (env : start_env) (dev : gmu_dev) : gmu_dev :=
  { (hfi_call env hfi_step.axi_off dev).2 with started := false }

/-- The body of `a6xx_hfi_start` from the legacy init message down to the
label `err`. -/
def a6xx_hfi_start_steps (cfg : start_cfg) (env : start_env) (dev : gmu_dev) : Int × gmu_dev :=
  hfi_then (if cfg.legacy then hfi_call env hfi_step.gmu_init dev else (0, dev)) fun dev =>
  hfi_then (a6xx_hfi_verify_fw_version cfg env dev) fun dev =>
  hfi_then (if cfg.major < 2 then hfi_call env hfi_step.dcvstbl_v1 dev
            else hfi_call env hfi_step.dcvs_table dev) fun dev =>
  hfi_then (hfi_call env hfi_step.bw_table dev) fun dev =>
  hfi_then (if cfg.major ≥ 2 then
              hfi_then (a6xx_hfi_send_acd_feature_ctrl cfg env dev) fun dev =>
              hfi_then (a6xx_hfi_send_lm_feature_ctrl cfg env dev) fun dev =>
              hfi_call env hfi_step.core_fw_start dev
            else if cfg.quirk_hfi_use_reg then hfi_call env hfi_step.test dev
            else (0, dev)) fun dev =>
  hfi_then (hfi_call env hfi_step.default_gpu_pwrlevel { dev with started := true }) fun dev =>
  hfi_call env hfi_step.axi_on dev

/-- The function `a6xx_hfi_start`. -/
def a6xx_hfi_start (cfg : start_cfg) (env : start_env) (dev : gmu_dev) : Int × gmu_dev :=
  let dev := { dev with hfi := { dev.hfi with
                 hfi_mem := a6xx_hfi_start_index_check dev.hfi.hfi_mem } }
  let r := a6xx_hfi_start_steps cfg env dev
  if r.1 ≠ 0 then (r.1, a6xx_hfi_stop env r.2) else r

/-! ## The interrupt handler -/

/-- The bits `BIT(1)`, `BIT(2)` and `BIT(15)` of the interrupt status. -/
def HFI_IRQ_SIDEMSGQ_MASK : Nat := 2
def HFI_IRQ_DBGQ_MASK : Nat := 4
def HFI_IRQ_CM3_FAULT_MASK : Nat := 0x8000
def HFI_IRQ_MASK : Nat := HFI_IRQ_SIDEMSGQ_MASK ||| HFI_IRQ_DBGQ_MASK ||| HFI_IRQ_CM3_FAULT_MASK

/-- What `a6xx_hfi_irq_handler` leaves behind: the shared memory, the value of
`gmu->cm3_fault`, the handler calls made while the debug queue was processed,
and the status bits it reported as unhandled, if any. -/
structure irq_result where
  hfi_mem : hfi_mem
  cm3_fault : Nat
  events : List hfi_event
  unhandled : Option Nat

/-- The function `a6xx_hfi_irq_handler`; `status` is the value read from
`A6XX_GMU_GMU2HOST_INTR_INFO` (32 bits), the register write that clears the
interrupt does not act on the state kept here, and the result of
`a6xx_hfi_process_queue` is dropped as in the source. -/
def a6xx_hfi_irq_handler (major fuel : Nat) (status : Nat) (rcvd : Mem) (mem : hfi_mem)
    (cm3_fault : Nat) : Option irq_result :=
  let processed : Option (hfi_mem × List hfi_event) :=
    if status &&& HFI_IRQ_DBGQ_MASK ≠ 0 then
      match a6xx_hfi_process_queue major fuel (mem HFI_DBG_ID) rcvd none [] with
      | none => none
      | some r => some (hfi_mem_set mem HFI_DBG_ID r.q, r.events)
    else some (mem, [])
  match processed with
  | none => none
  | some (mem, events) =>
    some { hfi_mem := mem,
           cm3_fault := if status &&& HFI_IRQ_CM3_FAULT_MASK ≠ 0 then 1 else cm3_fault,
           events := events,
           unhandled :=
             if status &&& (0xFFFFFFFF ^^^ HFI_IRQ_MASK) ≠ 0 then
               some (status &&& (0xFFFFFFFF ^^^ HFI_IRQ_MASK))
             else none }

/-! ## The queue table and its layout -/

/-- Modelled from the spec: the size constants `SZ_16` and `SZ_4K` of the
kernel headers, which lie outside the driver sources. -/
def SZ_16 : Nat := 16
def SZ_4K : Nat := 0x1000

def HFI_QUEUE_SIZE : Nat := SZ_4K

def HFI_DSP_ID_0 : Fin HFI_QUEUE_MAX := ⟨3, by decide⟩

def HFI_CMD_IDX : Nat := 0
def HFI_MSG_IDX : Nat := 1
def HFI_DBG_IDX : Nat := 2
def HFI_DSP_IDX_0 : Nat := 3
def HFI_CMD_IDX_LEGACY : Nat := 0
def HFI_DSP_IDX_0_LEGACY : Nat := 1
def HFI_MSG_IDX_LEGACY : Nat := 4
def HFI_DBG_IDX_LEGACY : Nat := 5

def HFI_CMD_PRI : Nat := 10
def HFI_MSG_PRI : Nat := 10
def HFI_DBG_PRI : Nat := 40
def HFI_DSP_PRI_0 : Nat := 20

/-- The fields of `struct hfi_queue_table_header`. -/
structure hfi_queue_table_header where
  version : Nat
  size : Nat
  qhdr0_offset : Nat
  qhdr_size : Nat
  num_q : Nat
  num_active_q : Nat

/-- The fields of `struct hfi_queue_table`. -/
structure hfi_queue_table where
  qtbl_hdr : hfi_queue_table_header
  qhdr : Fin HFI_QUEUE_MAX → hfi_queue_header

/-- The value of `sizeof(struct hfi_queue_table_header)`: six `uint32_t`. -/
def sizeof_hfi_queue_table_header : Nat := 6 * 4

/-- The value of `sizeof(struct hfi_queue_header)`: twelve `uint32_t`. -/
def sizeof_hfi_queue_header : Nat := 12 * 4

/-- The value of `sizeof(struct hfi_queue_table)`. -/
def sizeof_hfi_queue_table : Nat :=
  sizeof_hfi_queue_table_header + HFI_QUEUE_MAX * sizeof_hfi_queue_header

/-- Total header sizes + queue sizes + 16 for alignment. -/
def HFIMEM_SIZE : Nat := sizeof_hfi_queue_table + 16 + HFI_QUEUE_SIZE * HFI_QUEUE_MAX

def HFI_QUEUE_OFFSET (i : Nat) : Nat := ALIGN sizeof_hfi_queue_table SZ_16 + i * HFI_QUEUE_SIZE

/-- The macro `GMU_QUEUE_START_ADDR(hfi_mem, i)`; `gmuaddr` is the field of
the memory descriptor. -/
def GMU_QUEUE_START_ADDR (gmuaddr i : Nat) : Nat := gmuaddr + HFI_QUEUE_OFFSET i

def QUEUE_HDR_TYPE (id prio rtype stype : Nat) : Nat :=
  (id &&& 0xFF) ||| ((prio &&& 0xFF) <<< 8) ||| ((rtype &&& 0xFF) <<< 16) |||
    ((stype &&& 0xFF) <<< 24)

/-- One entry `{ idx, pri, status }` of the local array `queue` of
`init_queues`. -/
structure queue_spec where
  idx : Nat
  pri : Nat
  status : Nat

/-- The local array `queue` of `init_queues` after the overwrite of the queue
ids for legacy firmware (`legacy` is
`adreno_is_a630 || adreno_is_a615_family`). -/
def init_queue_specs (legacy : Bool) (i : Fin HFI_QUEUE_MAX) : queue_spec :=
  if i = HFI_CMD_ID then
    { idx := HFI_CMD_IDX, pri := HFI_CMD_PRI, status := HFI_QUEUE_STATUS_ENABLED }
  else if i = HFI_MSG_ID then
    { idx := if legacy then HFI_MSG_IDX_LEGACY else HFI_MSG_IDX, pri := HFI_MSG_PRI,
      status := HFI_QUEUE_STATUS_ENABLED }
  else if i = HFI_DBG_ID then
    { idx := if legacy then HFI_DBG_IDX_LEGACY else HFI_DBG_IDX, pri := HFI_DBG_PRI,
      status := HFI_QUEUE_STATUS_ENABLED }
  else
    { idx := if legacy then HFI_DSP_IDX_0_LEGACY else HFI_DSP_IDX_0, pri := HFI_DSP_PRI_0,
      status := HFI_QUEUE_STATUS_DISABLED }

/-- The function `init_queues`: the table written at `mem_addr->hostptr`. The
headers are zeroed by `memset` before four of their fields are filled;
`start_addr` is a `uint32_t`. -/
def init_queues (legacy : Bool) (gmuaddr : Nat) : hfi_queue_table :=
  { qtbl_hdr :=
      { version := 0,
        size := sizeof_hfi_queue_table >>> 2,
        qhdr0_offset := sizeof_hfi_queue_table_header >>> 2,
        qhdr_size := sizeof_hfi_queue_header >>> 2,
        num_q := HFI_QUEUE_MAX,
        num_active_q := HFI_QUEUE_MAX },
    qhdr := fun i =>
      { status := (init_queue_specs legacy i).status,
        start_addr := u32 (GMU_QUEUE_START_ADDR gmuaddr i.val),
        type := QUEUE_HDR_TYPE (init_queue_specs legacy i).idx (init_queue_specs legacy i).pri 0 0,
        queue_size := HFI_QUEUE_SIZE >>> 2,
        msg_size := 0,
        read_index := 0,
        write_index := 0 } }

/-- The number of queue headers of a table whose status is
`HFI_QUEUE_STATUS_ENABLED`. -/
def count_enabled (tbl : hfi_queue_table) : Nat :=
  ((List.finRange HFI_QUEUE_MAX).filter
    (fun i => (tbl.qhdr i).status = HFI_QUEUE_STATUS_ENABLED)).length

/-! ## The get-value request -/

def H2F_MSG_GET_VALUE : Nat := 12

/-- The value of `sizeof(struct hfi_get_value_cmd)`: three `uint32_t`. -/
def sizeof_hfi_get_value_cmd : Nat := 3 * 4

/-- The value of `sizeof(req->data)`: sixteen `uint32_t`. -/
def sizeof_get_value_data : Nat := 16 * 4

/-- The byte count `(MSG_HDR_GET_SIZE(reply->hdr) - 2) << 2` of
`a6xx_hfi_send_get_value`, in unsigned 32-bit arithmetic. -/
def get_value_copy_bytes (hdr : Nat) : Nat := u32 (usub32 (MSG_HDR_GET_SIZE hdr) 2 <<< 2)

/-- The function `a6xx_hfi_send_get_value`. `req_cmd` and `req_data` are the
two members of the request, `req_data` indexed from `data[0]` (its words from
16 on are what lies behind the array); `ret_cmd` is the local pending command,
which the source does not initialise. The result is the returned `int`, what
the send left behind, and `req_data` afterwards. -/
def a6xx_hfi_send_get_value (major fuel : Nat) (env : send_env) (hfi : a6xx_hfi)
    (req_cmd req_data : Mem) (ret_cmd : pending_cmd) : Option (Int × send_result × Mem) :=
  let cmd := store req_cmd 0 (CMD_MSG_HDR H2F_MSG_GET_VALUE sizeof_hfi_get_value_cmd)
  match a6xx_hfi_send_cmd major fuel env hfi HFI_CMD_ID cmd (some ret_cmd) with
  | none => none
  | some r =>
    if r.rc ≠ 0 then some (r.rc, r, req_data)
    else
      let reply := (r.ret_cmd.getD ret_cmd).results
      let data := memset_zero req_data sizeof_get_value_data
      some (0, r, memcpy data (fun i => reply (i + 2)) (get_value_copy_bytes (reply 0)))

/-! ## Runs of writes and reads -/

/-- Consecutive calls of `a6xx_hfi_queue_write` that all return 0. -/
def write_all (major : Nat) : hfi_queue → List Mem → Option hfi_queue
  | q, [] => some q
  | q, m :: ms =>
    match a6xx_hfi_queue_write major q m with
    | none => none
    | some (rc, q1) => if rc = 0 then write_all major q1 ms else none

/-- The results of `k` consecutive calls of `a6xx_hfi_queue_read`, each into a
buffer with the contents `out`: the returned `int` and the buffer of each
call, and the queue after the last. -/
def read_all (major max_size : Nat) (out : Mem) :
    Nat → hfi_queue → Option (List (Int × Mem) × hfi_queue)
  | 0, q => some ([], q)
  | k + 1, q =>
    match a6xx_hfi_queue_read major q out max_size with
    | none => none
    | some (n, q1, out1) =>
      match read_all major max_size out k q1 with
      | none => none
      | some (rs, q2) => some ((n, out1) :: rs, q2)

/-! ## Predicates used by the statements -/

/-- The index-range invariant of a queue header. -/
def index_inv (hdr : hfi_queue_header) : Prop :=
  0 < hdr.queue_size ∧ hdr.read_index < hdr.queue_size ∧ hdr.write_index < hdr.queue_size

/-- The number of words between the read index and the write index. -/
def used_words (hdr : hfi_queue_header) : Nat :=
  (hdr.write_index + hdr.queue_size - hdr.read_index) % hdr.queue_size

/-- The handshake calls made since the list `base`: none of them is the
`kgsl_pwrctrl_axi` call of `a6xx_hfi_stop`, all returned 0 when the result is
0, and one of them returned the result when it is not 0. -/
def steps_ok (env : start_env) (base : List hfi_step) (r : Int × gmu_dev) : Prop :=
  ∃ ss, r.2.calls = base ++ ss ∧ hfi_step.axi_off ∉ ss ∧
    (r.1 = 0 → ∀ s ∈ ss, env.result s = 0) ∧
    (r.1 ≠ 0 → ∃ s ∈ ss, env.result s = r.1)

/-- The command buffer after `a6xx_hfi_send_cmd` has stamped the next
sequence number into its header. -/
def stamped_cmd (hfi : a6xx_hfi) (data : Mem) : Mem :=
  store data 0 (MSG_HDR_SET_SEQNUM (data 0) (u32 (hfi.seqnum + 1)))

/-- The number of ring words a write of `msg` takes: the size of the header,
rounded up to 4 dwords from protocol version 2 on. -/
def framed_size (major : Nat) (msg : Mem) : Nat :=
  if major ≥ 2 then ALIGN (MSG_HDR_GET_SIZE (msg 0)) SZ_4 else MSG_HDR_GET_SIZE (msg 0)

/-- The messages `ms` lie one behind the other in the ring from word `pos` on,
each taking its framed size, and end at word `w`. -/
def stored (major : Nat) (ring : Mem) : Nat → List Mem → Nat → Prop
  | pos, [], w => pos = w
  | pos, m :: ms, w =>
    (∀ i, i < MSG_HDR_GET_SIZE (m 0) → ring (pos + i) = m i) ∧
      stored major ring (pos + framed_size major m) ms w

/-- The device `d` is reached from the call list `base` and the HFI state `h0`
by calls of steps alone: its call list is `base` followed by the calls made,
and its HFI state is `h0` after the effects of these calls, in their order. -/
def steps_run (env : start_env) (base : List hfi_step) (h0 : a6xx_hfi) (d : gmu_dev) : Prop :=
  ∃ ss, d.calls = base ++ ss ∧ d.hfi = ss.foldl (fun h s => env.effect s h) h0

/-! ## Concrete data used to instantiate the statements -/

/-- An enabled, empty queue of 16 dwords with both indices at 0. -/
def q16 : hfi_queue :=
  { hdr := { status := HFI_QUEUE_STATUS_ENABLED, start_addr := 0, type := 0, queue_size := 16,
             msg_size := 0, read_index := 0, write_index := 0 },
    queue := fun _ => 0 }

/-- A command of 8 dwords (32 bytes) with id 5. -/
def msg8 : Mem := fun i => if i = 0 then CMD_MSG_HDR 5 32 else 100 + i

/-- The 16-dword queue with four free words: `read_index = 4`, `write_index = 0`. -/
def q16_tight : hfi_queue :=
  { q16 with hdr := { q16.hdr with read_index := 4 } }

/-- The 16-dword queue, disabled. -/
def q16_off : hfi_queue :=
  { q16 with hdr := { q16.hdr with status := HFI_QUEUE_STATUS_DISABLED, write_index := 8 } }

/-- The 16-dword queue whose head word declares 20 dwords, one more than the
receive buffer holds. -/
def q16_big : hfi_queue :=
  { hdr := { q16.hdr with write_index := 4 }, queue := fun _ => CMD_MSG_HDR 5 80 }

/-- The 16-dword queue with a read index beyond the ring: `read_index = 16`. -/
def q16_oor : hfi_queue :=
  { q16 with hdr := { q16.hdr with read_index := 16 } }

/-- An output buffer filled with a marker word. -/
def out7 : Mem := fun _ => 7

/-- An HFI state whose counter is about to wrap, with four copies of the empty
16-dword queue. -/
def hfi_wrap : a6xx_hfi := { seqnum := 0xFFFFFFFF, hfi_mem := fun _ => q16 }

/-- Surroundings in which the interrupt bit never shows and the firmware
leaves the shared memory alone. -/
def env_silent : send_env := { reads := [0, 0], last := 0, fw := id, rcvd := out7 }

/-- A call that sends the 8-dword command on the command queue without a
pending command. -/
def call_msg8 : send_call :=
  { fuel := 4, env := env_silent, before := id, queue_idx := HFI_CMD_ID, data := msg8,
    ret_cmd := none }

/-- A pending command whose sent header carries the sequence number 5. -/
def pending5 : pending_cmd :=
  { sent_hdr := MSG_HDR_SET_SEQNUM (CMD_MSG_HDR 1 8) 5, results := fun _ => 0 }

/-- An acknowledgement of 4 dwords that echoes the header of `pending5`. -/
def ack5 : Mem := fun i =>
  if i = 0 then ACK_MSG_HDR 1 16
  else if i = 1 then MSG_HDR_SET_SEQNUM (CMD_MSG_HDR 1 8) 5
  else if i = 2 then 0
  else if i = 3 then 0xAA
  else 0

/-- An acknowledgement of 4 dwords that echoes a header with sequence number 6. -/
def ack6 : Mem := fun i =>
  if i = 0 then ACK_MSG_HDR 1 16
  else if i = 1 then MSG_HDR_SET_SEQNUM (CMD_MSG_HDR 1 8) 6
  else 0

/-- A shared memory with stale indices: the message queue holds
`read_index = 4`, `write_index = 0`, the dispatch queue is disabled with
differing indices. -/
def mem_stale : hfi_mem := fun i =>
  if i = HFI_MSG_ID then q16_tight else if i = ⟨3, by decide⟩ then q16_off else q16

/-- A device that expects firmware version 2.0, runs protocol version 2 and
has no optional feature; the example reads the major number of a version word
from bits 28 to 31 and the minor number from bits 16 to 27. -/
def cfg_v2 : start_cfg :=
  { legacy := false, major := 2, quirk_hfi_use_reg := false, acd_enabled := false,
    lm_enabled := false, gmu_major := 2, gmu_minor := 0,
    ver_major := fun ver => (ver >>> 28) &&& 0xF,
    ver_minor := fun ver => (ver >>> 16) &&& 0xFFF }

/-- Surroundings in which every call returns 0 and leaves the HFI state alone,
and the firmware reports version 1.0. -/
def env_fw_v1 : start_env :=
  { result := fun _ => 0, effect := fun _ hfi => hfi, fw_ver := 0x10000000 }

/-- Surroundings in which only `kgsl_pwrctrl_set_default_gpu_pwrlevel` fails. -/
def env_pwr_fails : start_env :=
  { result := fun s => if s = hfi_step.default_gpu_pwrlevel then -EINVAL else 0,
    effect := fun _ hfi => hfi, fw_ver := 0x20000000 }

/-- A device before its first start, with stale indices in the shared memory. -/
def dev_fresh : gmu_dev :=
  { started := false, ver_core := 0, hfi := { seqnum := 0, hfi_mem := mem_stale },
    calls := [], warnings := [] }

/-- An HFI state whose next sequence number is 5, with four copies of the
empty 16-dword queue. -/
def hfi_seq4 : a6xx_hfi := { seqnum := 4, hfi_mem := fun _ => q16 }

/-- A request of 2 dwords with id 1; stamped with sequence number 5 its header
is the sent header of `pending5`. -/
def cmd_req : Mem := fun i => if i = 0 then CMD_MSG_HDR 1 8 else 0

/-- An acknowledgement of 4 dwords for sequence number 5 whose word 2 reports
an error. -/
def ack5_err : Mem := fun i =>
  if i = 0 then ACK_MSG_HDR 1 16
  else if i = 1 then MSG_HDR_SET_SEQNUM (CMD_MSG_HDR 1 8) 5
  else if i = 2 then HFI_ACK_ERROR
  else 0

/-- Surroundings in which the firmware answers with `ack5_err` in the message
queue and raises the interrupt bit. -/
def env_ack_err : send_env :=
  { reads := [1], last := 1,
    fw := fun mem => hfi_mem_set mem HFI_MSG_ID
      { hdr := { q16.hdr with write_index := 4 }, queue := ack5_err },
    rcvd := out7 }

/-- A message queue that holds the acknowledgement `ack5` in words 0 to 3 and
a debug message of 4 dwords in words 4 to 7. -/
def q_ack_dbg : hfi_queue :=
  { hdr := { q16.hdr with write_index := 8 },
    queue := fun i =>
      if i < 4 then ack5 i
      else if i = 4 then CREATE_MSG_HDR F2H_MSG_DEBUG 16 HFI_MSG_CMD
      else if i < 8 then 7
      else 0 }

/-- A message queue that holds the acknowledgement `ack6` in words 0 to 3 and
the acknowledgement `ack5` in words 4 to 7. -/
def q_ack6_ack5 : hfi_queue :=
  { hdr := { q16.hdr with write_index := 8 },
    queue := fun i => if i < 4 then ack6 i else if i < 8 then ack5 (i - 4) else 0 }

/-- A shared memory whose message queue holds the acknowledgement `ack5` and a
debug message; the other queues are empty. -/
def mem_msg_pending : hfi_mem := fun i => if i = HFI_MSG_ID then q_ack_dbg else q16

/-- A shared memory whose debug queue holds the acknowledgement `ack5` and a
debug message; the other queues are empty. -/
def mem_dbg_pending : hfi_mem := fun i => if i = HFI_DBG_ID then q_ack_dbg else q16

/-- An acknowledgement of 19 dwords, the most the receive buffer takes, for the
get-value request with sequence number 5; its 17 data words are `0x102` to
`0x112`. -/
def ack19 : Mem := fun i =>
  if i = 0 then ACK_MSG_HDR H2F_MSG_GET_VALUE 76
  else if i = 1 then
    MSG_HDR_SET_SEQNUM (CMD_MSG_HDR H2F_MSG_GET_VALUE sizeof_hfi_get_value_cmd) 5
  else 0x100 + i

/-- Surroundings in which the firmware answers with `ack19` in a message queue
of 32 dwords and raises the interrupt bit. -/
def env_ack19 : send_env :=
  { reads := [1], last := 1,
    fw := fun mem => hfi_mem_set mem HFI_MSG_ID
      { hdr := { q16.hdr with queue_size := 32, write_index := 20 }, queue := ack19 },
    rcvd := out7 }

/-- Surroundings in which the interrupt bit shows and the firmware leaves the
shared memory alone. -/
def env_bit_only : send_env := { reads := [1], last := 1, fw := id, rcvd := out7 }

/-- The 16-dword queue with `write_index = 4` whose ring holds only zeros: the
head header has the size field 0. -/
def q16_zero : hfi_queue := { q16 with hdr := { q16.hdr with write_index := 4 } }

/-- The 16-dword queue with a write index beyond the ring: `write_index = 20`. -/
def q16_woor : hfi_queue := { q16 with hdr := { q16.hdr with write_index := 20 } }

/-- A queue of 4 dwords whose read index was set beyond the ring by the
consumer: `read_index = 1000`, `write_index = 0`. -/
def q4_roor : hfi_queue :=
  { q16 with hdr := { q16.hdr with queue_size := 4, read_index := 1000 } }

/-- A second command, of 3 dwords with id 6. -/
def msg3 : Mem := fun i => if i = 0 then CMD_MSG_HDR 6 12 else 200 + i

/-- A message queue that holds one debug message of 4 dwords and nothing
else. -/
def q_dbg_only : hfi_queue :=
  { hdr := { q16.hdr with write_index := 4 },
    queue := fun i =>
      if i = 0 then CREATE_MSG_HDR F2H_MSG_DEBUG 16 HFI_MSG_CMD
      else if i < 4 then 7
      else 0 }

/-- Surroundings in which the firmware raises the interrupt bit and puts only
a debug message into the message queue. -/
def env_dbg_only : send_env :=
  { reads := [1], last := 1, fw := fun mem => hfi_mem_set mem HFI_MSG_ID q_dbg_only,
    rcvd := out7 }

/-- Surroundings in which the firmware raises the interrupt bit and answers
with the acknowledgement `ack5` followed by a debug message. -/
def env_ack5 : send_env :=
  { reads := [1], last := 1, fw := fun mem => hfi_mem_set mem HFI_MSG_ID q_ack_dbg,
    rcvd := out7 }

/-- The empty 16-dword queue after the version-2 write of the 3-dword command
`msg3`. -/
def q16_msg3 : hfi_queue := ((a6xx_hfi_queue_write 2 q16 msg3).getD (0, q16)).2

/-! ## Arithmetic of the header fields -/

theorem and_ff (x : Nat) : x &&& 0xFF = x % 256 := by
  have := Nat.and_pow_two_sub_one_eq_mod x 8
  simpa using this
theorem and_f (x : Nat) : x &&& 0xF = x % 16 := by
  have := Nat.and_pow_two_sub_one_eq_mod x 4
  simpa using this
theorem and_fff (x : Nat) : x &&& 0xFFF = x % 4096 := by
  have := Nat.and_pow_two_sub_one_eq_mod x 12
  simpa using this
theorem get_id_eq (h : Nat) : MSG_HDR_GET_ID h = h % 256 := by
  simp [MSG_HDR_GET_ID, and_ff]
theorem get_size_eq (h : Nat) : MSG_HDR_GET_SIZE h = h / 256 % 256 := by
  simp [MSG_HDR_GET_SIZE, and_ff, Nat.shiftRight_eq_div_pow]
theorem get_type_eq (h : Nat) : MSG_HDR_GET_TYPE h = h / 65536 % 16 := by
  simp [MSG_HDR_GET_TYPE, and_f, Nat.shiftRight_eq_div_pow]
theorem get_seqnum_eq (h : Nat) : MSG_HDR_GET_SEQNUM h = h / 1048576 % 4096 := by
  simp [MSG_HDR_GET_SEQNUM, and_fff, Nat.shiftRight_eq_div_pow]
theorem create_eq (id size type : Nat) :
    CREATE_MSG_HDR id size type = type * 65536 + (size / 4 % 256) * 256 + id % 256 := by
  unfold CREATE_MSG_HDR
  rw [and_ff, and_ff, Nat.shiftRight_eq_div_pow, Nat.shiftLeft_eq, Nat.shiftLeft_eq]
  have hs : size / 2 ^ 2 % 256 < 256 := Nat.mod_lt _ (by decide)
  have hi : id % 256 < 2 ^ 8 := Nat.mod_lt _ (by decide)
  have hb : size / 2 ^ 2 % 256 * 2 ^ 8 < 2 ^ 16 := by omega
  have h1 := Nat.mul_add_lt_is_or hb type
  have e1 : type * 2 ^ 16 = 2 ^ 16 * type := Nat.mul_comm _ _
  rw [e1, ← h1]
  have e2 : 2 ^ 16 * type + size / 2 ^ 2 % 256 * 2 ^ 8
      = 2 ^ 8 * (2 ^ 8 * type + size / 2 ^ 2 % 256) := by omega
  rw [e2, ← Nat.mul_add_lt_is_or hi]
  omega

/-! ## The copy loops -/

theorem umod_pos (a : Nat) {b : Nat} (hb : 0 < b) : umod a b = some (a % b) := by
  simp [umod, Nat.pos_iff_ne_zero.mp hb]

theorem u32_of_lt {x : Nat} (h : x < 2 ^ 32) : u32 x = x := Nat.mod_eq_of_lt h

theorem mod_cases {a m : Nat} (h : a < 2 * m) : a % m = if a < m then a else a - m := by
  split
  · next h1 => exact Nat.mod_eq_of_lt h1
  · next h1 =>
    rw [Nat.mod_eq_sub_mod (by omega)]
    exact Nat.mod_eq_of_lt (by omega)

theorem add_mod_ne_self {w d m : Nat} (hw : w < m) (hd0 : 0 < d) (hd : d < m) :
    (w + d) % m ≠ w := by
  rw [mod_cases (by omega)]
  split <;> omega

theorem store_same (m : Mem) (a v : Nat) : store m a v a = v := by simp [store]

theorem store_other (m : Mem) {a j : Nat} (v : Nat) (h : j ≠ a) : store m a v j = m j := by
  simp [store, h]

theorem queue_write_copy_spec (qsz : Nat) (src : Mem) (hq32 : qsz < 2 ^ 32) :
    ∀ (n i w : Nat) (ring : Mem), w < qsz → n ≤ qsz →
      ∃ ring1, queue_write_copy qsz src n i w ring = some ((w + n) % qsz, ring1) ∧
        (∀ k, k < n → ring1 ((w + k) % qsz) = src (i + k)) ∧
        (∀ j, (∀ k, k < n → j ≠ (w + k) % qsz) → ring1 j = ring j) := by
  intro n
  induction n with
  | zero =>
    intro i w ring hw _
    exact ⟨ring, by simp [queue_write_copy, Nat.mod_eq_of_lt hw], by simp, by simp⟩
  | succ n ih =>
    intro i w ring hw hn
    have hq : 0 < qsz := by omega
    have hw1 : (w + 1) % qsz < qsz := Nat.mod_lt _ hq
    obtain ⟨ring1, h1, h2, h3⟩ := ih (i + 1) ((w + 1) % qsz) (store ring w (src i)) hw1 (by omega)
    have hidx : ∀ k, ((w + 1) % qsz + k) % qsz = (w + (k + 1)) % qsz := by
      intro k
      rw [Nat.mod_add_mod]
      congr 1
      omega
    refine ⟨ring1, ?_, ?_, ?_⟩
    · simp only [queue_write_copy]
      rw [u32_of_lt (by omega), umod_pos _ hq]
      simp only [h1, hidx]
    · intro k hk
      cases k with
      | zero =>
        have hfr := h3 w (by
          intro k hk1
          rw [hidx]
          exact (add_mod_ne_self hw (by omega) (by omega)).symm)
        simp [Nat.mod_eq_of_lt hw, hfr, store_same]
      | succ k =>
        have := h2 k (by omega)
        rw [hidx] at this
        rw [this]
        congr 1
        omega
    · intro j hj
      have hjw : j ≠ w := by
        have := hj 0 (by omega)
        simpa [Nat.mod_eq_of_lt hw] using this
      rw [h3 j (by
        intro k hk
        rw [hidx]
        exact hj (k + 1) (by omega))]
      exact store_other _ _ hjw

theorem queue_read_copy_spec (ring : Mem) (qsz : Nat) (hq32 : qsz < 2 ^ 32) :
    ∀ (n i r : Nat) (out : Mem), r < qsz →
      ∃ out1, queue_read_copy ring qsz n i r out = some ((r + n) % qsz, out1) ∧
        (∀ k, k < n → out1 (i + k) = ring ((r + k) % qsz)) ∧
        (∀ j, (j < i ∨ i + n ≤ j) → out1 j = out j) := by
  intro n
  induction n with
  | zero =>
    intro i r out hr
    exact ⟨out, by simp [queue_read_copy, Nat.mod_eq_of_lt hr], by simp, by simp⟩
  | succ n ih =>
    intro i r out hr
    have hq : 0 < qsz := by omega
    have hr1 : (r + 1) % qsz < qsz := Nat.mod_lt _ hq
    obtain ⟨out1, h1, h2, h3⟩ := ih (i + 1) ((r + 1) % qsz) (store out i (ring r)) hr1
    have hidx : ∀ k, ((r + 1) % qsz + k) % qsz = (r + (k + 1)) % qsz := by
      intro k
      rw [Nat.mod_add_mod]
      congr 1
      omega
    refine ⟨out1, ?_, ?_, ?_⟩
    · simp only [queue_read_copy]
      rw [u32_of_lt (by omega), umod_pos _ hq]
      simp only [h1, hidx]
    · intro k hk
      cases k with
      | zero =>
        rw [Nat.add_zero, h3 i (by omega), store_same, Nat.add_zero, Nat.mod_eq_of_lt hr]
      | succ k =>
        have := h2 k (by omega)
        rw [hidx] at this
        rw [← this]
        congr 1
        omega
    · intro j hj
      rw [h3 j (by omega)]
      exact store_other _ _ (by omega)

/-! ## The write path -/

theorem get_size_le (h : Nat) : MSG_HDR_GET_SIZE h ≤ 255 := by
  rw [get_size_eq]; omega

theorem ALIGN4_eq (x : Nat) (hx : x + 3 < 2 ^ 32) : ALIGN x SZ_4 = (x + 3) / 4 * 4 := by
  simp [ALIGN, SZ_4, u32_of_lt hx]

theorem ALIGN4_bounds (x : Nat) (hx : x + 3 < 2 ^ 32) :
    x ≤ ALIGN x SZ_4 ∧ ALIGN x SZ_4 < x + 4 ∧ ALIGN x SZ_4 % 4 = 0 := by
  rw [ALIGN4_eq x hx]; omega

theorem ALIGN4_lt (x : Nat) : ALIGN x SZ_4 < 2 ^ 32 := by
  have : u32 (x + 3) < 2 ^ 32 := Nat.mod_lt _ (by decide)
  simp only [ALIGN, SZ_4]
  have h2 : u32 (x + (4 - 1)) = u32 (x + 3) := rfl
  rw [h2]
  omega

theorem usub32_of_le {a b : Nat} (ha : a < 2 ^ 32) (hb : b ≤ a) : usub32 a b = a - b := by
  unfold usub32
  rw [show a + 2 ^ 32 - b = (a - b) + 2 ^ 32 by omega, Nat.add_mod_right]
  exact Nat.mod_eq_of_lt (by omega)

theorem empty_space_in_range (hdr : hfi_queue_header) (hq32 : hdr.queue_size < 2 ^ 32)
    (hr : hdr.read_index < hdr.queue_size) (hw : hdr.write_index < hdr.queue_size) :
    empty_space hdr =
      if hdr.write_index ≥ hdr.read_index then
        hdr.queue_size - (hdr.write_index - hdr.read_index)
      else hdr.read_index - hdr.write_index := by
  unfold empty_space
  split
  · next h =>
    rw [usub32_of_le (by omega) h, usub32_of_le hq32 (by omega)]
  · next h =>
    rw [usub32_of_le (by omega) (by omega)]

theorem add_mod_inj {w a b m : Nat} (hw : w < m) (ha : a < m) (hb : b < m)
    (h : (w + a) % m = (w + b) % m) : a = b := by
  rw [mod_cases (by omega), mod_cases (by omega)] at h
  split at h <;> split at h <;> omega

theorem queue_write_ok (major : Nat) (q : hfi_queue) (msg : Mem)
    (hen : q.hdr.status ≠ HFI_QUEUE_STATUS_DISABLED)
    (hq32 : q.hdr.queue_size < 2 ^ 32)
    (hw : q.hdr.write_index < q.hdr.queue_size)
    (hsp : ALIGN (MSG_HDR_GET_SIZE (msg 0)) SZ_4 < empty_space q.hdr)
    (hfit : ALIGN (MSG_HDR_GET_SIZE (msg 0)) SZ_4 ≤ q.hdr.queue_size) :
    ∃ ring1,
      a6xx_hfi_queue_write major q msg =
        some (0, { hdr := { q.hdr with write_index :=
          (q.hdr.write_index +
            (if major ≥ 2 then ALIGN (MSG_HDR_GET_SIZE (msg 0)) SZ_4
              else MSG_HDR_GET_SIZE (msg 0))) % q.hdr.queue_size },
                   queue := ring1 }) ∧
      (∀ k, k < MSG_HDR_GET_SIZE (msg 0) →
        ring1 ((q.hdr.write_index + k) % q.hdr.queue_size) = msg k) ∧
      (major ≥ 2 → ∀ k, MSG_HDR_GET_SIZE (msg 0) ≤ k → k < ALIGN (MSG_HDR_GET_SIZE (msg 0)) SZ_4 →
        ring1 ((q.hdr.write_index + k) % q.hdr.queue_size) = 0xFAFAFAFA) ∧
      (∀ j, (∀ k, k < (if major ≥ 2 then ALIGN (MSG_HDR_GET_SIZE (msg 0)) SZ_4
              else MSG_HDR_GET_SIZE (msg 0)) → j ≠ (q.hdr.write_index + k) % q.hdr.queue_size) →
        ring1 j = q.queue j) := by
  have hL := get_size_le (msg 0)
  obtain ⟨hA1, hA2, _⟩ := ALIGN4_bounds (MSG_HDR_GET_SIZE (msg 0)) (by omega)
  generalize hLdef : MSG_HDR_GET_SIZE (msg 0) = L at *
  generalize hAdef : ALIGN L SZ_4 = A at *
  have hq : 0 < q.hdr.queue_size := by omega
  obtain ⟨ring1, e1, m1, f1⟩ :=
    queue_write_copy_spec q.hdr.queue_size msg hq32 L 0 q.hdr.write_index q.queue hw (by omega)
  have hnot : ¬ (L > HFI_MAX_MSG_SIZE) := by
    simp [HFI_MAX_MSG_SIZE, SZ_1K]; omega
  have hsp2 : ¬ (empty_space q.hdr ≤ A) := by omega
  by_cases hm : major ≥ 2
  · have hw1 : (q.hdr.write_index + L) % q.hdr.queue_size < q.hdr.queue_size := Nat.mod_lt _ hq
    obtain ⟨ring2, e2, m2, f2⟩ :=
      queue_write_copy_spec q.hdr.queue_size (fun _ => 0xFAFAFAFA) hq32 (A - L) L
        ((q.hdr.write_index + L) % q.hdr.queue_size) ring1 hw1 (by omega)
    have hidx : ∀ k, ((q.hdr.write_index + L) % q.hdr.queue_size + k) % q.hdr.queue_size
        = (q.hdr.write_index + (L + k)) % q.hdr.queue_size := by
      intro k
      rw [Nat.mod_add_mod, Nat.add_assoc]
    refine ⟨ring2, ?_, ?_, ?_, ?_⟩
    · unfold a6xx_hfi_queue_write
      simp only [hLdef, hAdef, hen, hnot, hsp2, if_false, e1, hm, if_true, e2, hidx]
      rw [show L + (A - L) = A by omega]
    · intro k hk
      rw [f2, m1 k hk, Nat.zero_add]
      intro k1 hk1
      rw [hidx]
      intro heq
      have := add_mod_inj hw (by omega) (by omega) heq
      omega
    · intro _ k hk1 hk2
      have := m2 (k - L) (by omega)
      rw [hidx, show L + (k - L) = k by omega] at this
      exact this
    · intro j hj
      simp only [hm, if_true] at hj
      rw [f2, f1]
      · intro k hk
        exact hj k (by omega)
      · intro k hk
        rw [hidx]
        exact hj (L + k) (by omega)
  · refine ⟨ring1, ?_, ?_, ?_, ?_⟩
    · unfold a6xx_hfi_queue_write
      simp only [hLdef, hAdef, hen, hnot, hsp2, if_false, e1, hm]
    · intro k hk
      rw [m1 k hk, Nat.zero_add]
    · intro h; exact absurd h hm
    · intro j hj
      simp only [hm, if_false] at hj
      exact f1 j hj

/-! ## The read path and the index invariant -/

theorem queue_read_ok (major : Nat) (q : hfi_queue) (out : Mem) (max_size : Nat)
    (hen : q.hdr.status ≠ HFI_QUEUE_STATUS_DISABLED)
    (hq32 : q.hdr.queue_size < 2 ^ 32)
    (hne : q.hdr.read_index ≠ q.hdr.write_index)
    (hr : q.hdr.read_index < q.hdr.queue_size)
    (hcap : MSG_HDR_GET_SIZE (q.queue q.hdr.read_index) ≤ max_size >>> 2) :
    ∃ out1,
      a6xx_hfi_queue_read major q out max_size =
        some ((MSG_HDR_GET_SIZE (q.queue q.hdr.read_index) : Int),
          { q with hdr := { q.hdr with read_index :=
              (if major ≥ 2 then
                ALIGN ((q.hdr.read_index + MSG_HDR_GET_SIZE (q.queue q.hdr.read_index))
                  % q.hdr.queue_size) SZ_4 % q.hdr.queue_size
              else (q.hdr.read_index + MSG_HDR_GET_SIZE (q.queue q.hdr.read_index))
                  % q.hdr.queue_size) } },
          out1) ∧
      (∀ k, k < MSG_HDR_GET_SIZE (q.queue q.hdr.read_index) →
        out1 k = q.queue ((q.hdr.read_index + k) % q.hdr.queue_size)) ∧
      (∀ j, MSG_HDR_GET_SIZE (q.queue q.hdr.read_index) ≤ j →
        out1 j = memset_zero out max_size j) := by
  generalize hLdef : MSG_HDR_GET_SIZE (q.queue q.hdr.read_index) = L at *
  have hq : 0 < q.hdr.queue_size := by omega
  obtain ⟨out1, e1, m1, f1⟩ :=
    queue_read_copy_spec q.queue q.hdr.queue_size hq32 L 0 q.hdr.read_index
      (memset_zero out max_size) hr
  have hnot : ¬ (L > max_size >>> 2) := by omega
  have hmin : min L (max_size >>> 2) = L := Nat.min_eq_left hcap
  refine ⟨out1, ?_, ?_, ?_⟩
  · unfold a6xx_hfi_queue_read
    simp only [hLdef, hen, hne, hnot, if_false, hr, if_true, hmin, e1]
    by_cases hm : major ≥ 2
    · simp only [hm, if_true, umod_pos _ hq]
    · simp only [hm, if_false]
  · intro k hk
    have := m1 k hk
    rwa [Nat.zero_add] at this
  · intro j hj
    exact f1 j (by omega)

theorem queue_write_zero_inv (major : Nat) (q q1 : hfi_queue) (msg : Mem)
    (h : a6xx_hfi_queue_write major q msg = some (0, q1)) :
    q.hdr.status ≠ HFI_QUEUE_STATUS_DISABLED ∧
      ALIGN (MSG_HDR_GET_SIZE (msg 0)) SZ_4 < empty_space q.hdr := by
  unfold a6xx_hfi_queue_write at h
  by_cases h1 : q.hdr.status = HFI_QUEUE_STATUS_DISABLED
  · simp [h1, EINVAL] at h
  · by_cases h2 : MSG_HDR_GET_SIZE (msg 0) > HFI_MAX_MSG_SIZE
    · simp [h1, h2, EINVAL] at h
    · by_cases h3 : empty_space q.hdr ≤ ALIGN (MSG_HDR_GET_SIZE (msg 0)) SZ_4
      · simp [h1, h2, h3, ENOSPC] at h
      · exact ⟨h1, by omega⟩

theorem queue_write_copy_inv (qsz : Nat) (src : Mem) (hq : 0 < qsz) :
    ∀ (n i w : Nat) (ring : Mem), w < qsz →
      ∃ w1 ring1, queue_write_copy qsz src n i w ring = some (w1, ring1) ∧ w1 < qsz := by
  intro n
  induction n with
  | zero => intro i w ring hw; exact ⟨w, ring, rfl, hw⟩
  | succ n ih =>
    intro i w ring hw
    obtain ⟨w1, ring1, h1, h2⟩ :=
      ih (i + 1) (u32 (w + 1) % qsz) (store ring w (src i)) (Nat.mod_lt _ hq)
    exact ⟨w1, ring1, by simp only [queue_write_copy, umod_pos _ hq, h1], h2⟩

theorem queue_read_copy_inv (ring : Mem) (qsz : Nat) (hq : 0 < qsz) :
    ∀ (n i r : Nat) (out : Mem), r < qsz →
      ∃ r1 out1, queue_read_copy ring qsz n i r out = some (r1, out1) ∧ r1 < qsz := by
  intro n
  induction n with
  | zero => intro i r out hr; exact ⟨r, out, rfl, hr⟩
  | succ n ih =>
    intro i r out hr
    obtain ⟨r1, out1, h1, h2⟩ :=
      ih (i + 1) (u32 (r + 1) % qsz) (store out i (ring r)) (Nat.mod_lt _ hq)
    exact ⟨r1, out1, by simp only [queue_read_copy, umod_pos _ hq, h1], h2⟩

theorem queue_write_inv (major : Nat) (q : hfi_queue) (msg : Mem) (hinv : index_inv q.hdr) :
    ∃ ret q1, a6xx_hfi_queue_write major q msg = some (ret, q1) ∧ index_inv q1.hdr := by
  obtain ⟨hq, hr, hw⟩ := hinv
  unfold a6xx_hfi_queue_write
  by_cases h1 : q.hdr.status = HFI_QUEUE_STATUS_DISABLED
  · exact ⟨-EINVAL, q, by simp [h1], hq, hr, hw⟩
  · by_cases h2 : MSG_HDR_GET_SIZE (msg 0) > HFI_MAX_MSG_SIZE
    · exact ⟨-EINVAL, q, by simp [h1, h2], hq, hr, hw⟩
    · by_cases h3 : empty_space q.hdr ≤ ALIGN (MSG_HDR_GET_SIZE (msg 0)) SZ_4
      · exact ⟨-ENOSPC, q, by simp [h1, h2, h3], hq, hr, hw⟩
      · obtain ⟨w1, ring1, e1, hw1⟩ :=
          queue_write_copy_inv q.hdr.queue_size msg hq (MSG_HDR_GET_SIZE (msg 0)) 0
            q.hdr.write_index q.queue hw
        by_cases hm : major ≥ 2
        · obtain ⟨w2, ring2, e2, hw2⟩ :=
            queue_write_copy_inv q.hdr.queue_size (fun _ => 0xFAFAFAFA) hq
              (ALIGN (MSG_HDR_GET_SIZE (msg 0)) SZ_4 - MSG_HDR_GET_SIZE (msg 0))
              (MSG_HDR_GET_SIZE (msg 0)) w1 ring1 hw1
          refine ⟨0, { hdr := { q.hdr with write_index := w2 }, queue := ring2 }, ?_, hq, hr, hw2⟩
          simp only [h1, h2, h3, if_false, e1, hm, if_true, e2]
        · refine ⟨0, { hdr := { q.hdr with write_index := w1 }, queue := ring1 }, ?_, hq, hr, hw1⟩
          simp only [h1, h2, h3, if_false, e1, hm]

theorem queue_read_inv (major : Nat) (q : hfi_queue) (out : Mem) (max_size : Nat)
    (hinv : index_inv q.hdr) :
    ∃ ret q1 out1, a6xx_hfi_queue_read major q out max_size = some (ret, q1, out1) ∧
      index_inv q1.hdr := by
  obtain ⟨hq, hr, hw⟩ := hinv
  unfold a6xx_hfi_queue_read
  by_cases h1 : q.hdr.status = HFI_QUEUE_STATUS_DISABLED
  · exact ⟨-EINVAL, q, out, by simp [h1], hq, hr, hw⟩
  · by_cases h2 : q.hdr.read_index = q.hdr.write_index
    · exact ⟨-ENODATA, q, out, by simp [h1, h2], hq, hr, hw⟩
    · by_cases h3 : MSG_HDR_GET_SIZE (q.queue q.hdr.read_index) > max_size >>> 2
      · exact ⟨-EMSGSIZE, q, memset_zero out max_size, by simp [h1, h2, h3], hq, hr, hw⟩
      · obtain ⟨r1, out1, e1, hr1⟩ :=
          queue_read_copy_inv q.queue q.hdr.queue_size hq
            (min (MSG_HDR_GET_SIZE (q.queue q.hdr.read_index)) (max_size >>> 2)) 0
            q.hdr.read_index (memset_zero out max_size) hr
        by_cases hm : major ≥ 2
        · refine ⟨(MSG_HDR_GET_SIZE (q.queue q.hdr.read_index) : Int),
            { q with hdr := { q.hdr with read_index := (ALIGN r1 SZ_4 % q.hdr.queue_size) } }, out1, ?_, hq, Nat.mod_lt _ hq, hw⟩
          simp only [h1, h2, h3, if_false, hr, if_true, e1, hm, umod_pos _ hq]
        · refine ⟨(MSG_HDR_GET_SIZE (q.queue q.hdr.read_index) : Int),
            { q with hdr := { q.hdr with read_index := r1 } }, out1, ?_, hq, hr1, hw⟩
          simp only [h1, h2, h3, if_false, hr, if_true, e1, hm]

/-! ## Claims on the queue read and write paths -/

theorem write_then_read (major : Nat) (q : hfi_queue) (msg out : Mem) (max_size : Nat)
    (hen : q.hdr.status ≠ HFI_QUEUE_STATUS_DISABLED)
    (hq32 : q.hdr.queue_size < 2 ^ 32)
    (hrw : q.hdr.read_index = q.hdr.write_index)
    (hr : q.hdr.read_index < q.hdr.queue_size)
    (hL1 : 1 ≤ MSG_HDR_GET_SIZE (msg 0))
    (hcap : MSG_HDR_GET_SIZE (msg 0) ≤ max_size >>> 2)
    (hsp : ALIGN (MSG_HDR_GET_SIZE (msg 0)) SZ_4 < empty_space q.hdr) :
    ∃ q1 q2 out2,
      a6xx_hfi_queue_write major q msg = some (0, q1) ∧
      a6xx_hfi_queue_read major q1 out max_size =
        some ((MSG_HDR_GET_SIZE (msg 0) : Int), q2, out2) ∧
      (∀ i, i < MSG_HDR_GET_SIZE (msg 0) → out2 i = msg i) ∧
      q1.hdr.write_index =
        (q.hdr.write_index + (if major ≥ 2 then ALIGN (MSG_HDR_GET_SIZE (msg 0)) SZ_4
          else MSG_HDR_GET_SIZE (msg 0))) % q.hdr.queue_size ∧
      q2.hdr.write_index = q1.hdr.write_index ∧
      q2.hdr.read_index =
        (if major ≥ 2 then
          ALIGN ((q.hdr.read_index + MSG_HDR_GET_SIZE (msg 0)) % q.hdr.queue_size) SZ_4
            % q.hdr.queue_size
        else (q.hdr.read_index + MSG_HDR_GET_SIZE (msg 0)) % q.hdr.queue_size) := by
  have hw : q.hdr.write_index < q.hdr.queue_size := by omega
  have hL := get_size_le (msg 0)
  obtain ⟨hA1, hA2, _⟩ := ALIGN4_bounds (MSG_HDR_GET_SIZE (msg 0)) (by omega)
  have hes := empty_space_in_range q.hdr hq32 hr hw
  rw [if_pos (by omega)] at hes
  have hfit : ALIGN (MSG_HDR_GET_SIZE (msg 0)) SZ_4 < q.hdr.queue_size := by omega
  obtain ⟨ring1, e1, m1, _, _⟩ := queue_write_ok major q msg hen hq32 hw hsp (by omega)
  have hn : 0 < (if major ≥ 2 then ALIGN (MSG_HDR_GET_SIZE (msg 0)) SZ_4
      else MSG_HDR_GET_SIZE (msg 0)) ∧
      (if major ≥ 2 then ALIGN (MSG_HDR_GET_SIZE (msg 0)) SZ_4
      else MSG_HDR_GET_SIZE (msg 0)) < q.hdr.queue_size := by
    split <;> omega
  have hhead : ring1 q.hdr.read_index = msg 0 := by
    have := m1 0 (by omega)
    rwa [Nat.add_zero, Nat.mod_eq_of_lt hw, ← hrw] at this
  obtain ⟨out2, e2, m2, _⟩ := queue_read_ok major
    { hdr := { q.hdr with write_index :=
        (q.hdr.write_index + (if major ≥ 2 then ALIGN (MSG_HDR_GET_SIZE (msg 0)) SZ_4
          else MSG_HDR_GET_SIZE (msg 0))) % q.hdr.queue_size },
      queue := ring1 } out max_size hen hq32
    (by
      show q.hdr.read_index ≠ _
      rw [hrw]
      exact (add_mod_ne_self hw hn.1 hn.2).symm)
    hr
    (by
      show MSG_HDR_GET_SIZE (ring1 q.hdr.read_index) ≤ _
      rw [hhead]; exact hcap)
  simp only [hhead] at e2 m2
  refine ⟨_, _, out2, e1, e2, ?_, rfl, rfl, rfl⟩
  intro i hi
  rw [m2 i hi, hrw]
  exact m1 i hi

/-- C1 — Round trip: on an enabled, empty queue with in-range indices, a
message whose header size field `L` satisfies `1 ≤ L ≤ MAX_RCVD_SIZE` and
`ALIGN(L,4) < free space` is written with result 0, and the following read
into a buffer of `MAX_RCVD_SIZE` dwords returns `L` with `output[i] = msg[i]`
for every `i < L`, for every protocol version `major`. -/
theorem C1_write_read_roundtrip (major : Nat) (q : hfi_queue) (msg out : Mem)
    (hen : q.hdr.status ≠ HFI_QUEUE_STATUS_DISABLED)
    (hq32 : q.hdr.queue_size < 2 ^ 32)
    (hrw : q.hdr.read_index = q.hdr.write_index)
    (hr : q.hdr.read_index < q.hdr.queue_size)
    (hL1 : 1 ≤ MSG_HDR_GET_SIZE (msg 0))
    (hL2 : MSG_HDR_GET_SIZE (msg 0) ≤ MAX_RCVD_SIZE)
    (hsp : ALIGN (MSG_HDR_GET_SIZE (msg 0)) SZ_4 < empty_space q.hdr) :
    ∃ q1 q2 out2,
      a6xx_hfi_queue_write major q msg = some (0, q1) ∧
      a6xx_hfi_queue_read major q1 out (4 * MAX_RCVD_SIZE) =
        some ((MSG_HDR_GET_SIZE (msg 0) : Int), q2, out2) ∧
      ∀ i, i < MSG_HDR_GET_SIZE (msg 0) → out2 i = msg i := by
  have hcap : MSG_HDR_GET_SIZE (msg 0) ≤ (4 * MAX_RCVD_SIZE) >>> 2 := by
    have : (4 * MAX_RCVD_SIZE) >>> 2 = MAX_RCVD_SIZE := by decide
    omega
  obtain ⟨q1, q2, out2, h1, h2, h3, _⟩ :=
    write_then_read major q msg out (4 * MAX_RCVD_SIZE) hen hq32 hrw hr hL1 hcap hsp
  exact ⟨q1, q2, out2, h1, h2, h3⟩

theorem msg8_size : MSG_HDR_GET_SIZE (msg8 0) = 8 := by decide

/-- Instance of C1: the 8-dword command on the empty 16-dword queue, legacy
protocol. -/
theorem C1_write_read_roundtrip_witness :
    ∃ q1 q2 out2,
      a6xx_hfi_queue_write 1 q16 msg8 = some (0, q1) ∧
      a6xx_hfi_queue_read 1 q1 out7 (4 * MAX_RCVD_SIZE) =
        some ((MSG_HDR_GET_SIZE (msg8 0) : Int), q2, out2) ∧
      ∀ i, i < MSG_HDR_GET_SIZE (msg8 0) → out2 i = msg8 i :=
  C1_write_read_roundtrip 1 q16 msg8 out7 (by decide) (by decide) (by decide) (by decide)
    (by decide) (by decide) (by decide)

/-- C2 — Reading an enabled queue with `read_index == write_index` returns
`-ENODATA` and leaves the queue header, the ring and the output buffer as
they were. -/
theorem C2_read_empty (major : Nat) (q : hfi_queue) (out : Mem) (max_size : Nat)
    (hen : q.hdr.status ≠ HFI_QUEUE_STATUS_DISABLED)
    (hrw : q.hdr.read_index = q.hdr.write_index) :
    a6xx_hfi_queue_read major q out max_size = some (-ENODATA, q, out) := by
  simp [a6xx_hfi_queue_read, hen, hrw]

/-- Instance of C2: the empty 16-dword queue. -/
theorem C2_read_empty_witness :
    a6xx_hfi_queue_read 2 q16 out7 76 = some (-ENODATA, q16, out7) :=
  C2_read_empty 2 q16 out7 76 (by decide) (by decide)

/-- C3 — On an enabled queue, a write whose free space (the 32-bit value
`queue_size - (write_index - read_index)` when `write_index >= read_index`,
else `read_index - write_index`) is at most `ALIGN(size,4)` returns `-ENOSPC`
and leaves the header and the ring as they were; a write that returns 0 had
free space strictly greater than `ALIGN(size,4)`; with in-range indices the
32-bit free space is the unwrapped difference. -/
theorem C3_write_no_space (major : Nat) (q : hfi_queue) (msg : Mem)
    (hen : q.hdr.status ≠ HFI_QUEUE_STATUS_DISABLED) :
    (empty_space q.hdr ≤ ALIGN (MSG_HDR_GET_SIZE (msg 0)) SZ_4 →
      a6xx_hfi_queue_write major q msg = some (-ENOSPC, q)) ∧
    (∀ q1, a6xx_hfi_queue_write major q msg = some (0, q1) →
      ALIGN (MSG_HDR_GET_SIZE (msg 0)) SZ_4 < empty_space q.hdr) ∧
    (q.hdr.queue_size < 2 ^ 32 → q.hdr.read_index < q.hdr.queue_size →
      q.hdr.write_index < q.hdr.queue_size →
      empty_space q.hdr =
        if q.hdr.write_index ≥ q.hdr.read_index then
          q.hdr.queue_size - (q.hdr.write_index - q.hdr.read_index)
        else q.hdr.read_index - q.hdr.write_index) := by
  refine ⟨?_, ?_, ?_⟩
  · intro hfull
    have hL := get_size_le (msg 0)
    have hnot : ¬ (MSG_HDR_GET_SIZE (msg 0) > HFI_MAX_MSG_SIZE) := by
      simp [HFI_MAX_MSG_SIZE, SZ_1K]; omega
    unfold a6xx_hfi_queue_write
    simp only [hen, hnot, hfull, if_false, if_true]
  · intro q1 h
    exact (queue_write_zero_inv major q q1 msg h).2
  · intro h1 h2 h3
    exact empty_space_in_range q.hdr h1 h2 h3

/-- Instance of C3: four free words do not take the 8-dword command, and the
write that succeeds on the empty queue had more than 8 free words. -/
theorem C3_write_no_space_witness :
    a6xx_hfi_queue_write 1 q16_tight msg8 = some (-ENOSPC, q16_tight) ∧
    ALIGN (MSG_HDR_GET_SIZE (msg8 0)) SZ_4 < empty_space q16.hdr ∧
    empty_space q16_tight.hdr = 4 := by
  refine ⟨(C3_write_no_space 1 q16_tight msg8 (by decide)).1 (by decide), ?_, ?_⟩
  · obtain ⟨q1, h⟩ : ∃ q1, a6xx_hfi_queue_write 1 q16 msg8 = some (0, q1) := ⟨_, rfl⟩
    exact (C3_write_no_space 1 q16 msg8 (by decide)).2.1 q1 h
  · exact (C3_write_no_space 1 q16_tight msg8 (by decide)).2.2 (by decide) (by decide) (by decide)

/-- C4 — Index-range invariant: when `queue_size > 0`, `read_index < queue_size`
and `write_index < queue_size` hold, the write and the read both return
(whatever the result code and the protocol version) and the three facts hold
of the queue afterwards; the index resync of `a6xx_hfi_start` keeps them for
every queue of the table. -/
theorem C4_index_range_invariant (major : Nat) (q : hfi_queue) (msg out : Mem) (max_size : Nat)
    (qhdr : Fin HFI_QUEUE_MAX → hfi_queue_header) (i : Fin HFI_QUEUE_MAX)
    (hinv : index_inv q.hdr) (htbl : index_inv (qhdr i)) :
    (∃ ret q1, a6xx_hfi_queue_write major q msg = some (ret, q1) ∧ index_inv q1.hdr) ∧
    (∃ ret q1 out1, a6xx_hfi_queue_read major q out max_size = some (ret, q1, out1) ∧
      index_inv q1.hdr) ∧
    index_inv (hfi_start_resync qhdr i) := by
  refine ⟨queue_write_inv major q msg hinv, queue_read_inv major q out max_size hinv, ?_⟩
  obtain ⟨h1, h2, h3⟩ := htbl
  unfold hfi_start_resync hfi_start_resync_hdr
  split
  · exact ⟨h1, h2, h3⟩
  · split
    · exact ⟨h1, h3, h3⟩
    · exact ⟨h1, h2, h3⟩

/-- Instance of C4: the 16-dword queue with indices 4 and 0, in a table of four
such queues. -/
theorem C4_index_range_invariant_witness :
    (∃ ret q1, a6xx_hfi_queue_write 2 q16_tight msg8 = some (ret, q1) ∧ index_inv q1.hdr) ∧
    (∃ ret q1 out1, a6xx_hfi_queue_read 2 q16_tight out7 76 = some (ret, q1, out1) ∧
      index_inv q1.hdr) ∧
    index_inv (hfi_start_resync (fun _ => q16_tight.hdr) ⟨0, by decide⟩) :=
  C4_index_range_invariant 2 q16_tight msg8 out7 76 (fun _ => q16_tight.hdr) ⟨0, by decide⟩
    (by unfold index_inv; decide) (by unfold index_inv; decide)

/-- C5 — A successful write of a message with size at least 1 on a queue with
in-range indices leaves `read_index` as it was and `write_index != read_index`:
the number of used words grows by exactly the framed length (`size`, or
`ALIGN(size,4)` from protocol version 2 on) and stays below `queue_size`, so
at least one word of the ring stays unused. -/
theorem C5_write_never_catches_up (major : Nat) (q q1 : hfi_queue) (msg : Mem)
    (hq32 : q.hdr.queue_size < 2 ^ 32)
    (hinv : index_inv q.hdr)
    (hL1 : 1 ≤ MSG_HDR_GET_SIZE (msg 0))
    (hok : a6xx_hfi_queue_write major q msg = some (0, q1)) :
    q1.hdr.read_index = q.hdr.read_index ∧
    q1.hdr.queue_size = q.hdr.queue_size ∧
    q1.hdr.write_index ≠ q1.hdr.read_index ∧
    used_words q1.hdr = used_words q.hdr +
      (if major ≥ 2 then ALIGN (MSG_HDR_GET_SIZE (msg 0)) SZ_4 else MSG_HDR_GET_SIZE (msg 0)) ∧
    used_words q1.hdr < q1.hdr.queue_size := by
  obtain ⟨hq, hr, hw⟩ := hinv
  obtain ⟨hen, hsp⟩ := queue_write_zero_inv major q q1 msg hok
  have hL := get_size_le (msg 0)
  obtain ⟨hA1, hA2, _⟩ := ALIGN4_bounds (MSG_HDR_GET_SIZE (msg 0)) (by omega)
  have hes := empty_space_in_range q.hdr hq32 hr hw
  have hfit : ALIGN (MSG_HDR_GET_SIZE (msg 0)) SZ_4 ≤ q.hdr.queue_size := by
    rw [hes] at hsp
    split at hsp <;> omega
  obtain ⟨ring1, e1, _⟩ := queue_write_ok major q msg hen hq32 hw hsp hfit
  rw [e1] at hok
  have hq1 := (Prod.mk.inj (Option.some.inj hok)).2
  subst hq1
  have hn : 1 ≤ (if major ≥ 2 then ALIGN (MSG_HDR_GET_SIZE (msg 0)) SZ_4
      else MSG_HDR_GET_SIZE (msg 0)) ∧
      (if major ≥ 2 then ALIGN (MSG_HDR_GET_SIZE (msg 0)) SZ_4
      else MSG_HDR_GET_SIZE (msg 0)) ≤ ALIGN (MSG_HDR_GET_SIZE (msg 0)) SZ_4 := by
    split <;> omega
  generalize (if major ≥ 2 then ALIGN (MSG_HDR_GET_SIZE (msg 0)) SZ_4
      else MSG_HDR_GET_SIZE (msg 0)) = n at hn ⊢
  generalize ALIGN (MSG_HDR_GET_SIZE (msg 0)) SZ_4 = A at *
  simp only [used_words]
  rw [hes] at hsp
  rw [mod_cases (a := q.hdr.write_index + n) (by split at hsp <;> omega),
    mod_cases (a := q.hdr.write_index + q.hdr.queue_size - q.hdr.read_index) (by omega)]
  refine ⟨trivial, trivial, ?_, ?_, Nat.mod_lt _ hq⟩
  · split at hsp <;> split <;> omega
  · split at hsp
    · split
      · rw [mod_cases (by omega)]
        split <;> split <;> omega
      · rw [mod_cases (by omega)]
        split <;> split <;> omega
    · split
      · rw [mod_cases (by omega)]
        split <;> split <;> omega
      · rw [mod_cases (by omega)]
        split <;> split <;> omega

/-- Instance of C5: the 8-dword command written to the empty 16-dword queue. -/
theorem C5_write_never_catches_up_witness :
    ∃ q1, a6xx_hfi_queue_write 2 q16 msg8 = some (0, q1) ∧
      q1.hdr.write_index ≠ q1.hdr.read_index ∧ used_words q1.hdr < q1.hdr.queue_size := by
  obtain ⟨q1, h⟩ : ∃ q1, a6xx_hfi_queue_write 2 q16 msg8 = some (0, q1) := ⟨_, rfl⟩
  have := C5_write_never_catches_up 2 q16 q1 msg8 (by decide) (by unfold index_inv; decide)
    (by decide) h
  exact ⟨q1, h, this.2.2.1, this.2.2.2.2⟩

/-- C6 — On a queue whose status is `HFI_QUEUE_STATUS_DISABLED`, the read and
the write both return `-EINVAL` and leave the header, the ring and the output
buffer as they were, whatever the indices and the message. -/
theorem C6_disabled_queue (major : Nat) (q : hfi_queue) (msg out : Mem) (max_size : Nat)
    (hdis : q.hdr.status = HFI_QUEUE_STATUS_DISABLED) :
    a6xx_hfi_queue_read major q out max_size = some (-EINVAL, q, out) ∧
    a6xx_hfi_queue_write major q msg = some (-EINVAL, q) := by
  constructor
  · simp [a6xx_hfi_queue_read, hdis]
  · simp [a6xx_hfi_queue_write, hdis]

/-- Instance of C6: the disabled 16-dword queue. -/
theorem C6_disabled_queue_witness :
    a6xx_hfi_queue_read 2 q16_off out7 76 = some (-EINVAL, q16_off, out7) ∧
    a6xx_hfi_queue_write 2 q16_off msg8 = some (-EINVAL, q16_off) :=
  C6_disabled_queue 2 q16_off msg8 out7 76 (by decide)

/-- C7 — On an enabled, non-empty queue whose head word declares a size above
`max_size >> 2`, the read returns `-EMSGSIZE` (a negative result, so no message
length), leaves the header and the ring as they were, and the output buffer
holds only the zero fill of `memset`: no ring word is copied. -/
theorem C7_message_too_large (major : Nat) (q : hfi_queue) (out : Mem) (max_size : Nat)
    (hen : q.hdr.status ≠ HFI_QUEUE_STATUS_DISABLED)
    (hne : q.hdr.read_index ≠ q.hdr.write_index)
    (hbig : MSG_HDR_GET_SIZE (q.queue q.hdr.read_index) > max_size >>> 2) :
    a6xx_hfi_queue_read major q out max_size = some (-EMSGSIZE, q, memset_zero out max_size) ∧
    -EMSGSIZE < 0 ∧
    ∀ i, i < max_size >>> 2 → memset_zero out max_size i = 0 := by
  refine ⟨?_, by decide, ?_⟩
  · unfold a6xx_hfi_queue_read
    simp only [hen, hne, hbig, if_false, if_true]
  · intro i hi
    have h4 : max_size >>> 2 = max_size / 4 := by
      simp [Nat.shiftRight_eq_div_pow]
    simp only [memset_zero]
    rw [if_pos (by omega)]

/-- Instance of C7: a head word declaring 20 dwords against the 19-dword
buffer. -/
theorem C7_message_too_large_witness :
    a6xx_hfi_queue_read 2 q16_big out7 76 = some (-EMSGSIZE, q16_big, memset_zero out7 76) ∧
    -EMSGSIZE < 0 ∧
    ∀ i, i < 76 >>> 2 → memset_zero out7 76 i = 0 :=
  C7_message_too_large 2 q16_big out7 76 (by decide) (by decide) (by decide)

/-- C8, as stated, fails: on the enabled queue with `queue_size = 16`,
`read_index = 16` and `write_index = 0` the read returns `-ENODATA`, the very
result of a read on the empty queue. -/
theorem C8_counterexample :
    q16_oor.hdr.status ≠ HFI_QUEUE_STATUS_DISABLED ∧
    q16_oor.hdr.read_index ≥ q16_oor.hdr.queue_size ∧
    q16_oor.hdr.read_index ≠ q16_oor.hdr.write_index ∧
    (a6xx_hfi_queue_read 1 q16_oor out7 76).map (fun r => r.1) = some (-ENODATA) ∧
    (a6xx_hfi_queue_read 1 q16 out7 76).map (fun r => r.1) = some (-ENODATA) := by
  refine ⟨by decide, by decide, by decide, by decide, by decide⟩

/-- C8, amended — On an enabled queue with `read_index >= queue_size` and
`read_index != write_index` (and a non-zero `queue_size` when the protocol
version is 2 or more, where the index is reduced modulo `queue_size`), the read
returns `-EMSGSIZE` when the word at `read_index` declares a size above
`max_size >> 2` and `-ENODATA` otherwise, the same value as for an empty queue;
in both cases no ring word is copied: the output holds only the zero fill, and
the ring and `write_index` are as before; `read_index` is as before for
`-EMSGSIZE` and for versions below 2, and `ALIGN(read_index,4) % queue_size`
otherwise. -/
theorem C8_read_index_out_of_range (major : Nat) (q : hfi_queue) (out : Mem) (max_size : Nat)
    (hen : q.hdr.status ≠ HFI_QUEUE_STATUS_DISABLED)
    (hne : q.hdr.read_index ≠ q.hdr.write_index)
    (hoor : q.hdr.read_index ≥ q.hdr.queue_size)
    (hdiv : major < 2 ∨ 0 < q.hdr.queue_size) :
    ∃ q1,
      a6xx_hfi_queue_read major q out max_size =
        some ((if MSG_HDR_GET_SIZE (q.queue q.hdr.read_index) > max_size >>> 2
                then -EMSGSIZE else -ENODATA), q1, memset_zero out max_size) ∧
      q1.queue = q.queue ∧ q1.hdr.write_index = q.hdr.write_index ∧
      q1.hdr.queue_size = q.hdr.queue_size ∧ q1.hdr.status = q.hdr.status ∧
      q1.hdr.read_index =
        (if MSG_HDR_GET_SIZE (q.queue q.hdr.read_index) > max_size >>> 2 then q.hdr.read_index
          else if major ≥ 2 then ALIGN q.hdr.read_index SZ_4 % q.hdr.queue_size
          else q.hdr.read_index) := by
  have hnr : ¬ (q.hdr.read_index < q.hdr.queue_size) := by omega
  unfold a6xx_hfi_queue_read
  by_cases hbig : MSG_HDR_GET_SIZE (q.queue q.hdr.read_index) > max_size >>> 2
  · exact ⟨q, by simp only [hen, hne, hbig, if_false, if_true], rfl, rfl, rfl, rfl,
      by simp only [hbig, if_true]⟩
  · by_cases hm : major ≥ 2
    · have hq : 0 < q.hdr.queue_size := by omega
      refine ⟨{ q with hdr := { q.hdr with read_index :=
        (ALIGN q.hdr.read_index SZ_4 % q.hdr.queue_size) } }, ?_, rfl, rfl, rfl, rfl, ?_⟩
      · simp only [hen, hne, hbig, hnr, hm, if_false, if_true, umod_pos _ hq]
      · simp only [hbig, hm, if_false, if_true]
    · refine ⟨{ q with hdr := { q.hdr with read_index := q.hdr.read_index } }, ?_,
        rfl, rfl, rfl, rfl, ?_⟩
      · simp only [hen, hne, hbig, hnr, hm, if_false]
      · simp only [hbig, hm, if_false]

/-- Instance of the amended C8: `read_index = 16` on the 16-dword queue. -/
theorem C8_read_index_out_of_range_witness :
    ∃ q1,
      a6xx_hfi_queue_read 2 q16_oor out7 76 =
        some ((if MSG_HDR_GET_SIZE (q16_oor.queue q16_oor.hdr.read_index) > 76 >>> 2
                then -EMSGSIZE else -ENODATA), q1, memset_zero out7 76) ∧
      q1.queue = q16_oor.queue ∧ q1.hdr.write_index = q16_oor.hdr.write_index ∧
      q1.hdr.queue_size = q16_oor.hdr.queue_size ∧ q1.hdr.status = q16_oor.hdr.status ∧
      q1.hdr.read_index =
        (if MSG_HDR_GET_SIZE (q16_oor.queue q16_oor.hdr.read_index) > 76 >>> 2
          then q16_oor.hdr.read_index
          else if 2 ≥ 2 then ALIGN q16_oor.hdr.read_index SZ_4 % q16_oor.hdr.queue_size
          else q16_oor.hdr.read_index) :=
  C8_read_index_out_of_range 2 q16_oor out7 76 (by decide) (by decide) (by decide)
    (Or.inr (by decide))

/-- C9 — Full drain: on an enabled queue of capacity `c` with
`read_index = write_index = 0`, writing one message of size `L`
(`1 ≤ L ≤ MAX_RCVD_SIZE`, `ALIGN(L,4) < c`) and reading it into the
`MAX_RCVD_SIZE`-dword buffer returns `L` words equal to the input and leaves
`write_index == read_index`, both `L mod c` for a protocol version below 2 and
`ALIGN(L,4) mod c` from version 2 on. -/
theorem C9_full_drain (major : Nat) (q : hfi_queue) (msg out : Mem)
    (hen : q.hdr.status ≠ HFI_QUEUE_STATUS_DISABLED)
    (hq32 : q.hdr.queue_size < 2 ^ 32)
    (hr0 : q.hdr.read_index = 0)
    (hw0 : q.hdr.write_index = 0)
    (hL1 : 1 ≤ MSG_HDR_GET_SIZE (msg 0))
    (hL2 : MSG_HDR_GET_SIZE (msg 0) ≤ MAX_RCVD_SIZE)
    (hfit : ALIGN (MSG_HDR_GET_SIZE (msg 0)) SZ_4 < q.hdr.queue_size) :
    ∃ q1 q2 out2,
      a6xx_hfi_queue_write major q msg = some (0, q1) ∧
      a6xx_hfi_queue_read major q1 out (4 * MAX_RCVD_SIZE) =
        some ((MSG_HDR_GET_SIZE (msg 0) : Int), q2, out2) ∧
      (∀ i, i < MSG_HDR_GET_SIZE (msg 0) → out2 i = msg i) ∧
      q2.hdr.write_index = q2.hdr.read_index ∧
      q2.hdr.read_index =
        (if major ≥ 2 then ALIGN (MSG_HDR_GET_SIZE (msg 0)) SZ_4 % q.hdr.queue_size
          else MSG_HDR_GET_SIZE (msg 0) % q.hdr.queue_size) := by
  have hcap : MSG_HDR_GET_SIZE (msg 0) ≤ (4 * MAX_RCVD_SIZE) >>> 2 := by
    have : (4 * MAX_RCVD_SIZE) >>> 2 = MAX_RCVD_SIZE := by decide
    omega
  have hL := get_size_le (msg 0)
  obtain ⟨hA1, hA2, _⟩ := ALIGN4_bounds (MSG_HDR_GET_SIZE (msg 0)) (by omega)
  have hr : q.hdr.read_index < q.hdr.queue_size := by omega
  have hes := empty_space_in_range q.hdr hq32 hr (by omega)
  rw [if_pos (by omega)] at hes
  obtain ⟨q1, q2, out2, h1, h2, h3, h4, h5, h6⟩ :=
    write_then_read major q msg out (4 * MAX_RCVD_SIZE) hen hq32 (by omega) hr hL1 hcap
      (by omega)
  refine ⟨q1, q2, out2, h1, h2, h3, ?_, ?_⟩
  · rw [h5, h4, h6, hr0, hw0]
    split
    · rw [Nat.zero_add, Nat.zero_add, Nat.mod_eq_of_lt (a := MSG_HDR_GET_SIZE (msg 0)) (by omega)]
    · rfl
  · rw [h6, hr0]
    split
    · rw [Nat.zero_add, Nat.mod_eq_of_lt (a := MSG_HDR_GET_SIZE (msg 0)) (by omega)]
    · rw [Nat.zero_add]

/-- Instance of C9: capacity 16 and an 8-dword command give
`write_index = 8` and `read_index = 8` after the drain. -/
theorem C9_full_drain_witness :
    ∃ q1 q2 out2,
      a6xx_hfi_queue_write 2 q16 msg8 = some (0, q1) ∧
      a6xx_hfi_queue_read 2 q1 out7 76 = some (8, q2, out2) ∧
      (∀ i, i < 8 → out2 i = msg8 i) ∧
      q2.hdr.write_index = 8 ∧ q2.hdr.read_index = 8 := by
  obtain ⟨q1, q2, out2, h1, h2, h3, h4, h5⟩ :=
    C9_full_drain 2 q16 msg8 out7 (by decide) (by decide) (by decide) (by decide) (by decide)
      (by decide) (by decide)
  have hr : q2.hdr.read_index = 8 := by rw [h5]; decide
  refine ⟨q1, q2, out2, h1, ?_, ?_, by rw [h4, hr], hr⟩
  · rw [msg8_size] at h2
    exact h2
  · intro i hi
    exact h3 i (by rw [msg8_size]; exact hi)

/-- C10 — Header codec round trip: for every `id`, every `size` in bytes and
every `type < 16`, the word `CREATE_MSG_HDR(id, size, type)` has id field
`id mod 256`, size field `(size >> 2) mod 256`, type field `type` and sequence
number 0; the size field is `size / 4` whenever `size / 4 ≤ 255`. -/
theorem C10_header_codec (id size type : Nat) (ht : type < 16) :
    MSG_HDR_GET_ID (CREATE_MSG_HDR id size type) = id % 256 ∧
    MSG_HDR_GET_SIZE (CREATE_MSG_HDR id size type) = (size >>> 2) % 256 ∧
    MSG_HDR_GET_TYPE (CREATE_MSG_HDR id size type) = type ∧
    MSG_HDR_GET_SEQNUM (CREATE_MSG_HDR id size type) = 0 ∧
    (size / 4 ≤ 255 → MSG_HDR_GET_SIZE (CREATE_MSG_HDR id size type) = size / 4) := by
  rw [get_id_eq, get_size_eq, get_type_eq, get_seqnum_eq, create_eq, Nat.shiftRight_eq_div_pow]
  refine ⟨by omega, by omega, by omega, by omega, fun h => by omega⟩

/-- Instance of C10: id 300, 32 bytes, the acknowledgement type. -/
theorem C10_header_codec_witness :
    MSG_HDR_GET_ID (CREATE_MSG_HDR 300 32 HFI_MSG_ACK) = 300 % 256 ∧
    MSG_HDR_GET_SIZE (CREATE_MSG_HDR 300 32 HFI_MSG_ACK) = (32 >>> 2) % 256 ∧
    MSG_HDR_GET_TYPE (CREATE_MSG_HDR 300 32 HFI_MSG_ACK) = HFI_MSG_ACK ∧
    MSG_HDR_GET_SEQNUM (CREATE_MSG_HDR 300 32 HFI_MSG_ACK) = 0 ∧
    MSG_HDR_GET_SIZE (CREATE_MSG_HDR 300 32 HFI_MSG_ACK) = 32 / 4 := by
  obtain ⟨h1, h2, h3, h4, h5⟩ := C10_header_codec 300 32 HFI_MSG_ACK (by decide)
  exact ⟨h1, h2, h3, h4, h5 (by decide)⟩

/-! ## Claims on sequence numbers, acknowledgements and the link life cycle -/

theorem and_fffff (x : Nat) : x &&& 0xFFFFF = x % 1048576 := by
  have := Nat.and_pow_two_sub_one_eq_mod x 20
  simpa using this

theorem set_seqnum_eq (h n : Nat) :
    MSG_HDR_SET_SEQNUM h n = (n % 4096) * 1048576 + h % 1048576 := by
  unfold MSG_HDR_SET_SEQNUM u32
  rw [and_fffff, Nat.shiftLeft_eq]
  have e1 : n * 2 ^ 20 % 2 ^ 32 = 2 ^ 20 * (n % 4096) := by omega
  have hlt : h % 1048576 < 2 ^ 20 := Nat.mod_lt _ (by decide)
  rw [e1, Nat.lor_comm, ← Nat.mul_add_lt_is_or hlt]
  omega

/-- C11 — For every header word `h` and every counter value `n`,
`MSG_HDR_SET_SEQNUM(h, n)` in 32-bit arithmetic keeps the id, size and type
fields of `h` and has the sequence number `n mod 4096`, whatever sequence bits
`h` carried. -/
theorem C11_set_seqnum (h n : Nat) :
    MSG_HDR_GET_ID (MSG_HDR_SET_SEQNUM h n) = MSG_HDR_GET_ID h ∧
    MSG_HDR_GET_SIZE (MSG_HDR_SET_SEQNUM h n) = MSG_HDR_GET_SIZE h ∧
    MSG_HDR_GET_TYPE (MSG_HDR_SET_SEQNUM h n) = MSG_HDR_GET_TYPE h ∧
    MSG_HDR_GET_SEQNUM (MSG_HDR_SET_SEQNUM h n) = n % 4096 ∧
    MSG_HDR_SET_SEQNUM h n < 2 ^ 32 := by
  simp only [get_id_eq, get_size_eq, get_type_eq, get_seqnum_eq, set_seqnum_eq]
  refine ⟨by omega, by omega, by omega, by omega, by omega⟩

/-- Instance of C11: a header with all sequence bits set and the counter value
`2^32 - 1`. -/
theorem C11_set_seqnum_witness :
    MSG_HDR_GET_ID (MSG_HDR_SET_SEQNUM 0xFFF10203 0xFFFFFFFF) = 3 ∧
    MSG_HDR_GET_SIZE (MSG_HDR_SET_SEQNUM 0xFFF10203 0xFFFFFFFF) = 2 ∧
    MSG_HDR_GET_TYPE (MSG_HDR_SET_SEQNUM 0xFFF10203 0xFFFFFFFF) = 1 ∧
    MSG_HDR_GET_SEQNUM (MSG_HDR_SET_SEQNUM 0xFFF10203 0xFFFFFFFF) = 4095 := by
  obtain ⟨h1, h2, h3, h4, _⟩ := C11_set_seqnum 0xFFF10203 0xFFFFFFFF
  refine ⟨h1.trans (by decide), h2.trans (by decide), h3.trans (by decide), h4.trans (by decide)⟩

theorem send_cmd_stamp (major fuel : Nat) (env : send_env) (hfi : a6xx_hfi)
    (idx : Fin HFI_QUEUE_MAX) (data : Mem) (ret_cmd : Option pending_cmd) (r : send_result)
    (h : a6xx_hfi_send_cmd major fuel env hfi idx data ret_cmd = some r) :
    r.hfi.seqnum = u32 (hfi.seqnum + 1) ∧
    r.cmd = store data 0 (MSG_HDR_SET_SEQNUM (data 0) (u32 (hfi.seqnum + 1))) := by
  unfold a6xx_hfi_send_cmd at h
  cases ret_cmd with
  | none =>
    simp only at h
    split at h
    · exact absurd h (by simp)
    · cases h; exact ⟨rfl, rfl⟩
  | some p =>
    simp only at h
    split at h
    · exact absurd h (by simp)
    · split at h
      · cases h; exact ⟨rfl, rfl⟩
      · split at h
        · cases h; exact ⟨rfl, rfl⟩
        · split at h
          · exact absurd h (by simp)
          · cases h; exact ⟨rfl, rfl⟩

theorem send_cmd_run_seq (major : Nat) :
    ∀ (calls : List send_call) (hfi : a6xx_hfi) (hdrs : List Nat) (hfi1 : a6xx_hfi),
      send_cmd_run major calls hfi = some (hdrs, hfi1) →
      hdrs.length = calls.length ∧
      u32 hfi1.seqnum = u32 (hfi.seqnum + calls.length) ∧
      ∀ k, k < calls.length →
        (hdrs.map MSG_HDR_GET_SEQNUM)[k]? = some ((hfi.seqnum + (k + 1)) % 4096) := by
  intro calls
  induction calls with
  | nil =>
    intro hfi hdrs hfi1 h
    simp only [send_cmd_run, Option.some.injEq, Prod.mk.injEq] at h
    obtain ⟨rfl, rfl⟩ := h
    simp
  | cons c cs ih =>
    intro hfi hdrs hfi1 h
    simp only [send_cmd_run] at h
    split at h
    · exact absurd h (by simp)
    · next r hr =>
      split at h
      · exact absurd h (by simp)
      · next tl hfi2 htl =>
        simp only [Option.some.injEq, Prod.mk.injEq] at h
        obtain ⟨rfl, rfl⟩ := h
        obtain ⟨hs, hc⟩ := send_cmd_stamp major c.fuel c.env _ c.queue_idx c.data c.ret_cmd r hr
        obtain ⟨h1, h2, h3⟩ := ih r.hfi tl hfi2 htl
        have hs1 : r.hfi.seqnum = u32 (hfi.seqnum + 1) := hs
        refine ⟨by simp [h1], ?_, ?_⟩
        · rw [h2, hs1]
          simp only [u32, List.length_cons]
          omega
        · intro k hk
          cases k with
          | zero =>
            simp only [List.map_cons, List.getElem?_cons_zero, hc, store_same, Option.some.injEq]
            rw [get_seqnum_eq, set_seqnum_eq]
            simp only [u32]
            omega
          | succ k =>
            simp only [List.map_cons, List.getElem?_cons_succ]
            rw [h3 k (by simpa using hk), hs1]
            simp only [u32, Option.some.injEq]
            omega

/-- C12 — In a run of `N ≤ 4096` consecutive calls of `a6xx_hfi_send_cmd`, the
`k`-th call (counted from 1) stamps the sequence number
`(counter + k) mod 4096`, also across the 32-bit wrap of the counter, so the
stamped sequence numbers are pairwise distinct; every call that returns has
advanced the counter by one and stamped its header, whatever its result. -/
theorem C12_seqnum_distinct (major : Nat) (calls : List send_call) (hfi : a6xx_hfi)
    (hdrs : List Nat) (hfi1 : a6xx_hfi)
    (hN : calls.length ≤ 4096)
    (hrun : send_cmd_run major calls hfi = some (hdrs, hfi1)) :
    (∀ k, k < calls.length →
      (hdrs.map MSG_HDR_GET_SEQNUM)[k]? = some ((hfi.seqnum + (k + 1)) % 4096)) ∧
    (hdrs.map MSG_HDR_GET_SEQNUM).Nodup ∧
    u32 hfi1.seqnum = u32 (hfi.seqnum + calls.length) ∧
    (∀ fuel env idx data ret_cmd r,
      a6xx_hfi_send_cmd major fuel env hfi idx data ret_cmd = some r →
      r.hfi.seqnum = u32 (hfi.seqnum + 1) ∧
      MSG_HDR_GET_SEQNUM (r.cmd 0) = (hfi.seqnum + 1) % 4096) := by
  obtain ⟨h1, h2, h3⟩ := send_cmd_run_seq major calls hfi hdrs hfi1 hrun
  refine ⟨h3, ?_, h2, ?_⟩
  · rw [List.nodup_iff_getElem?_ne_getElem?]
    intro i j hij hj
    rw [List.length_map, h1] at hj
    rw [h3 i (by omega), h3 j hj]
    intro heq
    have := Option.some.inj heq
    omega
  · intro fuel env idx data ret_cmd r hr
    obtain ⟨hs, hc⟩ := send_cmd_stamp major fuel env hfi idx data ret_cmd r hr
    refine ⟨hs, ?_⟩
    rw [hc, store_same, get_seqnum_eq, set_seqnum_eq]
    simp only [u32]
    omega

/-- Instance of C12: two sends with the counter at `2^32 - 1`; the second
finds the queue too full and still takes the next number. -/
theorem C12_seqnum_distinct_witness :
    ∃ hdrs hfi1, send_cmd_run 1 [call_msg8, call_msg8] hfi_wrap = some (hdrs, hfi1) ∧
      (hdrs.map MSG_HDR_GET_SEQNUM)[0]? = some 0 ∧
      (hdrs.map MSG_HDR_GET_SEQNUM)[1]? = some 1 ∧
      (hdrs.map MSG_HDR_GET_SEQNUM).Nodup := by
  obtain ⟨r, hr⟩ : ∃ r, send_cmd_run 1 [call_msg8, call_msg8] hfi_wrap = some r := ⟨_, rfl⟩
  have h := C12_seqnum_distinct 1 [call_msg8, call_msg8] hfi_wrap r.1 r.2 (by decide) hr
  exact ⟨r.1, r.2, hr, h.1 0 (by decide), h.1 1 (by decide), h.2.1⟩

theorem memcpy_words (dst src : Mem) (n i : Nat) :
    memcpy dst src (n <<< 2) i = if i < n then src i else dst i := by
  have h4 : (n <<< 2) / 4 = n := by simp [Nat.shiftLeft_eq]
  have h0 : (n <<< 2) % 4 = 0 := by simp [Nat.shiftLeft_eq]
  simp only [memcpy, h4, h0]
  split
  · rfl
  · split
    · simp [Nat.mod_one]
    · rfl

/-- C13 — Acknowledgement correlation: for a non-null pending command,
`receive_ack_cmd` returns 0 exactly when the sequence number of
`pending.sent_hdr` equals that of word 1 of the acknowledgement; it then copies
the words of the acknowledgement (as many as its header declares) into
`pending.results`; otherwise it returns `-ENODEV` and leaves the pending
command as it was. -/
theorem C13_ack_correlation (rcvd : Mem) (p : pending_cmd) :
    ((receive_ack_cmd rcvd (some p)).1 = 0 ↔
      MSG_HDR_GET_SEQNUM p.sent_hdr = MSG_HDR_GET_SEQNUM (rcvd 1)) ∧
    (MSG_HDR_GET_SEQNUM p.sent_hdr = MSG_HDR_GET_SEQNUM (rcvd 1) →
      ∃ res, receive_ack_cmd rcvd (some p) = (0, some { sent_hdr := p.sent_hdr, results := res }) ∧
        (∀ i, i < MSG_HDR_GET_SIZE (rcvd 0) → res i = rcvd i) ∧
        (∀ i, MSG_HDR_GET_SIZE (rcvd 0) ≤ i → res i = p.results i)) ∧
    (MSG_HDR_GET_SEQNUM p.sent_hdr ≠ MSG_HDR_GET_SEQNUM (rcvd 1) →
      receive_ack_cmd rcvd (some p) = (-ENODEV, some p)) := by
  by_cases h : MSG_HDR_GET_SEQNUM p.sent_hdr = MSG_HDR_GET_SEQNUM (rcvd 1)
  · have hc : HDR_CMP_SEQNUM p.sent_hdr (rcvd 1) = true := by simp [HDR_CMP_SEQNUM, h]
    refine ⟨?_, ?_, fun hne => absurd h hne⟩
    · simp [receive_ack_cmd, hc, h]
    · intro _
      refine ⟨memcpy p.results rcvd (MSG_HDR_GET_SIZE (rcvd 0) <<< 2), ?_, ?_, ?_⟩
      · simp [receive_ack_cmd, hc]
      · intro i hi
        rw [memcpy_words, if_pos hi]
      · intro i hi
        rw [memcpy_words, if_neg (by omega)]
  · have hc : HDR_CMP_SEQNUM p.sent_hdr (rcvd 1) = false := by simp [HDR_CMP_SEQNUM, h]
    refine ⟨?_, fun he => absurd he h, ?_⟩
    · simp [receive_ack_cmd, hc, h, ENODEV]
    · intro _
      simp [receive_ack_cmd, hc]

/-- Instance of C13: the acknowledgement with sequence number 5 is delivered to
the pending command with sequence number 5, the one with 6 is not. -/
theorem C13_ack_correlation_witness :
    (∃ res, receive_ack_cmd ack5 (some pending5) =
        (0, some { sent_hdr := pending5.sent_hdr, results := res }) ∧
      (∀ i, i < MSG_HDR_GET_SIZE (ack5 0) → res i = ack5 i) ∧
      (∀ i, MSG_HDR_GET_SIZE (ack5 0) ≤ i → res i = pending5.results i)) ∧
    receive_ack_cmd ack6 (some pending5) = (-ENODEV, some pending5) :=
  ⟨(C13_ack_correlation ack5 pending5).2.1 (by decide),
   (C13_ack_correlation ack6 pending5).2.2 (by decide)⟩

theorem steps_run_call (env : start_env) (base : List hfi_step) (h0 : a6xx_hfi)
    (s : hfi_step) (d : gmu_dev) (h : steps_run env base h0 d) :
    steps_run env base h0 (hfi_call env s d).2 := by
  obtain ⟨ss, h1, h2⟩ := h
  refine ⟨ss ++ [s], ?_, ?_⟩
  · simp only [hfi_call]
    rw [h1, List.append_assoc]
  · simp only [hfi_call, List.foldl_append, List.foldl_cons, List.foldl_nil]
    rw [h2]

theorem steps_run_then (env : start_env) (base : List hfi_step) (h0 : a6xx_hfi)
    (r : Int × gmu_dev) (next : gmu_dev → Int × gmu_dev)
    (hr : steps_run env base h0 r.2)
    (hn : ∀ d, steps_run env base h0 d → steps_run env base h0 (next d).2) :
    steps_run env base h0 (hfi_then r next).2 := by
  unfold hfi_then
  split
  · exact hr
  · exact hn _ hr

theorem steps_run_set (env : start_env) (base : List hfi_step) (h0 : a6xx_hfi)
    (d d1 : gmu_dev) (hc : d1.calls = d.calls) (hh : d1.hfi = d.hfi)
    (h : steps_run env base h0 d) : steps_run env base h0 d1 := by
  obtain ⟨ss, h1, h2⟩ := h
  exact ⟨ss, by rw [hc, h1], by rw [hh, h2]⟩

theorem steps_run_verify (cfg : start_cfg) (env : start_env) (base : List hfi_step)
    (h0 : a6xx_hfi) (dev : gmu_dev) (h : steps_run env base h0 dev) :
    steps_run env base h0 (a6xx_hfi_verify_fw_version cfg env dev).2 := by
  unfold a6xx_hfi_verify_fw_version
  split
  · exact h
  · have hc := steps_run_call env base h0 hfi_step.get_fw_version dev h
    simp only
    split
    · exact hc
    · exact steps_run_set env base h0 _ _ rfl rfl hc

theorem steps_run_acd (cfg : start_cfg) (env : start_env) (base : List hfi_step)
    (h0 : a6xx_hfi) (dev : gmu_dev) (h : steps_run env base h0 dev) :
    steps_run env base h0 (a6xx_hfi_send_acd_feature_ctrl cfg env dev).2 := by
  unfold a6xx_hfi_send_acd_feature_ctrl
  split
  · exact steps_run_then env base h0 _ _ (steps_run_call env base h0 _ dev h)
      (fun d hd => steps_run_call env base h0 _ d hd)
  · exact h

theorem steps_run_lm (cfg : start_cfg) (env : start_env) (base : List hfi_step)
    (h0 : a6xx_hfi) (dev : gmu_dev) (h : steps_run env base h0 dev) :
    steps_run env base h0 (a6xx_hfi_send_lm_feature_ctrl cfg env dev).2 := by
  unfold a6xx_hfi_send_lm_feature_ctrl
  split
  · exact h
  · exact steps_run_then env base h0 _ _ (steps_run_call env base h0 _ dev h)
      (fun d hd => steps_run_call env base h0 _ d hd)

theorem steps_run_start_steps (cfg : start_cfg) (env : start_env) (dev : gmu_dev) :
    steps_run env dev.calls dev.hfi (a6xx_hfi_start_steps cfg env dev).2 := by
  have h0 : steps_run env dev.calls dev.hfi dev := ⟨[], by simp, rfl⟩
  unfold a6xx_hfi_start_steps
  refine steps_run_then env _ _ _ _ ?_ (fun d1 h1 => ?_)
  · split
    · exact steps_run_call env _ _ _ dev h0
    · exact h0
  refine steps_run_then env _ _ _ _ (steps_run_verify cfg env _ _ d1 h1) (fun d2 h2 => ?_)
  refine steps_run_then env _ _ _ _ ?_ (fun d3 h3 => ?_)
  · split
    · exact steps_run_call env _ _ _ d2 h2
    · exact steps_run_call env _ _ _ d2 h2
  refine steps_run_then env _ _ _ _ (steps_run_call env _ _ _ d3 h3) (fun d4 h4 => ?_)
  refine steps_run_then env _ _ _ _ ?_ (fun d5 h5 => ?_)
  · split
    · refine steps_run_then env _ _ _ _ (steps_run_acd cfg env _ _ d4 h4) (fun d6 h6 => ?_)
      refine steps_run_then env _ _ _ _ (steps_run_lm cfg env _ _ d6 h6) (fun d7 h7 => ?_)
      exact steps_run_call env _ _ _ d7 h7
    · split
      · exact steps_run_call env _ _ _ d4 h4
      · exact h4
  refine steps_run_then env _ _ _ _ ?_ (fun d8 h8 => ?_)
  · exact steps_run_call env _ _ _ _ (steps_run_set env _ _ d5 _ rfl rfl h5)
  · exact steps_run_call env _ _ _ d8 h8

theorem steps_run_start (cfg : start_cfg) (env : start_env) (dev : gmu_dev) :
    steps_run env dev.calls
      { dev.hfi with hfi_mem := a6xx_hfi_start_index_check dev.hfi.hfi_mem }
      (a6xx_hfi_start cfg env dev).2 := by
  have h := steps_run_start_steps cfg env
    { dev with hfi := { dev.hfi with
        hfi_mem := a6xx_hfi_start_index_check dev.hfi.hfi_mem } }
  unfold a6xx_hfi_start
  simp only
  split
  · unfold a6xx_hfi_stop
    exact steps_run_set env _ _ _ _ rfl rfl (steps_run_call env _ _ hfi_step.axi_off _ h)
  · exact h

theorem steps_run_mem (env : start_env) (base : List hfi_step) (h0 : a6xx_hfi) (d : gmu_dev)
    (hext : ∀ s h, (env.effect s h).hfi_mem = h.hfi_mem) (h : steps_run env base h0 d) :
    d.hfi.hfi_mem = h0.hfi_mem := by
  obtain ⟨ss, _, h2⟩ := h
  rw [h2]
  have key : ∀ (l : List hfi_step) (g : a6xx_hfi),
      (l.foldl (fun h s => env.effect s h) g).hfi_mem = g.hfi_mem := by
    intro l
    induction l with
    | nil => intro g; rfl
    | cons s l ih =>
      intro g
      simp only [List.foldl_cons]
      rw [ih, hext]
  exact key ss h0

/-- C14 — Self-heal on start: `a6xx_hfi_start` runs its index check before
anything else: the HFI state it ends with is the state with the checked queue
table after the effects of the calls it made, in their order. In the checked
table every enabled queue has `read_index == write_index` with `write_index`
as before the call (`read_index` is set to `write_index`, never the reverse);
the header of a disabled queue, every other header field and every ring are as
before. When the calls leave the shared memory alone, this is the table
`a6xx_hfi_start` ends with, whether it succeeds or fails. -/
theorem C14_start_self_heal (cfg : start_cfg) (env : start_env) (dev : gmu_dev) :
    (∃ ss, (a6xx_hfi_start cfg env dev).2.calls = dev.calls ++ ss ∧
      (a6xx_hfi_start cfg env dev).2.hfi =
        ss.foldl (fun h s => env.effect s h)
          { dev.hfi with hfi_mem := a6xx_hfi_start_index_check dev.hfi.hfi_mem }) ∧
    (∀ i : Fin HFI_QUEUE_MAX,
      ((dev.hfi.hfi_mem i).hdr.status ≠ HFI_QUEUE_STATUS_DISABLED →
        (a6xx_hfi_start_index_check dev.hfi.hfi_mem i).hdr.read_index =
          (a6xx_hfi_start_index_check dev.hfi.hfi_mem i).hdr.write_index) ∧
      (a6xx_hfi_start_index_check dev.hfi.hfi_mem i).hdr.write_index =
        (dev.hfi.hfi_mem i).hdr.write_index ∧
      ((dev.hfi.hfi_mem i).hdr.status = HFI_QUEUE_STATUS_DISABLED →
        (a6xx_hfi_start_index_check dev.hfi.hfi_mem i).hdr = (dev.hfi.hfi_mem i).hdr) ∧
      (a6xx_hfi_start_index_check dev.hfi.hfi_mem i).hdr.status =
        (dev.hfi.hfi_mem i).hdr.status ∧
      (a6xx_hfi_start_index_check dev.hfi.hfi_mem i).hdr.queue_size =
        (dev.hfi.hfi_mem i).hdr.queue_size ∧
      (a6xx_hfi_start_index_check dev.hfi.hfi_mem i).hdr.start_addr =
        (dev.hfi.hfi_mem i).hdr.start_addr ∧
      (a6xx_hfi_start_index_check dev.hfi.hfi_mem i).hdr.type = (dev.hfi.hfi_mem i).hdr.type ∧
      (a6xx_hfi_start_index_check dev.hfi.hfi_mem i).hdr.msg_size =
        (dev.hfi.hfi_mem i).hdr.msg_size ∧
      (a6xx_hfi_start_index_check dev.hfi.hfi_mem i).queue = (dev.hfi.hfi_mem i).queue) ∧
    ((∀ s h, (env.effect s h).hfi_mem = h.hfi_mem) →
      (a6xx_hfi_start cfg env dev).2.hfi.hfi_mem =
        a6xx_hfi_start_index_check dev.hfi.hfi_mem ∧
      ∀ i : Fin HFI_QUEUE_MAX,
        ((dev.hfi.hfi_mem i).hdr.status ≠ HFI_QUEUE_STATUS_DISABLED →
          ((a6xx_hfi_start cfg env dev).2.hfi.hfi_mem i).hdr.read_index =
            ((a6xx_hfi_start cfg env dev).2.hfi.hfi_mem i).hdr.write_index) ∧
        ((a6xx_hfi_start cfg env dev).2.hfi.hfi_mem i).hdr.write_index =
          (dev.hfi.hfi_mem i).hdr.write_index ∧
        ((dev.hfi.hfi_mem i).hdr.status = HFI_QUEUE_STATUS_DISABLED →
          ((a6xx_hfi_start cfg env dev).2.hfi.hfi_mem i).hdr = (dev.hfi.hfi_mem i).hdr) ∧
        ((a6xx_hfi_start cfg env dev).2.hfi.hfi_mem i).hdr.status =
          (dev.hfi.hfi_mem i).hdr.status ∧
        ((a6xx_hfi_start cfg env dev).2.hfi.hfi_mem i).queue = (dev.hfi.hfi_mem i).queue) := by
  have hchk : ∀ (tbl : hfi_mem) (i : Fin HFI_QUEUE_MAX),
      ((tbl i).hdr.status ≠ HFI_QUEUE_STATUS_DISABLED →
        (a6xx_hfi_start_index_check tbl i).hdr.read_index =
          (a6xx_hfi_start_index_check tbl i).hdr.write_index) ∧
      (a6xx_hfi_start_index_check tbl i).hdr.write_index = (tbl i).hdr.write_index ∧
      ((tbl i).hdr.status = HFI_QUEUE_STATUS_DISABLED →
        (a6xx_hfi_start_index_check tbl i).hdr = (tbl i).hdr) ∧
      (a6xx_hfi_start_index_check tbl i).hdr.status = (tbl i).hdr.status ∧
      (a6xx_hfi_start_index_check tbl i).hdr.queue_size = (tbl i).hdr.queue_size ∧
      (a6xx_hfi_start_index_check tbl i).hdr.start_addr = (tbl i).hdr.start_addr ∧
      (a6xx_hfi_start_index_check tbl i).hdr.type = (tbl i).hdr.type ∧
      (a6xx_hfi_start_index_check tbl i).hdr.msg_size = (tbl i).hdr.msg_size ∧
      (a6xx_hfi_start_index_check tbl i).queue = (tbl i).queue := by
    intro tbl i
    simp only [a6xx_hfi_start_index_check, hfi_start_resync, hfi_start_resync_hdr]
    by_cases hd : (tbl i).hdr.status = HFI_QUEUE_STATUS_DISABLED
    · simp [hd]
    · by_cases he : (tbl i).hdr.read_index = (tbl i).hdr.write_index
      · simp [hd, he]
      · simp [hd, he]
  refine ⟨steps_run_start cfg env dev, fun i => hchk dev.hfi.hfi_mem i, fun hext => ?_⟩
  have hmem : (a6xx_hfi_start cfg env dev).2.hfi.hfi_mem =
      a6xx_hfi_start_index_check dev.hfi.hfi_mem :=
    steps_run_mem env _ _ _ hext (steps_run_start cfg env dev)
  refine ⟨hmem, fun i => ?_⟩
  rw [hmem]
  obtain ⟨c1, c2, c3, c4, _, _, _, _, c9⟩ := hchk dev.hfi.hfi_mem i
  exact ⟨c1, c2, c3, c4, c9⟩

/-- Instance of C14: the start of the fresh device, whose message queue has the
stale indices 4 and 0, with calls that leave the shared memory alone ends with
the message queue healed to 0 and 0 and the header of the disabled dispatch
queue as it was. -/
theorem C14_start_self_heal_witness :
    ((a6xx_hfi_start cfg_v2 env_fw_v1 dev_fresh).2.hfi.hfi_mem HFI_MSG_ID).hdr.read_index =
      ((a6xx_hfi_start cfg_v2 env_fw_v1 dev_fresh).2.hfi.hfi_mem HFI_MSG_ID).hdr.write_index ∧
    ((a6xx_hfi_start cfg_v2 env_fw_v1 dev_fresh).2.hfi.hfi_mem HFI_MSG_ID).hdr.write_index = 0 ∧
    (dev_fresh.hfi.hfi_mem HFI_MSG_ID).hdr.read_index = 4 ∧
    ((a6xx_hfi_start cfg_v2 env_fw_v1 dev_fresh).2.hfi.hfi_mem ⟨3, by decide⟩).hdr =
      (dev_fresh.hfi.hfi_mem ⟨3, by decide⟩).hdr :=
  ⟨((C14_start_self_heal cfg_v2 env_fw_v1 dev_fresh).2.2 (fun _ _ => rfl)).2 HFI_MSG_ID
      |>.1 (by decide),
   (((C14_start_self_heal cfg_v2 env_fw_v1 dev_fresh).2.2 (fun _ _ => rfl)).2 HFI_MSG_ID
      |>.2.1).trans (by decide),
   by decide,
   ((C14_start_self_heal cfg_v2 env_fw_v1 dev_fresh).2.2 (fun _ _ => rfl)).2 ⟨3, by decide⟩
      |>.2.2.1 (by decide)⟩

theorem steps_ok_call (env : start_env) (base : List hfi_step) (s : hfi_step)
    (hs : s ≠ hfi_step.axi_off) (dev : gmu_dev) (h : steps_ok env base (0, dev)) :
    steps_ok env base (hfi_call env s dev) := by
  obtain ⟨ss, h1, h2, h3, _⟩ := h
  refine ⟨ss ++ [s], ?_, ?_, ?_, ?_⟩
  · simp only [hfi_call]
    rw [h1, List.append_assoc]
  · simp only [List.mem_append, List.mem_singleton, not_or]
    exact ⟨h2, fun h => hs h.symm⟩
  · intro hz t ht
    simp only [List.mem_append, List.mem_singleton] at ht
    rcases ht with ht | ht
    · exact h3 rfl t ht
    · subst ht; exact hz
  · intro _
    exact ⟨s, by simp, rfl⟩

theorem steps_ok_then (env : start_env) (base : List hfi_step) (r : Int × gmu_dev)
    (next : gmu_dev → Int × gmu_dev) (hr : steps_ok env base r)
    (hn : ∀ d, steps_ok env base (0, d) → steps_ok env base (next d)) :
    steps_ok env base (hfi_then r next) := by
  unfold hfi_then
  split
  · exact hr
  · next h =>
    have hz : r.1 = 0 := by simpa using h
    apply hn
    have : r = (0, r.2) := by rw [← hz]
    rw [this] at hr
    exact hr

theorem steps_ok_set (env : start_env) (base : List hfi_step) (d d1 : gmu_dev)
    (hc : d1.calls = d.calls) (h : steps_ok env base (0, d)) : steps_ok env base (0, d1) := by
  obtain ⟨ss, h1, h2, h3, h4⟩ := h
  exact ⟨ss, by simpa [hc] using h1, h2, h3, h4⟩

theorem steps_ok_verify (cfg : start_cfg) (env : start_env) (base : List hfi_step)
    (dev : gmu_dev) (h : steps_ok env base (0, dev)) :
    steps_ok env base (a6xx_hfi_verify_fw_version cfg env dev) := by
  unfold a6xx_hfi_verify_fw_version
  split
  · exact h
  · have hc := steps_ok_call env base hfi_step.get_fw_version (by decide) dev h
    simp only
    split
    · exact hc
    · next hz =>
      have hz1 : (hfi_call env hfi_step.get_fw_version dev).1 = 0 := by simpa using hz
      have : hfi_call env hfi_step.get_fw_version dev
          = (0, (hfi_call env hfi_step.get_fw_version dev).2) := by rw [← hz1]
      rw [this] at hc
      exact steps_ok_set env base _ _ rfl hc

theorem steps_ok_acd (cfg : start_cfg) (env : start_env) (base : List hfi_step)
    (dev : gmu_dev) (h : steps_ok env base (0, dev)) :
    steps_ok env base (a6xx_hfi_send_acd_feature_ctrl cfg env dev) := by
  unfold a6xx_hfi_send_acd_feature_ctrl
  split
  · exact steps_ok_then env base _ _ (steps_ok_call env base _ (by decide) dev h)
      (fun d hd => steps_ok_call env base _ (by decide) d hd)
  · exact h

theorem steps_ok_lm (cfg : start_cfg) (env : start_env) (base : List hfi_step)
    (dev : gmu_dev) (h : steps_ok env base (0, dev)) :
    steps_ok env base (a6xx_hfi_send_lm_feature_ctrl cfg env dev) := by
  unfold a6xx_hfi_send_lm_feature_ctrl
  split
  · exact h
  · exact steps_ok_then env base _ _ (steps_ok_call env base _ (by decide) dev h)
      (fun d hd => steps_ok_call env base _ (by decide) d hd)

theorem steps_ok_start (cfg : start_cfg) (env : start_env) (dev : gmu_dev) :
    steps_ok env dev.calls (a6xx_hfi_start_steps cfg env dev) := by
  have h0 : steps_ok env dev.calls (0, dev) := ⟨[], by simp, by simp, by simp, by simp⟩
  unfold a6xx_hfi_start_steps
  refine steps_ok_then env _ _ _ ?_ (fun d1 h1 => ?_)
  · split
    · exact steps_ok_call env _ _ (by decide) dev h0
    · exact h0
  refine steps_ok_then env _ _ _ (steps_ok_verify cfg env _ d1 h1) (fun d2 h2 => ?_)
  refine steps_ok_then env _ _ _ ?_ (fun d3 h3 => ?_)
  · split
    · exact steps_ok_call env _ _ (by decide) d2 h2
    · exact steps_ok_call env _ _ (by decide) d2 h2
  refine steps_ok_then env _ _ _ (steps_ok_call env _ _ (by decide) d3 h3) (fun d4 h4 => ?_)
  refine steps_ok_then env _ _ _ ?_ (fun d5 h5 => ?_)
  · split
    · refine steps_ok_then env _ _ _ (steps_ok_acd cfg env _ d4 h4) (fun d6 h6 => ?_)
      refine steps_ok_then env _ _ _ (steps_ok_lm cfg env _ d6 h6) (fun d7 h7 => ?_)
      exact steps_ok_call env _ _ (by decide) d7 h7
    · split
      · exact steps_ok_call env _ _ (by decide) d4 h4
      · exact h4
  refine steps_ok_then env _ _ _ ?_ (fun d8 h8 => ?_)
  · exact steps_ok_call env _ _ (by decide) _ (steps_ok_set env _ d5 _ rfl h5)
  · exact steps_ok_call env _ _ (by decide) d8 h8

theorem hfi_then_zero (r : Int × gmu_dev) (next : gmu_dev → Int × gmu_dev)
    (h : (hfi_then r next).1 = 0) : hfi_then r next = next r.2 := by
  unfold hfi_then at h ⊢
  split
  · next hne => rw [if_pos hne] at h; exact absurd h hne
  · rfl

theorem start_steps_started (cfg : start_cfg) (env : start_env) (dev : gmu_dev)
    (h : (a6xx_hfi_start_steps cfg env dev).1 = 0) :
    (a6xx_hfi_start_steps cfg env dev).2.started = true := by
  unfold a6xx_hfi_start_steps at h ⊢
  have e1 := hfi_then_zero _ _ h
  rw [e1] at h ⊢
  have e2 := hfi_then_zero _ _ h
  rw [e2] at h ⊢
  have e3 := hfi_then_zero _ _ h
  rw [e3] at h ⊢
  have e4 := hfi_then_zero _ _ h
  rw [e4] at h ⊢
  have e5 := hfi_then_zero _ _ h
  rw [e5] at h ⊢
  have e6 := hfi_then_zero _ _ h
  rw [e6]
  rfl

/-- C15, as stated, fails: with an expected major number 2 and a firmware that
reports version 1.0, `a6xx_hfi_verify_fw_version` returns 0 and only records
the print `FW Major Error`, and `a6xx_hfi_start` returns 0 with
`GMU_PRIV_HFI_STARTED` set. -/
theorem C15_counterexample :
    cfg_v2.gmu_major = 2 ∧ cfg_v2.ver_major env_fw_v1.fw_ver = 1 ∧
    (a6xx_hfi_verify_fw_version cfg_v2 env_fw_v1 dev_fresh).1 = 0 ∧
    (a6xx_hfi_verify_fw_version cfg_v2 env_fw_v1 dev_fresh).2.warnings =
      [hfi_warning.fw_major_error 2 1] ∧
    (a6xx_hfi_start cfg_v2 env_fw_v1 dev_fresh).1 = 0 ∧
    (a6xx_hfi_start cfg_v2 env_fw_v1 dev_fresh).2.started = true := by
  refine ⟨by decide, by decide, by decide, by decide, by decide, by decide⟩

/-- C15, amended — `a6xx_hfi_verify_fw_version` returns 0 without a query when
`gmu->ver.core` is already known; when the query `a6xx_hfi_get_fw_version`
returns 0 it returns 0 whatever version the firmware reports, stores that
version in `gmu->ver.core` and only prints a major number that differs from
the expected one; it returns an error exactly when the query itself does, and
then `a6xx_hfi_start` (once the legacy init message, if any, has passed)
returns that error with `GMU_PRIV_HFI_STARTED` clear. -/
theorem C15_verify_fw_version (cfg : start_cfg) (env : start_env) (dev : gmu_dev) :
    (dev.ver_core ≠ 0 → a6xx_hfi_verify_fw_version cfg env dev = (0, dev)) ∧
    (dev.ver_core = 0 → env.result hfi_step.get_fw_version = 0 →
      (a6xx_hfi_verify_fw_version cfg env dev).1 = 0 ∧
      (a6xx_hfi_verify_fw_version cfg env dev).2.ver_core = env.fw_ver ∧
      (cfg.gmu_major ≠ cfg.ver_major env.fw_ver →
        hfi_warning.fw_major_error cfg.gmu_major (cfg.ver_major env.fw_ver) ∈
          (a6xx_hfi_verify_fw_version cfg env dev).2.warnings)) ∧
    ((a6xx_hfi_verify_fw_version cfg env dev).1 ≠ 0 ↔
      (dev.ver_core = 0 ∧ env.result hfi_step.get_fw_version ≠ 0)) ∧
    (dev.ver_core = 0 → env.result hfi_step.get_fw_version ≠ 0 →
      (cfg.legacy = true → env.result hfi_step.gmu_init = 0) →
      (a6xx_hfi_start cfg env dev).1 = env.result hfi_step.get_fw_version ∧
      (a6xx_hfi_start cfg env dev).2.started = false) := by
  refine ⟨?_, ?_, ?_, ?_⟩
  · intro h
    simp [a6xx_hfi_verify_fw_version, h]
  · intro h hz
    simp only [a6xx_hfi_verify_fw_version, h, hfi_call, hz]
    refine ⟨by simp, by simp, ?_⟩
    intro hne
    simp [hne]
  · by_cases h : dev.ver_core = 0
    · by_cases hz : env.result hfi_step.get_fw_version = 0
      · simp [a6xx_hfi_verify_fw_version, h, hfi_call, hz]
      · simp [a6xx_hfi_verify_fw_version, h, hfi_call, hz]
    · simp [a6xx_hfi_verify_fw_version, h]
  · intro h hz hl
    have hv : ∀ d : gmu_dev, d.ver_core = 0 →
        a6xx_hfi_verify_fw_version cfg env d = hfi_call env hfi_step.get_fw_version d := by
      intro d hd
      simp [a6xx_hfi_verify_fw_version, hd, hfi_call, hz]
    by_cases hleg : cfg.legacy = true
    · have hi := hl hleg
      simp [a6xx_hfi_start, a6xx_hfi_start_steps, hfi_then, hleg, hi, hfi_call, hz,
        a6xx_hfi_verify_fw_version, h, a6xx_hfi_stop]
    · simp [a6xx_hfi_start, a6xx_hfi_start_steps, hfi_then, hleg, hfi_call, hz,
        a6xx_hfi_verify_fw_version, h, a6xx_hfi_stop]

/-- Instance of the amended C15: the firmware reports 1.0 to a host that
expects 2.0. -/
theorem C15_verify_fw_version_witness :
    (a6xx_hfi_verify_fw_version cfg_v2 env_fw_v1 dev_fresh).1 = 0 ∧
    (a6xx_hfi_verify_fw_version cfg_v2 env_fw_v1 dev_fresh).2.ver_core = env_fw_v1.fw_ver ∧
    hfi_warning.fw_major_error cfg_v2.gmu_major (cfg_v2.ver_major env_fw_v1.fw_ver) ∈
      (a6xx_hfi_verify_fw_version cfg_v2 env_fw_v1 dev_fresh).2.warnings := by
  obtain ⟨h1, h2, h3⟩ :=
    (C15_verify_fw_version cfg_v2 env_fw_v1 dev_fresh).2.1 (by decide) (by decide)
  exact ⟨h1, h2, h3 (by decide)⟩

/-- C16 — Start is all-or-nothing on the Started flag: with `ss` the handshake
calls that `a6xx_hfi_start` made, it returns 0 exactly when every call of `ss`
returned 0; when it returns 0 the bit `GMU_PRIV_HFI_STARTED` is set and
`a6xx_hfi_stop` has not run; when it returns an error, that error is the
result of a call of `ss`, `a6xx_hfi_stop` has run last (its `kgsl_pwrctrl_axi`
call closes the list) and the bit is clear, also when the call that failed
came after the bit was set. -/
theorem C16_start_all_or_nothing (cfg : start_cfg) (env : start_env) (dev : gmu_dev) :
    ∃ ss, hfi_step.axi_off ∉ ss ∧
      ((a6xx_hfi_start cfg env dev).1 = 0 ↔ ∀ s ∈ ss, env.result s = 0) ∧
      ((a6xx_hfi_start cfg env dev).1 = 0 →
        (a6xx_hfi_start cfg env dev).2.calls = dev.calls ++ ss ∧
        (a6xx_hfi_start cfg env dev).2.started = true) ∧
      ((a6xx_hfi_start cfg env dev).1 ≠ 0 →
        (a6xx_hfi_start cfg env dev).2.calls = dev.calls ++ ss ++ [hfi_step.axi_off] ∧
        (a6xx_hfi_start cfg env dev).2.started = false ∧
        ∃ s ∈ ss, env.result s = (a6xx_hfi_start cfg env dev).1) := by
  obtain ⟨ss, h1, h2, h3, h4⟩ := steps_ok_start cfg env
    { dev with hfi := { dev.hfi with hfi_mem := a6xx_hfi_start_index_check dev.hfi.hfi_mem } }
  have hst := start_steps_started cfg env
    { dev with hfi := { dev.hfi with hfi_mem := a6xx_hfi_start_index_check dev.hfi.hfi_mem } }
  refine ⟨ss, h2, ?_⟩
  unfold a6xx_hfi_start
  simp only
  split
  · next hne =>
    have hne1 := h4 hne
    refine ⟨?_, fun hz => absurd hz hne, fun _ => ⟨?_, rfl, hne1⟩⟩
    · constructor
      · intro hz; exact absurd hz hne
      · intro hall
        obtain ⟨s, hs, hr⟩ := hne1
        rw [hall s hs] at hr
        exact absurd hr.symm hne
    · simp only [a6xx_hfi_stop, hfi_call]
      rw [h1]
  · next hz =>
    have hz1 : (a6xx_hfi_start_steps cfg env
        { dev with hfi := { dev.hfi with
            hfi_mem := a6xx_hfi_start_index_check dev.hfi.hfi_mem } }).1 = 0 := by
      simpa using hz
    exact ⟨⟨fun _ => h3 hz1, fun _ => hz1⟩, fun _ => ⟨h1, hst hz1⟩, fun hne => absurd hz1 hne⟩

/-- Instance of C16: every handshake call succeeds except
`kgsl_pwrctrl_set_default_gpu_pwrlevel`, which runs after the bit was set. -/
theorem C16_start_all_or_nothing_witness :
    (a6xx_hfi_start cfg_v2 env_pwr_fails dev_fresh).1 = -EINVAL ∧
    (a6xx_hfi_start cfg_v2 env_pwr_fails dev_fresh).2.started = false ∧
    ∃ ss, hfi_step.axi_off ∉ ss ∧
      (a6xx_hfi_start cfg_v2 env_pwr_fails dev_fresh).2.calls =
        dev_fresh.calls ++ ss ++ [hfi_step.axi_off] := by
  obtain ⟨ss, h1, _, _, h4⟩ := C16_start_all_or_nothing cfg_v2 env_pwr_fails dev_fresh
  obtain ⟨h5, h6, _⟩ := h4 (by decide)
  exact ⟨by decide, h6, ss, h1, h5⟩

/-- C18 — `a6xx_hfi_stop` clears the bit `GMU_PRIV_HFI_STARTED` and acts on
the HFI state only through its call of `kgsl_pwrctrl_axi`; when that call
leaves the shared memory alone, every queue header and every ring word is as
before, so messages in a non-empty queue are neither flushed nor consumed. -/
theorem C18_stop_keeps_queues (env : start_env) (dev : gmu_dev)
    (hext : ∀ hfi, (env.effect hfi_step.axi_off hfi).hfi_mem = hfi.hfi_mem) :
    (a6xx_hfi_stop env dev).started = false ∧
    (a6xx_hfi_stop env dev).hfi = env.effect hfi_step.axi_off dev.hfi ∧
    (∀ i, ((a6xx_hfi_stop env dev).hfi.hfi_mem i).hdr = (dev.hfi.hfi_mem i).hdr ∧
      ((a6xx_hfi_stop env dev).hfi.hfi_mem i).queue = (dev.hfi.hfi_mem i).queue) ∧
    (a6xx_hfi_stop env dev).calls = dev.calls ++ [hfi_step.axi_off] ∧
    (a6xx_hfi_stop env dev).ver_core = dev.ver_core := by
  refine ⟨rfl, rfl, ?_, rfl, rfl⟩
  intro i
  simp [a6xx_hfi_stop, hfi_call, hext]

/-- Instance of C18: a stop with stale, non-empty queues in the shared memory. -/
theorem C18_stop_keeps_queues_witness :
    (a6xx_hfi_stop env_fw_v1 dev_fresh).started = false ∧
    ((a6xx_hfi_stop env_fw_v1 dev_fresh).hfi.hfi_mem HFI_MSG_ID).hdr.read_index = 4 ∧
    ((a6xx_hfi_stop env_fw_v1 dev_fresh).hfi.hfi_mem HFI_MSG_ID).hdr.write_index = 0 := by
  obtain ⟨h1, _, h3, _⟩ := C18_stop_keeps_queues env_fw_v1 dev_fresh (fun _ => rfl)
  refine ⟨h1, ?_, ?_⟩
  · rw [(h3 HFI_MSG_ID).1]; decide
  · rw [(h3 HFI_MSG_ID).1]; decide

theorem receive_ack_cmd_some (rcvd : Mem) (p : pending_cmd) :
    ∃ p1, (receive_ack_cmd rcvd (some p)).2 = some p1 ∧ p1.sent_hdr = p.sent_hdr := by
  unfold receive_ack_cmd
  simp only
  split
  · exact ⟨_, rfl, rfl⟩
  · exact ⟨_, rfl, rfl⟩

theorem v1_receiver_some (rcvd : Mem) (p : pending_cmd) :
    ∃ p1, (a6xx_hfi_v1_receiver rcvd (some p)).1 = some p1 ∧ p1.sent_hdr = p.sent_hdr := by
  unfold a6xx_hfi_v1_receiver
  split
  · exact receive_ack_cmd_some rcvd p
  · exact ⟨p, rfl, rfl⟩

theorem process_queue_some (major : Nat) :
    ∀ (fuel : Nat) (q : hfi_queue) (rcvd : Mem) (p : pending_cmd) (ev : List hfi_event)
      (r : process_result),
      a6xx_hfi_process_queue major fuel q rcvd (some p) ev = some r →
      ∃ p1, r.ret_cmd = some p1 ∧ p1.sent_hdr = p.sent_hdr := by
  intro fuel
  induction fuel with
  | zero => intro q rcvd p ev r h; simp [a6xx_hfi_process_queue] at h
  | succ fuel ih =>
    intro q rcvd p ev r h
    simp only [a6xx_hfi_process_queue] at h
    split at h
    · exact absurd h (by simp)
    · next n q1 rcvd1 _ =>
      split at h
      · split at h
        · obtain ⟨p1, hp1, hs1⟩ := v1_receiver_some rcvd1 p
          rw [hp1] at h
          obtain ⟨p2, hp2, hs2⟩ := ih _ _ _ _ _ h
          exact ⟨p2, hp2, hs2.trans hs1⟩
        · split at h
          · obtain ⟨p1, hp1, hs1⟩ := receive_ack_cmd_some rcvd1 p
            split at h
            · cases h
              exact ⟨p1, hp1, hs1⟩
            · rw [hp1] at h
              obtain ⟨p2, hp2, hs2⟩ := ih _ _ _ _ _ h
              exact ⟨p2, hp2, hs2.trans hs1⟩
          · exact ih _ _ _ _ _ h
      · cases h
        exact ⟨p, rfl, rfl⟩

theorem send_cmd_some (major fuel : Nat) (env : send_env) (hfi : a6xx_hfi)
    (idx : Fin HFI_QUEUE_MAX) (data : Mem) (p : pending_cmd) (r : send_result)
    (h : a6xx_hfi_send_cmd major fuel env hfi idx data (some p) = some r) :
    ∃ p1, r.ret_cmd = some p1 ∧ p1.sent_hdr = r.cmd 0 := by
  unfold a6xx_hfi_send_cmd at h
  simp only at h
  split at h
  · exact absurd h (by simp)
  · split at h
    · cases h; exact ⟨_, rfl, rfl⟩
    · split at h
      · cases h; exact ⟨_, rfl, rfl⟩
      · split at h
        · exact absurd h (by simp)
        · next r1 hr1 =>
          cases h
          exact process_queue_some major fuel _ _ _ _ _ hr1

/-- C17 — Remote error reporting: with `r` what `a6xx_hfi_send_cmd` returned
on the zeroed pending command, `a6xx_hfi_send_generic_req` returns `-EINVAL`
when `r.rc` is 0 and word 2 of `results` is `HFI_ACK_ERROR`, returns `r.rc`
itself when it is not 0, and returns 0 exactly when `r.rc` is 0 and word 2 is
not `HFI_ACK_ERROR`; the HFI state and the pending command are those of the
send. -/
theorem C17_generic_req_remote_error (major fuel : Nat) (env : send_env) (hfi : a6xx_hfi)
    (queue : Fin HFI_QUEUE_MAX) (cmd : Mem) (r : send_result)
    (hsend : a6xx_hfi_send_cmd major fuel env hfi queue cmd (some pending_zero) = some r) :
    ∃ p g, r.ret_cmd = some p ∧
      a6xx_hfi_send_generic_req major fuel env hfi queue cmd = some g ∧
      g.hfi = r.hfi ∧ g.ret_cmd = some p ∧
      (r.rc = 0 → p.results 2 = HFI_ACK_ERROR → g.rc = -EINVAL) ∧
      (r.rc ≠ 0 → g.rc = r.rc) ∧
      (g.rc = 0 ↔ (r.rc = 0 ∧ p.results 2 ≠ HFI_ACK_ERROR)) := by
  obtain ⟨p, hp, _⟩ := send_cmd_some major fuel env hfi queue cmd pending_zero r hsend
  unfold a6xx_hfi_send_generic_req
  rw [hsend]
  simp only
  have hg : r.ret_cmd.getD pending_zero = p := by rw [hp]; rfl
  rw [hg]
  by_cases h : r.rc = 0 ∧ p.results 2 = HFI_ACK_ERROR
  · refine ⟨p, { r with rc := -EINVAL }, hp, by rw [if_pos h], rfl, hp, ?_, ?_, ?_⟩
    · intro _ _; rfl
    · intro hne; exact absurd h.1 hne
    · constructor
      · intro hz; exact absurd hz (show (-EINVAL : Int) ≠ 0 by decide)
      · intro hz; exact absurd h.2 hz.2
  · refine ⟨p, r, hp, by rw [if_neg h], rfl, hp, ?_, ?_, ?_⟩
    · intro h1 h2; exact absurd ⟨h1, h2⟩ h
    · intro _; rfl
    · constructor
      · intro hz
        exact ⟨hz, fun he => h ⟨hz, he⟩⟩
      · intro hz; exact hz.1

theorem poll_gmu_reg_cases (reads : List Nat) (last e m : Nat) :
    poll_gmu_reg reads last e m = 0 ∨ poll_gmu_reg reads last e m = -ETIMEDOUT := by
  induction reads with
  | nil =>
    simp only [poll_gmu_reg]
    split
    · exact Or.inl rfl
    · exact Or.inr rfl
  | cons v vs ih =>
    simp only [poll_gmu_reg]
    split
    · exact Or.inl rfl
    · exact ih

theorem queue_write_zero_shape (major : Nat) (q q1 : hfi_queue) (msg : Mem)
    (hq32 : q.hdr.queue_size < 2 ^ 32) (hinv : index_inv q.hdr)
    (hok : a6xx_hfi_queue_write major q msg = some (0, q1)) :
    q1.hdr = { q.hdr with write_index :=
      (q.hdr.write_index + framed_size major msg) % q.hdr.queue_size } ∧
    framed_size major msg < q.hdr.queue_size ∧
    MSG_HDR_GET_SIZE (msg 0) ≤ framed_size major msg ∧
    (∀ k, k < MSG_HDR_GET_SIZE (msg 0) →
      q1.queue ((q.hdr.write_index + k) % q.hdr.queue_size) = msg k) := by
  obtain ⟨hq, hr, hw⟩ := hinv
  obtain ⟨hen, hsp⟩ := queue_write_zero_inv major q q1 msg hok
  have hL := get_size_le (msg 0)
  obtain ⟨hA1, hA2, _⟩ := ALIGN4_bounds (MSG_HDR_GET_SIZE (msg 0)) (by omega)
  have hes := empty_space_in_range q.hdr hq32 hr hw
  have hfit : ALIGN (MSG_HDR_GET_SIZE (msg 0)) SZ_4 < q.hdr.queue_size := by
    rw [hes] at hsp
    split at hsp <;> omega
  obtain ⟨ring1, e1, m1, _, _⟩ := queue_write_ok major q msg hen hq32 hw hsp (by omega)
  rw [e1] at hok
  have hq1 := (Prod.mk.inj (Option.some.inj hok)).2
  subst hq1
  refine ⟨rfl, ?_, ?_, m1⟩
  · unfold framed_size; split <;> omega
  · unfold framed_size; split <;> omega

/-- C19 — Timeout does not retract the write: when the write of the stamped
command returns 0 with the queue `q1` and `poll_gmu_reg` does not return 0,
`a6xx_hfi_send_cmd` returns `-ETIMEDOUT`; the shared memory is what the
firmware made of the memory with `q1` in place (the host reads no message and
calls no handler), `pending.results` is as before and `pending.sent_hdr` is
the stamped header; with in-range indices `q1` has the old `read_index`, a
`write_index` advanced by the framed length, and holds the command words. -/
theorem C19_timeout_keeps_write (major fuel : Nat) (env : send_env) (hfi : a6xx_hfi)
    (idx : Fin HFI_QUEUE_MAX) (data : Mem) (p : pending_cmd) (q1 : hfi_queue)
    (hwr : a6xx_hfi_queue_write major (hfi.hfi_mem idx) (stamped_cmd hfi data) = some (0, q1))
    (hto : poll_gmu_reg env.reads env.last HFI_IRQ_MSGQ_MASK HFI_IRQ_MSGQ_MASK ≠ 0) :
    a6xx_hfi_send_cmd major fuel env hfi idx data (some p) =
      some { rc := -ETIMEDOUT,
             hfi := { seqnum := u32 (hfi.seqnum + 1),
                      hfi_mem := env.fw (hfi_mem_set hfi.hfi_mem idx q1) },
             cmd := stamped_cmd hfi data,
             ret_cmd := some { sent_hdr := stamped_cmd hfi data 0, results := p.results },
             events := [] } ∧
    (index_inv (hfi.hfi_mem idx).hdr → (hfi.hfi_mem idx).hdr.queue_size < 2 ^ 32 →
      q1.hdr.read_index = (hfi.hfi_mem idx).hdr.read_index ∧
      q1.hdr.write_index =
        ((hfi.hfi_mem idx).hdr.write_index + framed_size major (stamped_cmd hfi data))
          % (hfi.hfi_mem idx).hdr.queue_size ∧
      (1 ≤ MSG_HDR_GET_SIZE (stamped_cmd hfi data 0) →
        q1.hdr.write_index ≠ (hfi.hfi_mem idx).hdr.write_index) ∧
      (∀ k, k < MSG_HDR_GET_SIZE (stamped_cmd hfi data 0) →
        q1.queue (((hfi.hfi_mem idx).hdr.write_index + k) % (hfi.hfi_mem idx).hdr.queue_size)
          = stamped_cmd hfi data k)) := by
  constructor
  · have hp := (poll_gmu_reg_cases env.reads env.last HFI_IRQ_MSGQ_MASK HFI_IRQ_MSGQ_MASK).resolve_left hto
    unfold stamped_cmd at hwr
    unfold a6xx_hfi_send_cmd
    simp only [hwr, hp, stamped_cmd, ne_eq, not_true_eq_false, if_false]
    rw [if_pos (show ¬ (-ETIMEDOUT : Int) = 0 by decide)]
  · intro hinv hq32
    obtain ⟨h1, h2, h3, h4⟩ := queue_write_zero_shape major _ q1 _ hq32 hinv hwr
    refine ⟨by rw [h1], by rw [h1], ?_, h4⟩
    intro hL
    rw [h1]
    exact add_mod_ne_self hinv.2.2 (by omega) h2

/-- Instance of C19: the request is written to the empty command queue and the
interrupt bit never shows. -/
theorem C19_timeout_keeps_write_witness :
    ∃ q1, a6xx_hfi_send_cmd 2 4 env_silent hfi_seq4 HFI_CMD_ID cmd_req (some pending5) =
      some { rc := -ETIMEDOUT,
             hfi := { seqnum := u32 (hfi_seq4.seqnum + 1),
                      hfi_mem := env_silent.fw (hfi_mem_set hfi_seq4.hfi_mem HFI_CMD_ID q1) },
             cmd := stamped_cmd hfi_seq4 cmd_req,
             ret_cmd := some { sent_hdr := stamped_cmd hfi_seq4 cmd_req 0,
                               results := pending5.results },
             events := [] } ∧
      q1.hdr.write_index ≠ (hfi_seq4.hfi_mem HFI_CMD_ID).hdr.write_index := by
  obtain ⟨q1, h⟩ : ∃ q1, a6xx_hfi_queue_write 2 (hfi_seq4.hfi_mem HFI_CMD_ID)
      (stamped_cmd hfi_seq4 cmd_req) = some (0, q1) := ⟨_, rfl⟩
  obtain ⟨h1, h2⟩ := C19_timeout_keeps_write 2 4 env_silent hfi_seq4 HFI_CMD_ID cmd_req pending5
    q1 h (by decide)
  exact ⟨q1, h1, (h2 (by unfold index_inv; decide) (by decide)).2.2.1 (by decide)⟩

/-- Instance of C17: the firmware acknowledges the request with
`HFI_ACK_ERROR` in word 2; the send returns 0 and the generic request
`-EINVAL`. -/
theorem C17_generic_req_remote_error_witness :
    ∃ r g, a6xx_hfi_send_cmd 2 4 env_ack_err hfi_seq4 HFI_CMD_ID cmd_req (some pending_zero)
        = some r ∧ r.rc = 0 ∧
      a6xx_hfi_send_generic_req 2 4 env_ack_err hfi_seq4 HFI_CMD_ID cmd_req = some g ∧
      g.rc = -EINVAL := by
  have hrc : (a6xx_hfi_send_cmd 2 4 env_ack_err hfi_seq4 HFI_CMD_ID cmd_req
      (some pending_zero)).map (fun r => r.rc) = some 0 := by decide
  have hw2 : (a6xx_hfi_send_cmd 2 4 env_ack_err hfi_seq4 HFI_CMD_ID cmd_req
      (some pending_zero)).bind (fun r => r.ret_cmd.map fun p => p.results 2)
      = some HFI_ACK_ERROR := by decide
  cases hcase : a6xx_hfi_send_cmd 2 4 env_ack_err hfi_seq4 HFI_CMD_ID cmd_req
      (some pending_zero) with
  | none => rw [hcase] at hrc; exact absurd hrc (by simp)
  | some r =>
    rw [hcase] at hrc hw2
    obtain ⟨p, g, hp, hg, _, _, h1, _, _⟩ :=
      C17_generic_req_remote_error 2 4 env_ack_err hfi_seq4 HFI_CMD_ID cmd_req r hcase
    simp only [Option.map_some', Option.some.injEq] at hrc
    simp only [Option.some_bind, hp, Option.map_some', Option.some.injEq] at hw2
    exact ⟨r, g, rfl, hrc, hg, h1 hrc hw2⟩

theorem process_queue_rc (major : Nat) :
    ∀ (fuel : Nat) (q : hfi_queue) (rcvd : Mem) (p : pending_cmd) (ev : List hfi_event)
      (r : process_result),
      a6xx_hfi_process_queue major fuel q rcvd (some p) ev = some r →
      (r.rc = 0 ∨ (2 ≤ major ∧ r.rc = -ENODEV)) ∧ ∃ ev1, r.events = ev ++ ev1 := by
  intro fuel
  induction fuel with
  | zero => intro q rcvd p ev r h; simp [a6xx_hfi_process_queue] at h
  | succ fuel ih =>
    intro q rcvd p ev r h
    simp only [a6xx_hfi_process_queue] at h
    split at h
    · exact absurd h (by simp)
    · next n q1 rcvd1 _ =>
      split at h
      · split at h
        · obtain ⟨p1, hp1, _⟩ := v1_receiver_some rcvd1 p
          rw [hp1] at h
          obtain ⟨h1, ev1, h2⟩ := ih _ _ _ _ _ h
          exact ⟨h1, _, by rw [h2, List.append_assoc]⟩
        · next hm =>
          split at h
          · obtain ⟨p1, hp1, _⟩ := receive_ack_cmd_some rcvd1 p
            split at h
            · next hne =>
              cases h
              refine ⟨Or.inr ⟨by omega, ?_⟩, [], by simp⟩
              by_cases hs : MSG_HDR_GET_SEQNUM p.sent_hdr = MSG_HDR_GET_SEQNUM (rcvd1 1)
              · exfalso
                apply hne
                simp [receive_ack_cmd, HDR_CMP_SEQNUM, hs]
              · simp [receive_ack_cmd, HDR_CMP_SEQNUM, hs]
            · rw [hp1] at h
              exact ih _ _ _ _ _ h
          · obtain ⟨h1, ev1, h2⟩ := ih _ _ _ _ _ h
            exact ⟨h1, _, by rw [h2, List.append_assoc]⟩
      · cases h
        exact ⟨Or.inl rfl, [], by simp⟩

/-- C20, as stated, fails. With protocol version 2 and a pending command with
sequence number 5: on a queue holding the matching acknowledgement followed by
a debug message the drain does not stop at the acknowledgement, it also
consumes the debug message (`read_index` ends on `write_index = 8`); on a
queue holding an acknowledgement for sequence number 6 followed by the
matching one, the first message ends the drain with `-ENODEV` without any
handler call, and the matching acknowledgement stays unread. -/
theorem C20_counterexample :
    (a6xx_hfi_process_queue 2 4 q_ack_dbg out7 (some pending5) []).map
        (fun r => (r.rc, r.q.hdr.read_index, r.q.hdr.write_index, r.events)) =
      some (0, 8, 8, [hfi_event.debug_req (CREATE_MSG_HDR F2H_MSG_DEBUG 16 HFI_MSG_CMD)]) ∧
    (a6xx_hfi_process_queue 2 4 q_ack6_ack5 out7 (some pending5) []).map
        (fun r => (r.rc, r.q.hdr.read_index, r.q.hdr.write_index, r.events,
          r.ret_cmd.map fun p => p.results 1)) =
      some (-ENODEV, 4, 8, [], some 0) := by
  refine ⟨by decide, by decide⟩

/-- C20, amended — One round of the loop of `a6xx_hfi_process_queue` with a
pending command, after a read that returned `n`: for `n ≤ 0` (Empty, a header
of size 0, or an error) the function returns 0; for `n > 0` and a protocol
version of 2 or more, a matching acknowledgement is copied into
`pending.results` and the drain goes on, an acknowledgement with another
sequence number ends the drain with `-ENODEV`, and any other message goes to
the error/debug handlers and the drain goes on; for a version below 2 the
drain goes on in all three cases and the acknowledgement with another sequence
number is dropped. Whenever the function returns, the result is 0, or
`-ENODEV` from version 2 on, and the handler calls made before are kept. -/
theorem C20_process_queue_drain (major fuel : Nat) (q : hfi_queue) (rcvd : Mem)
    (p : pending_cmd) (ev : List hfi_event) (n : Int) (q1 : hfi_queue) (rcvd1 : Mem)
    (hread : a6xx_hfi_queue_read major q rcvd (4 * MAX_RCVD_SIZE) = some (n, q1, rcvd1)) :
    (n ≤ 0 →
      a6xx_hfi_process_queue major (fuel + 1) q rcvd (some p) ev =
        some { rc := 0, q := q1, rcvd := rcvd1, ret_cmd := some p, events := ev }) ∧
    (0 < n → 2 ≤ major → MSG_HDR_GET_TYPE (rcvd1 0) = HFI_MSG_ACK →
      MSG_HDR_GET_SEQNUM p.sent_hdr = MSG_HDR_GET_SEQNUM (rcvd1 1) →
      a6xx_hfi_process_queue major (fuel + 1) q rcvd (some p) ev =
        a6xx_hfi_process_queue major fuel q1 rcvd1
          (some { p with results := memcpy p.results rcvd1 (MSG_HDR_GET_SIZE (rcvd1 0) <<< 2) })
          ev) ∧
    (0 < n → 2 ≤ major → MSG_HDR_GET_TYPE (rcvd1 0) = HFI_MSG_ACK →
      MSG_HDR_GET_SEQNUM p.sent_hdr ≠ MSG_HDR_GET_SEQNUM (rcvd1 1) →
      a6xx_hfi_process_queue major (fuel + 1) q rcvd (some p) ev =
        some { rc := -ENODEV, q := q1, rcvd := rcvd1, ret_cmd := some p, events := ev }) ∧
    (0 < n → 2 ≤ major → MSG_HDR_GET_TYPE (rcvd1 0) ≠ HFI_MSG_ACK →
      a6xx_hfi_process_queue major (fuel + 1) q rcvd (some p) ev =
        a6xx_hfi_process_queue major fuel q1 rcvd1 (some p)
          (ev ++ [hfi_request_handler rcvd1])) ∧
    (0 < n → major < 2 → MSG_HDR_GET_TYPE (rcvd1 0) = HFI_V1_MSG_ACK →
      MSG_HDR_GET_SEQNUM p.sent_hdr = MSG_HDR_GET_SEQNUM (rcvd1 1) →
      a6xx_hfi_process_queue major (fuel + 1) q rcvd (some p) ev =
        a6xx_hfi_process_queue major fuel q1 rcvd1
          (some { p with results := memcpy p.results rcvd1 (MSG_HDR_GET_SIZE (rcvd1 0) <<< 2) })
          ev) ∧
    (0 < n → major < 2 → MSG_HDR_GET_TYPE (rcvd1 0) = HFI_V1_MSG_ACK →
      MSG_HDR_GET_SEQNUM p.sent_hdr ≠ MSG_HDR_GET_SEQNUM (rcvd1 1) →
      a6xx_hfi_process_queue major (fuel + 1) q rcvd (some p) ev =
        a6xx_hfi_process_queue major fuel q1 rcvd1 (some p) ev) ∧
    (0 < n → major < 2 → MSG_HDR_GET_TYPE (rcvd1 0) ≠ HFI_V1_MSG_ACK →
      a6xx_hfi_process_queue major (fuel + 1) q rcvd (some p) ev =
        a6xx_hfi_process_queue major fuel q1 rcvd1 (some p)
          (ev ++ [hfi_request_handler rcvd1])) ∧
    (∀ r, a6xx_hfi_process_queue major (fuel + 1) q rcvd (some p) ev = some r →
      (r.rc = 0 ∨ (2 ≤ major ∧ r.rc = -ENODEV)) ∧ (∃ ev1, r.events = ev ++ ev1) ∧
      ∃ p1, r.ret_cmd = some p1 ∧ p1.sent_hdr = p.sent_hdr) := by
  refine ⟨?_, ?_, ?_, ?_, ?_, ?_, ?_, ?_⟩
  · intro hn
    have : ¬ (n > 0) := by omega
    simp only [a6xx_hfi_process_queue, hread, this, if_false]
  · intro hn hm ht hs
    have hm1 : ¬ (major < 2) := by omega
    simp [a6xx_hfi_process_queue, hread, hn, hm1, ht, receive_ack_cmd, HDR_CMP_SEQNUM, hs]
  · intro hn hm ht hs
    have hm1 : ¬ (major < 2) := by omega
    simp [a6xx_hfi_process_queue, hread, hn, hm1, ht, receive_ack_cmd, HDR_CMP_SEQNUM, hs,
      ENODEV]
  · intro hn hm ht
    have hm1 : ¬ (major < 2) := by omega
    simp [a6xx_hfi_process_queue, hread, hn, hm1, ht]
  · intro hn hm ht hs
    simp [a6xx_hfi_process_queue, hread, hn, hm, a6xx_hfi_v1_receiver, ht, receive_ack_cmd,
      HDR_CMP_SEQNUM, hs]
  · intro hn hm ht hs
    simp [a6xx_hfi_process_queue, hread, hn, hm, a6xx_hfi_v1_receiver, ht, receive_ack_cmd,
      HDR_CMP_SEQNUM, hs]
  · intro hn hm ht
    simp [a6xx_hfi_process_queue, hread, hn, hm, a6xx_hfi_v1_receiver, ht]
  · intro r hr
    obtain ⟨h1, h2⟩ := process_queue_rc major _ _ _ _ _ _ hr
    exact ⟨h1, h2, process_queue_some major _ _ _ _ _ _ hr⟩

/-- Instance of the amended C20: the first round on the queue that holds the
matching acknowledgement and a debug message copies the acknowledgement and
goes on. -/
theorem C20_process_queue_drain_witness :
    ∃ n q1 rcvd1,
      a6xx_hfi_queue_read 2 q_ack_dbg out7 (4 * MAX_RCVD_SIZE) = some (n, q1, rcvd1) ∧ 0 < n ∧
      a6xx_hfi_process_queue 2 (3 + 1) q_ack_dbg out7 (some pending5) [] =
        a6xx_hfi_process_queue 2 3 q1 rcvd1
          (some { pending5 with
            results := memcpy pending5.results rcvd1 (MSG_HDR_GET_SIZE (rcvd1 0) <<< 2) })
          [] := by
  have hn : (a6xx_hfi_queue_read 2 q_ack_dbg out7 (4 * MAX_RCVD_SIZE)).map
      (fun x => (decide (0 < x.1), MSG_HDR_GET_TYPE (x.2.2 0), MSG_HDR_GET_SEQNUM (x.2.2 1)))
      = some (true, HFI_MSG_ACK, MSG_HDR_GET_SEQNUM pending5.sent_hdr) := by decide
  cases hcase : a6xx_hfi_queue_read 2 q_ack_dbg out7 (4 * MAX_RCVD_SIZE) with
  | none => rw [hcase] at hn; exact absurd hn (by simp)
  | some x =>
    obtain ⟨n, q1, rcvd1⟩ := x
    rw [hcase] at hn
    simp only [Option.map_some', Option.some.injEq, Prod.mk.injEq, decide_eq_true_eq] at hn
    obtain ⟨h1, h2, h3⟩ := hn
    exact ⟨n, q1, rcvd1, rfl, h1,
      (C20_process_queue_drain 2 3 q_ack_dbg out7 pending5 [] n q1 rcvd1 hcase).2.1 h1
        (by decide) h2 h3.symm⟩

/-! ## Claims on the interrupt handler, the queue table and the receive bounds -/

theorem irq_unhandled_msgq (status : Nat) (h : status &&& HFI_IRQ_MSGQ_MASK ≠ 0) :
    status &&& (0xFFFFFFFF ^^^ HFI_IRQ_MASK) ≠ 0 := by
  have h1 : status % 2 = 1 := by
    have := Nat.and_one_is_mod status
    simp only [HFI_IRQ_MSGQ_MASK] at h
    omega
  intro h0
  have hb : (status &&& (0xFFFFFFFF ^^^ HFI_IRQ_MASK)).testBit 0 = true := by
    rw [Nat.testBit_and]
    have hs : status.testBit 0 = true := by
      rw [Nat.testBit_zero]; simpa using h1
    have hm : (0xFFFFFFFF ^^^ HFI_IRQ_MASK).testBit 0 = true := by decide
    rw [hs, hm]; rfl
  rw [h0] at hb
  simp at hb

/-- C21, as stated, fails: with only the message-queue bit set in the status
and a message queue that holds two messages, `a6xx_hfi_irq_handler` leaves the
message queue as it is (`read_index = 0`, `write_index = 8`), calls no handler
and reports the bit as unhandled. -/
theorem C21_counterexample :
    HFI_IRQ_MSGQ_MASK &&& HFI_IRQ_MSGQ_MASK ≠ 0 ∧
    (a6xx_hfi_irq_handler 2 4 HFI_IRQ_MSGQ_MASK out7 mem_msg_pending 0).map
        (fun r => ((r.hfi_mem HFI_MSG_ID).hdr.read_index,
          (r.hfi_mem HFI_MSG_ID).hdr.write_index, r.events, r.unhandled)) =
      some (0, 8, [], some 1) := by
  refine ⟨by decide, by decide⟩

/-- C21, amended — `a6xx_hfi_irq_handler` processes the debug queue, with no
pending command, exactly when the debug-queue bit of the status is set; it
never processes the message queue: every queue other than the debug queue is
left as it is whatever the status, and a set message-queue bit is only
reported as an unhandled interrupt; the fault bit sets `cm3_fault` to 1. -/
theorem C21_irq_handler (major fuel status : Nat) (rcvd : Mem) (mem : hfi_mem)
    (cm3_fault : Nat) (r : irq_result)
    (h : a6xx_hfi_irq_handler major fuel status rcvd mem cm3_fault = some r) :
    (∀ i, i ≠ HFI_DBG_ID → r.hfi_mem i = mem i) ∧
    (status &&& HFI_IRQ_DBGQ_MASK ≠ 0 →
      ∃ pr, a6xx_hfi_process_queue major fuel (mem HFI_DBG_ID) rcvd none [] = some pr ∧
        r.hfi_mem HFI_DBG_ID = pr.q ∧ r.events = pr.events) ∧
    (status &&& HFI_IRQ_DBGQ_MASK = 0 → r.hfi_mem = mem ∧ r.events = []) ∧
    (status &&& HFI_IRQ_MSGQ_MASK ≠ 0 →
      r.unhandled = some (status &&& (0xFFFFFFFF ^^^ HFI_IRQ_MASK))) ∧
    (status &&& HFI_IRQ_CM3_FAULT_MASK ≠ 0 → r.cm3_fault = 1) ∧
    (status &&& HFI_IRQ_CM3_FAULT_MASK = 0 → r.cm3_fault = cm3_fault) := by
  unfold a6xx_hfi_irq_handler at h
  by_cases hd : status &&& HFI_IRQ_DBGQ_MASK ≠ 0
  · simp only [hd, ne_eq, not_false_eq_true, if_true] at h
    cases hp : a6xx_hfi_process_queue major fuel (mem HFI_DBG_ID) rcvd none [] with
    | none => rw [hp] at h; simp at h
    | some pr =>
      rw [hp] at h
      simp only [Option.some.injEq] at h
      subst h
      refine ⟨?_, ?_, ?_, ?_, ?_, ?_⟩
      · intro i hi
        simp [hfi_mem_set, hi]
      · intro _
        exact ⟨pr, rfl, by simp [hfi_mem_set], rfl⟩
      · intro h0; exact absurd h0 hd
      · intro hm
        have := irq_unhandled_msgq status hm
        simp [this]
      · intro hc; simp [hc]
      · intro hc; simp [hc]
  · have hd0 : status &&& HFI_IRQ_DBGQ_MASK = 0 := by simpa using hd
    simp only [hd0, ne_eq, not_true_eq_false, if_false, Option.some.injEq] at h
    subst h
    refine ⟨?_, ?_, ?_, ?_, ?_, ?_⟩
    · intro i _; rfl
    · intro h0; exact absurd hd0 h0
    · intro _; exact ⟨rfl, rfl⟩
    · intro hm
      have := irq_unhandled_msgq status hm
      simp [this]
    · intro hc; simp [hc]
    · intro hc; simp [hc]

/-- Instance of the amended C21: with the debug-queue and message-queue bits
set, the debug queue is drained and the message queue is left alone. -/
theorem C21_irq_handler_witness :
    ∃ r, a6xx_hfi_irq_handler 2 4 5 out7 mem_dbg_pending 0 = some r ∧
      r.hfi_mem HFI_MSG_ID = mem_dbg_pending HFI_MSG_ID ∧
      (∃ pr, a6xx_hfi_process_queue 2 4 (mem_dbg_pending HFI_DBG_ID) out7 none [] = some pr ∧
        r.hfi_mem HFI_DBG_ID = pr.q ∧ r.events = pr.events) ∧
      r.unhandled = some (5 &&& (0xFFFFFFFF ^^^ HFI_IRQ_MASK)) := by
  cases hcase : a6xx_hfi_irq_handler 2 4 5 out7 mem_dbg_pending 0 with
  | none =>
    have : (a6xx_hfi_irq_handler 2 4 5 out7 mem_dbg_pending 0).isSome = true := by decide
    rw [hcase] at this
    exact absurd this (by simp)
  | some r =>
    obtain ⟨h1, h2, _, h4, _⟩ := C21_irq_handler 2 4 5 out7 mem_dbg_pending 0 r hcase
    exact ⟨r, rfl, h1 HFI_MSG_ID (by decide), h2 (by decide), h4 (by decide)⟩

/-- C22 — Evaluation of `init_queues`: for every device, `num_q` and
`num_active_q` are both `HFI_QUEUE_MAX = 4`, while only three of the four queue
headers have the status `HFI_QUEUE_STATUS_ENABLED`. -/
theorem C22_init_queues_active_count (legacy : Bool) (gmuaddr : Nat) :
    (init_queues legacy gmuaddr).qtbl_hdr.num_q = 4 ∧
    (init_queues legacy gmuaddr).qtbl_hdr.num_active_q = 4 ∧
    count_enabled (init_queues legacy gmuaddr) = 3 ∧
    ((init_queues legacy gmuaddr).qhdr HFI_DSP_ID_0).status = HFI_QUEUE_STATUS_DISABLED := by
  cases legacy <;> exact ⟨rfl, rfl, rfl, rfl⟩

theorem queue_offset_eq (i : Nat) : HFI_QUEUE_OFFSET i = 224 + i * 4096 := by
  have : ALIGN sizeof_hfi_queue_table SZ_16 = 224 := by decide
  simp only [HFI_QUEUE_OFFSET, this, HFI_QUEUE_SIZE, SZ_4K]

/-- C30 — Shared-region layout: the header sizes are 24 and 48 bytes, there
are 4 queues of 4096 bytes; every queue body starts at a multiple of 16 at or
behind the end of the queue table, ends inside `HFIMEM_SIZE`, and two
different bodies do not overlap; `init_queues` gives queue `i` the 32-bit
`start_addr` of `gmuaddr + HFI_QUEUE_OFFSET(i)` (that very sum when the region
lies below `2^32`), 1024 dwords, both indices 0, and enables the queues 0 to
2 but not queue 3. -/
theorem C30_layout_sound (legacy : Bool) (gmuaddr : Nat) (i j : Fin HFI_QUEUE_MAX) :
    sizeof_hfi_queue_table_header = 24 ∧ sizeof_hfi_queue_header = 48 ∧
    HFI_QUEUE_MAX = 4 ∧ HFI_QUEUE_SIZE = 4096 ∧
    HFI_QUEUE_OFFSET i.val % 16 = 0 ∧
    sizeof_hfi_queue_table ≤ HFI_QUEUE_OFFSET i.val ∧
    HFI_QUEUE_OFFSET i.val + HFI_QUEUE_SIZE ≤ HFIMEM_SIZE ∧
    (i ≠ j → HFI_QUEUE_OFFSET i.val + HFI_QUEUE_SIZE ≤ HFI_QUEUE_OFFSET j.val ∨
      HFI_QUEUE_OFFSET j.val + HFI_QUEUE_SIZE ≤ HFI_QUEUE_OFFSET i.val) ∧
    ((init_queues legacy gmuaddr).qhdr i).start_addr = u32 (gmuaddr + HFI_QUEUE_OFFSET i.val) ∧
    (gmuaddr + HFIMEM_SIZE ≤ 2 ^ 32 →
      ((init_queues legacy gmuaddr).qhdr i).start_addr = gmuaddr + HFI_QUEUE_OFFSET i.val) ∧
    ((init_queues legacy gmuaddr).qhdr i).queue_size = 1024 ∧
    ((init_queues legacy gmuaddr).qhdr i).read_index = 0 ∧
    ((init_queues legacy gmuaddr).qhdr i).write_index = 0 ∧
    (i.val < 3 → ((init_queues legacy gmuaddr).qhdr i).status = HFI_QUEUE_STATUS_ENABLED) ∧
    (i.val = 3 → ((init_queues legacy gmuaddr).qhdr i).status = HFI_QUEUE_STATUS_DISABLED) := by
  have hi : i.val < 4 := i.isLt
  have hj : j.val < 4 := j.isLt
  have hmem : HFIMEM_SIZE = 16616 := by decide
  have htbl : sizeof_hfi_queue_table = 216 := by decide
  have hsz : HFI_QUEUE_SIZE = 4096 := by decide
  rw [queue_offset_eq, queue_offset_eq, hmem, htbl, hsz]
  refine ⟨by decide, by decide, by decide, rfl, by omega, by omega, by omega, ?_, ?_, ?_,
    rfl, rfl, rfl, ?_, ?_⟩
  · intro hne
    have : i.val ≠ j.val := fun h => hne (Fin.ext h)
    omega
  · simp only [init_queues, GMU_QUEUE_START_ADDR, queue_offset_eq]
  · intro hb
    simp only [init_queues, GMU_QUEUE_START_ADDR, queue_offset_eq, u32]
    exact Nat.mod_eq_of_lt (by omega)
  · intro h3
    have : i = HFI_CMD_ID ∨ i = HFI_MSG_ID ∨ i = HFI_DBG_ID := by
      rcases i with ⟨v, hv⟩
      simp only [HFI_CMD_ID, HFI_MSG_ID, HFI_DBG_ID, Fin.mk.injEq]
      simp only at h3
      omega
    rcases this with h | h | h <;> subst h <;> cases legacy <;> rfl
  · intro h3
    have : i = HFI_DSP_ID_0 := Fin.ext h3
    subst this
    cases legacy <;> rfl

/-- Instance of C30: the message queue of a region at GMU address `0x60000000`. -/
theorem C30_layout_sound_witness :
    ((init_queues false 0x60000000).qhdr HFI_MSG_ID).start_addr
      = 0x60000000 + HFI_QUEUE_OFFSET 1 ∧
    ((init_queues false 0x60000000).qhdr HFI_MSG_ID).status = HFI_QUEUE_STATUS_ENABLED ∧
    (HFI_QUEUE_OFFSET 1 + HFI_QUEUE_SIZE ≤ HFI_QUEUE_OFFSET 3 ∨
      HFI_QUEUE_OFFSET 3 + HFI_QUEUE_SIZE ≤ HFI_QUEUE_OFFSET 1) := by
  have h := C30_layout_sound false 0x60000000 HFI_MSG_ID HFI_DSP_ID_0
  exact ⟨h.2.2.2.2.2.2.2.2.2.1 (by decide), h.2.2.2.2.2.2.2.2.2.2.2.2.2.1 (by decide),
    h.2.2.2.2.2.2.2.1 (by decide)⟩

theorem queue_read_copy_keep (ring : Mem) (qsz : Nat) :
    ∀ (n i r : Nat) (out : Mem) (r1 : Nat) (out1 : Mem),
      queue_read_copy ring qsz n i r out = some (r1, out1) →
      ∀ j, j < i → out1 j = out j := by
  intro n
  induction n with
  | zero =>
    intro i r out r1 out1 h j _
    simp only [queue_read_copy, Option.some.injEq, Prod.mk.injEq] at h
    rw [← h.2]
  | succ n ih =>
    intro i r out r1 out1 h j hj
    simp only [queue_read_copy] at h
    split at h
    · exact absurd h (by simp)
    · rw [ih _ _ _ _ _ h j (by omega)]
      exact store_other _ _ (by omega)

theorem queue_read_positive (major : Nat) (q : hfi_queue) (out : Mem) (max_size : Nat)
    (n : Int) (q1 : hfi_queue) (out1 : Mem)
    (h : a6xx_hfi_queue_read major q out max_size = some (n, q1, out1)) (hn : 0 < n) :
    q.hdr.status ≠ HFI_QUEUE_STATUS_DISABLED ∧ q.hdr.read_index ≠ q.hdr.write_index ∧
    q.hdr.read_index < q.hdr.queue_size ∧
    n = (MSG_HDR_GET_SIZE (q.queue q.hdr.read_index) : Int) ∧
    MSG_HDR_GET_SIZE (q.queue q.hdr.read_index) ≤ max_size >>> 2 ∧
    out1 0 = q.queue q.hdr.read_index := by
  unfold a6xx_hfi_queue_read at h
  by_cases h1 : q.hdr.status = HFI_QUEUE_STATUS_DISABLED
  · simp [h1, EINVAL] at h; omega
  · by_cases h2 : q.hdr.read_index = q.hdr.write_index
    · simp [h1, h2, ENODATA] at h; omega
    · by_cases h3 : MSG_HDR_GET_SIZE (q.queue q.hdr.read_index) > max_size >>> 2
      · simp [h1, h2, h3, EMSGSIZE] at h; omega
      · by_cases h4 : q.hdr.read_index < q.hdr.queue_size
        · simp only [h1, h2, h3, h4, if_false, if_true] at h
          have hmin : min (MSG_HDR_GET_SIZE (q.queue q.hdr.read_index)) (max_size >>> 2)
              = MSG_HDR_GET_SIZE (q.queue q.hdr.read_index) := Nat.min_eq_left (by omega)
          rw [hmin] at h
          cases hc : queue_read_copy q.queue q.hdr.queue_size
              (MSG_HDR_GET_SIZE (q.queue q.hdr.read_index)) 0 q.hdr.read_index
              (memset_zero out max_size) with
          | none => rw [hc] at h; simp at h
          | some x =>
            obtain ⟨r1, o1⟩ := x
            rw [hc] at h
            simp only at h
            split at h
            · exact absurd h (by simp)
            · simp only [Option.some.injEq, Prod.mk.injEq] at h
              obtain ⟨hn1, _, ho⟩ := h
              subst ho
              refine ⟨h1, h2, h4, hn1.symm, by omega, ?_⟩
              have hpos : 0 < MSG_HDR_GET_SIZE (q.queue q.hdr.read_index) := by omega
              obtain ⟨k, hk⟩ := Nat.exists_eq_succ_of_ne_zero (Nat.pos_iff_ne_zero.mp hpos)
              rw [hk] at hc
              simp only [queue_read_copy] at hc
              split at hc
              · exact absurd hc (by simp)
              · rw [queue_read_copy_keep _ _ _ _ _ _ _ _ hc 0 (by omega)]
                exact store_same _ _ _
        · simp only [h1, h2, h3, h4, if_false] at h
          split at h
          · exact absurd h (by simp)
          · simp only [Option.some.injEq, Prod.mk.injEq] at h
            have := h.1
            simp only [ENODATA] at this
            omega

/-- C24 — Receivers never copy beyond the destination: when
`a6xx_hfi_queue_read` returns a positive count for the receive buffer of
`MAX_RCVD_SIZE` dwords, that count is the size field of `rcvd[0]`, the byte
count `MSG_HDR_GET_SIZE(hdr) << 2` of `receive_ack_cmd` is at most
`4 * MAX_RCVD_SIZE = 76`, and `receive_ack_cmd` leaves every word from index
`MAX_RCVD_SIZE` on as it was. -/
theorem C24_ack_copy_bounded (major : Nat) (q : hfi_queue) (rcvd : Mem) (p : pending_cmd)
    (n : Int) (q1 : hfi_queue) (rcvd1 : Mem)
    (hread : a6xx_hfi_queue_read major q rcvd (4 * MAX_RCVD_SIZE) = some (n, q1, rcvd1))
    (hpos : 0 < n) :
    n = (MSG_HDR_GET_SIZE (rcvd1 0) : Int) ∧
    MSG_HDR_GET_SIZE (rcvd1 0) <<< 2 ≤ 4 * MAX_RCVD_SIZE ∧
    4 * MAX_RCVD_SIZE = 76 ∧
    ∃ p1, (receive_ack_cmd rcvd1 (some p)).2 = some p1 ∧
      ∀ i, MAX_RCVD_SIZE ≤ i → p1.results i = p.results i := by
  obtain ⟨_, _, _, h4, h5, h6⟩ := queue_read_positive major q rcvd _ n q1 rcvd1 hread hpos
  have hcap : (4 * MAX_RCVD_SIZE) >>> 2 = MAX_RCVD_SIZE := by decide
  rw [hcap] at h5
  rw [← h6] at h4 h5
  have hM : MAX_RCVD_SIZE = 19 := by decide
  refine ⟨h4, ?_, by decide, ?_⟩
  · rw [Nat.shiftLeft_eq]; omega
  · unfold receive_ack_cmd
    simp only
    split
    · refine ⟨_, rfl, ?_⟩
      intro i hi
      simp only
      rw [memcpy_words, if_neg (by omega)]
    · exact ⟨p, rfl, fun _ _ => rfl⟩

/-- Instance of C24: the acknowledgement of 4 dwords at the head of the queue
gives a copy of 16 bytes. -/
theorem C24_ack_copy_bounded_witness :
    ∃ n q1 rcvd1,
      a6xx_hfi_queue_read 2 q_ack_dbg out7 (4 * MAX_RCVD_SIZE) = some (n, q1, rcvd1) ∧
      0 < n ∧ MSG_HDR_GET_SIZE (rcvd1 0) <<< 2 ≤ 4 * MAX_RCVD_SIZE := by
  have hn : (a6xx_hfi_queue_read 2 q_ack_dbg out7 (4 * MAX_RCVD_SIZE)).map
      (fun x => decide (0 < x.1)) = some true := by decide
  cases hcase : a6xx_hfi_queue_read 2 q_ack_dbg out7 (4 * MAX_RCVD_SIZE) with
  | none => rw [hcase] at hn; exact absurd hn (by simp)
  | some x =>
    obtain ⟨n, q1, rcvd1⟩ := x
    rw [hcase] at hn
    simp only [Option.map_some', Option.some.injEq, decide_eq_true_eq] at hn
    exact ⟨n, q1, rcvd1, rfl, hn,
      (C24_ack_copy_bounded 2 q_ack_dbg out7 pending5 n q1 rcvd1 hcase hn).2.1⟩

/-- C25 — Evaluation of `a6xx_hfi_send_get_value`: for an acknowledgement of
19 dwords, which the receive path accepts, the byte count is 68 while
`req->data` has 64 bytes, and the send then overwrites the word behind
`req->data` (index 16, `7` before the call) with the last word of the
acknowledgement; for a size field of 1 the subtraction wraps and the byte
count is `0xFFFFFFFC`. -/
theorem C25_get_value_copy_overflow :
    MSG_HDR_GET_SIZE (ack19 0) = 19 ∧
    get_value_copy_bytes (ack19 0) = 68 ∧
    sizeof_get_value_data = 64 ∧
    out7 16 = 7 ∧
    (a6xx_hfi_send_get_value 2 4 env_ack19 hfi_seq4 cmd_req out7 pending_zero).map
        (fun r => (r.1, r.2.2 15, r.2.2 16, r.2.2 17)) = some (0, 0x111, 0x112, 7) ∧
    MSG_HDR_GET_SIZE (ACK_MSG_HDR H2F_MSG_GET_VALUE 4) = 1 ∧
    get_value_copy_bytes (ACK_MSG_HDR H2F_MSG_GET_VALUE 4) = 0xFFFFFFFC := by
  refine ⟨by decide, by decide, by decide, by decide, by decide, by decide, by decide⟩

/-! ## Claims on framing, alignment and progress -/

/-- C23, as stated, fails outside the index range: on the 16-dword queue with
`write_index = 20` the successful write stores `msg[0]` at ring word 20 and
leaves word `(20 + 0) mod 16 = 4` as it was; on the 4-dword queue with
`read_index = 1000` the successful write of 8 dwords wraps over itself, so
word `(0 + 0) mod 4` holds `msg[4]`. -/
theorem C23_counterexample :
    (a6xx_hfi_queue_write 1 q16_woor msg8).map (fun r => (r.1, r.2.queue 4, r.2.queue 20))
      = some (0, q16_woor.queue 4, msg8 0) ∧
    q16_woor.queue 4 ≠ msg8 0 ∧ (q16_woor.hdr.write_index + 0) % q16_woor.hdr.queue_size = 4 ∧
    (a6xx_hfi_queue_write 1 q4_roor msg8).map (fun r => (r.1, r.2.queue 0))
      = some (0, msg8 4) ∧
    msg8 4 ≠ msg8 0 ∧ (q4_roor.hdr.write_index + 0) % q4_roor.hdr.queue_size = 0 := by
  refine ⟨by decide, by decide, by decide, by decide, by decide, by decide⟩

/-- C23, amended — Write framing on a queue with `write_index < queue_size`
and with `ALIGN(L,4) ≤ queue_size` (which holds as soon as `read_index` is in
range too): after a successful write of a message of size `L` at write index
`w` on capacity `c`, `ring[(w+i) mod c] = msg[i]` for `i < L`; from protocol
version 2 on, `ring[(w+i) mod c] = 0xFAFAFAFA` for `L ≤ i < ALIGN(L,4)` and the
new `write_index` is `(w + ALIGN(L,4)) mod c`; below version 2 the new
`write_index` is `(w + L) mod c`; every ring word outside the framed range and
every other header field, `read_index` included, are as before. -/
theorem C23_write_framing (major : Nat) (q q1 : hfi_queue) (msg : Mem)
    (hq32 : q.hdr.queue_size < 2 ^ 32)
    (hw : q.hdr.write_index < q.hdr.queue_size)
    (hfit : ALIGN (MSG_HDR_GET_SIZE (msg 0)) SZ_4 ≤ q.hdr.queue_size ∨
      q.hdr.read_index < q.hdr.queue_size)
    (hok : a6xx_hfi_queue_write major q msg = some (0, q1)) :
    (∀ i, i < MSG_HDR_GET_SIZE (msg 0) →
      q1.queue ((q.hdr.write_index + i) % q.hdr.queue_size) = msg i) ∧
    (major ≥ 2 → ∀ i, MSG_HDR_GET_SIZE (msg 0) ≤ i → i < ALIGN (MSG_HDR_GET_SIZE (msg 0)) SZ_4 →
      q1.queue ((q.hdr.write_index + i) % q.hdr.queue_size) = 0xFAFAFAFA) ∧
    (major ≥ 2 → q1.hdr.write_index =
      (q.hdr.write_index + ALIGN (MSG_HDR_GET_SIZE (msg 0)) SZ_4) % q.hdr.queue_size) ∧
    (major < 2 → q1.hdr.write_index =
      (q.hdr.write_index + MSG_HDR_GET_SIZE (msg 0)) % q.hdr.queue_size) ∧
    (∀ j, (∀ i, i < framed_size major msg → j ≠ (q.hdr.write_index + i) % q.hdr.queue_size) →
      q1.queue j = q.queue j) ∧
    q1.hdr.read_index = q.hdr.read_index ∧ q1.hdr.queue_size = q.hdr.queue_size ∧
    q1.hdr.status = q.hdr.status := by
  obtain ⟨hen, hsp⟩ := queue_write_zero_inv major q q1 msg hok
  have hL := get_size_le (msg 0)
  have hfit1 : ALIGN (MSG_HDR_GET_SIZE (msg 0)) SZ_4 ≤ q.hdr.queue_size := by
    rcases hfit with h | h
    · exact h
    · have hes := empty_space_in_range q.hdr hq32 h hw
      rw [hes] at hsp
      split at hsp <;> omega
  obtain ⟨ring1, e1, m1, m2, m3⟩ := queue_write_ok major q msg hen hq32 hw hsp hfit1
  rw [e1] at hok
  have hq1 := (Prod.mk.inj (Option.some.inj hok)).2
  subst hq1
  refine ⟨m1, m2, ?_, ?_, m3, rfl, rfl, rfl⟩
  · intro hm
    simp only [hm, if_true]
  · intro hm
    have : ¬ (major ≥ 2) := by omega
    simp only [this, if_false]

/-- Instance of the amended C23: the 3-dword command written with version 2
framing to the empty 16-dword queue. -/
theorem C23_write_framing_witness :
    ∃ q1, a6xx_hfi_queue_write 2 q16 msg3 = some (0, q1) ∧
      (∀ i, i < MSG_HDR_GET_SIZE (msg3 0) →
        q1.queue ((q16.hdr.write_index + i) % q16.hdr.queue_size) = msg3 i) ∧
      q1.hdr.write_index =
        (q16.hdr.write_index + ALIGN (MSG_HDR_GET_SIZE (msg3 0)) SZ_4) % q16.hdr.queue_size := by
  obtain ⟨q1, h⟩ : ∃ q1, a6xx_hfi_queue_write 2 q16 msg3 = some (0, q1) := ⟨_, rfl⟩
  obtain ⟨h1, _, h3, _⟩ := C23_write_framing 2 q16 q1 msg3 (by decide) (by decide)
    (Or.inl (by decide)) h
  exact ⟨q1, h, h1, h3 (by decide)⟩

theorem align_advance {r c L : Nat} (hr : r < c) (hc32 : c < 2 ^ 32) (hc4 : c % 4 = 0)
    (hr4 : r % 4 = 0) (hL : L ≤ 255) :
    ALIGN ((r + L) % c) SZ_4 % c = (r + ALIGN L SZ_4) % c := by
  have hx : (r + L) % c < c := Nat.mod_lt _ (by omega)
  have hx4 : (r + L) % c % 4 = L % 4 := by
    rw [Nat.mod_mod_of_dvd _ (Nat.dvd_of_mod_eq_zero hc4)]
    omega
  rw [ALIGN4_eq _ (by omega), ALIGN4_eq L (by omega)]
  have e : ((r + L) % c + 3) / 4 * 4 = (r + L) % c + ((L + 3) / 4 * 4 - L) := by omega
  rw [e, Nat.mod_add_mod]
  congr 1
  omega

/-- C28, as stated, fails for a head header with the size field 0: on the
enabled 16-dword queue with indices 0 and 4 and a ring of zeros, the read
returns 0, not a positive count, and leaves `read_index` at 0, for both
protocol versions; the loop of `a6xx_hfi_process_queue` then ends with the
queue still non-empty. -/
theorem C28_counterexample :
    q16_zero.hdr.status ≠ HFI_QUEUE_STATUS_DISABLED ∧
    q16_zero.hdr.read_index < q16_zero.hdr.queue_size ∧
    q16_zero.hdr.write_index < q16_zero.hdr.queue_size ∧
    q16_zero.hdr.read_index ≠ q16_zero.hdr.write_index ∧
    MSG_HDR_GET_SIZE (q16_zero.queue q16_zero.hdr.read_index) ≤ (4 * MAX_RCVD_SIZE) >>> 2 ∧
    (a6xx_hfi_queue_read 1 q16_zero out7 (4 * MAX_RCVD_SIZE)).map
        (fun x => (x.1, x.2.1.hdr.read_index, x.2.1.hdr.write_index)) = some (0, 0, 4) ∧
    (a6xx_hfi_queue_read 2 q16_zero out7 (4 * MAX_RCVD_SIZE)).map
        (fun x => (x.1, x.2.1.hdr.read_index, x.2.1.hdr.write_index)) = some (0, 0, 4) ∧
    (a6xx_hfi_process_queue 2 1 q16_zero out7 (some pending5) []).map
        (fun r => (r.rc, r.q.hdr.read_index, r.q.hdr.write_index)) = some (0, 0, 4) := by
  refine ⟨by decide, by decide, by decide, by decide, by decide, by decide, by decide,
    by decide⟩

/-- C28, amended — On an enabled queue with in-range indices and
`read_index != write_index` whose head header declares a size `L` that fits
the output buffer: for `L ≥ 1` the read returns `L`, a positive count, and
moves `read_index` to `(read_index + L) mod queue_size` below protocol version
2, which differs from the old index when `L < queue_size`, and to
`(read_index + ALIGN(L,4)) mod queue_size` from version 2 on when `read_index`
and `queue_size` are multiples of 4, which differs from the old index when
`ALIGN(L,4) < queue_size`; for `L = 0` the read returns 0 and, below version 2
or with a `read_index` that is a multiple of 4, leaves `read_index` as it
was. -/
theorem C28_read_progress (major : Nat) (q : hfi_queue) (out : Mem) (max_size : Nat)
    (hen : q.hdr.status ≠ HFI_QUEUE_STATUS_DISABLED)
    (hq32 : q.hdr.queue_size < 2 ^ 32)
    (hinv : index_inv q.hdr)
    (hne : q.hdr.read_index ≠ q.hdr.write_index)
    (hfits : MSG_HDR_GET_SIZE (q.queue q.hdr.read_index) ≤ max_size >>> 2) :
    ∃ q1 out1,
      a6xx_hfi_queue_read major q out max_size =
        some ((MSG_HDR_GET_SIZE (q.queue q.hdr.read_index) : Int), q1, out1) ∧
      q1.hdr.write_index = q.hdr.write_index ∧ q1.queue = q.queue ∧
      (1 ≤ MSG_HDR_GET_SIZE (q.queue q.hdr.read_index) →
        (0 : Int) < (MSG_HDR_GET_SIZE (q.queue q.hdr.read_index) : Int)) ∧
      (major < 2 → q1.hdr.read_index =
        (q.hdr.read_index + MSG_HDR_GET_SIZE (q.queue q.hdr.read_index)) % q.hdr.queue_size) ∧
      (major < 2 → 1 ≤ MSG_HDR_GET_SIZE (q.queue q.hdr.read_index) →
        MSG_HDR_GET_SIZE (q.queue q.hdr.read_index) < q.hdr.queue_size →
        q1.hdr.read_index ≠ q.hdr.read_index) ∧
      (major ≥ 2 → q.hdr.read_index % 4 = 0 → q.hdr.queue_size % 4 = 0 →
        q1.hdr.read_index =
          (q.hdr.read_index + ALIGN (MSG_HDR_GET_SIZE (q.queue q.hdr.read_index)) SZ_4)
            % q.hdr.queue_size) ∧
      (major ≥ 2 → q.hdr.read_index % 4 = 0 → q.hdr.queue_size % 4 = 0 →
        1 ≤ MSG_HDR_GET_SIZE (q.queue q.hdr.read_index) →
        ALIGN (MSG_HDR_GET_SIZE (q.queue q.hdr.read_index)) SZ_4 < q.hdr.queue_size →
        q1.hdr.read_index ≠ q.hdr.read_index) ∧
      (MSG_HDR_GET_SIZE (q.queue q.hdr.read_index) = 0 →
        (major < 2 ∨ q.hdr.read_index % 4 = 0) → q1.hdr.read_index = q.hdr.read_index) := by
  obtain ⟨hq, hr, hw⟩ := hinv
  obtain ⟨out1, e1, _, _⟩ := queue_read_ok major q out max_size hen hq32 hne hr hfits
  have hL := get_size_le (q.queue q.hdr.read_index)
  obtain ⟨hA1, hA2, hA3⟩ := ALIGN4_bounds (MSG_HDR_GET_SIZE (q.queue q.hdr.read_index)) (by omega)
  generalize MSG_HDR_GET_SIZE (q.queue q.hdr.read_index) = L at *
  refine ⟨_, out1, e1, rfl, rfl, ?_, ?_, ?_, ?_, ?_, ?_⟩
  · intro h; exact_mod_cast h
  · intro hm
    have : ¬ (major ≥ 2) := by omega
    simp only [this, if_false]
  · intro hm h1 h2
    have : ¬ (major ≥ 2) := by omega
    simp only [this, if_false]
    exact add_mod_ne_self hr (by omega) h2
  · intro hm h4 hc4
    simp only [hm, if_true]
    exact align_advance hr hq32 hc4 h4 hL
  · intro hm h4 hc4 h1 h2
    simp only [hm, if_true]
    rw [align_advance hr hq32 hc4 h4 hL]
    exact add_mod_ne_self hr (by omega) h2
  · intro h0 hcase
    subst h0
    by_cases hm : major ≥ 2
    · simp only [hm, if_true, Nat.add_zero, Nat.mod_eq_of_lt hr]
      have h4 : q.hdr.read_index % 4 = 0 := by
        rcases hcase with h | h
        · omega
        · exact h
      rw [ALIGN4_eq _ (by omega)]
      have : (q.hdr.read_index + 3) / 4 * 4 = q.hdr.read_index := by omega
      rw [this]
      exact Nat.mod_eq_of_lt hr
    · simp only [hm, if_false, Nat.add_zero, Nat.mod_eq_of_lt hr]

/-- Instance of the amended C28: the read of the acknowledgement of 4 dwords at
the head of a 16-dword queue moves `read_index` from 0. -/
theorem C28_read_progress_witness :
    ∃ q1 out1,
      a6xx_hfi_queue_read 2 q_ack_dbg out7 (4 * MAX_RCVD_SIZE) =
        some ((MSG_HDR_GET_SIZE (q_ack_dbg.queue q_ack_dbg.hdr.read_index) : Int), q1, out1) ∧
      q1.hdr.read_index ≠ q_ack_dbg.hdr.read_index := by
  obtain ⟨q1, out1, h1, _, _, _, _, _, _, h8, _⟩ :=
    C28_read_progress 2 q_ack_dbg out7 (4 * MAX_RCVD_SIZE) (by decide) (by decide)
      (by unfold index_inv; decide) (by decide) (by decide)
  exact ⟨q1, out1, h1, h8 (by decide) (by decide) (by decide) (by decide) (by decide)⟩

theorem receive_ack_results (rcvd : Mem) (p : pending_cmd) :
    ∃ p1, (receive_ack_cmd rcvd (some p)).2 = some p1 ∧ p1.sent_hdr = p.sent_hdr ∧
      (p1.results 1 = p.results 1 ∨
        MSG_HDR_GET_SEQNUM (p1.results 1) = MSG_HDR_GET_SEQNUM p.sent_hdr) := by
  unfold receive_ack_cmd
  simp only
  split
  · next hc =>
    refine ⟨_, rfl, rfl, ?_⟩
    simp only [memcpy, Nat.shiftLeft_eq]
    have e1 : MSG_HDR_GET_SIZE (rcvd 0) * 2 ^ 2 / 4 = MSG_HDR_GET_SIZE (rcvd 0) := by omega
    have e2 : MSG_HDR_GET_SIZE (rcvd 0) * 2 ^ 2 % 4 = 0 := by omega
    rw [e1, e2]
    by_cases h1 : 1 < MSG_HDR_GET_SIZE (rcvd 0)
    · right
      simp only [h1, if_true]
      simp only [HDR_CMP_SEQNUM, beq_iff_eq] at hc
      exact hc.symm
    · left
      simp only [h1, if_false]
      split
      · simp [Nat.mod_one]
      · rfl
  · exact ⟨p, rfl, rfl, Or.inl rfl⟩

theorem v1_receiver_results (rcvd : Mem) (p : pending_cmd) :
    ∃ p1, (a6xx_hfi_v1_receiver rcvd (some p)).1 = some p1 ∧ p1.sent_hdr = p.sent_hdr ∧
      (p1.results 1 = p.results 1 ∨
        MSG_HDR_GET_SEQNUM (p1.results 1) = MSG_HDR_GET_SEQNUM p.sent_hdr) := by
  unfold a6xx_hfi_v1_receiver
  split
  · exact receive_ack_results rcvd p
  · exact ⟨p, rfl, rfl, Or.inl rfl⟩

theorem process_queue_results (major : Nat) :
    ∀ (fuel : Nat) (q : hfi_queue) (rcvd : Mem) (p : pending_cmd) (ev : List hfi_event)
      (r : process_result),
      a6xx_hfi_process_queue major fuel q rcvd (some p) ev = some r →
      ∃ p1, r.ret_cmd = some p1 ∧ p1.sent_hdr = p.sent_hdr ∧
        (p1.results 1 = p.results 1 ∨
          MSG_HDR_GET_SEQNUM (p1.results 1) = MSG_HDR_GET_SEQNUM p.sent_hdr) := by
  intro fuel
  induction fuel with
  | zero => intro q rcvd p ev r h; simp [a6xx_hfi_process_queue] at h
  | succ fuel ih =>
    intro q rcvd p ev r h
    simp only [a6xx_hfi_process_queue] at h
    split at h
    · exact absurd h (by simp)
    · next n q1 rcvd1 _ =>
      split at h
      · split at h
        · obtain ⟨p1, hp1, hs1, hr1⟩ := v1_receiver_results rcvd1 p
          rw [hp1] at h
          obtain ⟨p2, hp2, hs2, hr2⟩ := ih _ _ _ _ _ h
          refine ⟨p2, hp2, hs2.trans hs1, ?_⟩
          rcases hr2 with e | e
          · rw [e]; exact hr1
          · right; rw [e, hs1]
        · split at h
          · obtain ⟨p1, hp1, hs1, hr1⟩ := receive_ack_results rcvd1 p
            split at h
            · cases h
              exact ⟨p1, hp1, hs1, hr1⟩
            · rw [hp1] at h
              obtain ⟨p2, hp2, hs2, hr2⟩ := ih _ _ _ _ _ h
              refine ⟨p2, hp2, hs2.trans hs1, ?_⟩
              rcases hr2 with e | e
              · rw [e]; exact hr1
              · right; rw [e, hs1]
          · exact ih _ _ _ _ _ h
      · cases h
        exact ⟨p, rfl, rfl, Or.inl rfl⟩

theorem process_queue_empty (major fuel : Nat) (q : hfi_queue) (rcvd : Mem)
    (ret_cmd : Option pending_cmd) (ev : List hfi_event)
    (he : q.hdr.read_index = q.hdr.write_index) :
    a6xx_hfi_process_queue major (fuel + 1) q rcvd ret_cmd ev =
      some { rc := 0, q := q, rcvd := rcvd, ret_cmd := ret_cmd, events := ev } := by
  simp only [a6xx_hfi_process_queue, a6xx_hfi_queue_read, he, if_true]
  by_cases hs : q.hdr.status = HFI_QUEUE_STATUS_DISABLED
  · simp [hs, EINVAL]
  · simp [hs, ENODATA]

/-- C29, as stated, fails: with the interrupt bit set and the message queue
left empty by the firmware, `a6xx_hfi_send_cmd` on a zeroed pending command
returns 0 although no acknowledgement was read: all 19 words of `results` are
still 0 and `results[1]` carries sequence number 0, while `sent_hdr` carries 5.
The same holds when the message queue holds only a debug message, for both
protocol versions. -/
theorem C29_counterexample :
    (a6xx_hfi_send_cmd 2 4 env_bit_only hfi_seq4 HFI_CMD_ID cmd_req (some pending_zero)).map
        (fun r => (r.rc, r.events, r.ret_cmd.map (fun p =>
          (MSG_HDR_GET_SEQNUM p.sent_hdr, MSG_HDR_GET_SEQNUM (p.results 1)))))
      = some (0, [], some (5, 0)) ∧
    (a6xx_hfi_send_cmd 2 4 env_bit_only hfi_seq4 HFI_CMD_ID cmd_req (some pending_zero)).map
        (fun r => r.ret_cmd.map (fun p => (List.range MAX_RCVD_SIZE).map p.results))
      = some (some (List.replicate 19 0)) ∧
    (a6xx_hfi_send_cmd 2 4 env_dbg_only hfi_seq4 HFI_CMD_ID cmd_req (some pending_zero)).map
        (fun r => (r.rc, r.events, r.ret_cmd.map (fun p =>
          (MSG_HDR_GET_SEQNUM p.sent_hdr, MSG_HDR_GET_SEQNUM (p.results 1)))))
      = some (0, [hfi_event.debug_req (CREATE_MSG_HDR F2H_MSG_DEBUG 16 HFI_MSG_CMD)],
          some (5, 0)) ∧
    (a6xx_hfi_send_cmd 1 4 env_dbg_only hfi_seq4 HFI_CMD_ID cmd_req (some pending_zero)).map
        (fun r => (r.rc, r.events, r.ret_cmd.map (fun p =>
          (MSG_HDR_GET_SEQNUM p.sent_hdr, MSG_HDR_GET_SEQNUM (p.results 1)))))
      = some (0, [hfi_event.debug_req (CREATE_MSG_HDR F2H_MSG_DEBUG 16 HFI_MSG_CMD)],
          some (5, 0)) := by
  refine ⟨by decide, by decide, by decide, by decide⟩

/-- C29, amended — Whenever `a6xx_hfi_send_cmd` with a non-null pending command
returns 0, the queue write returned 0, `poll_gmu_reg` saw the message-queue
interrupt bit, `sent_hdr` is the stamped header of the command, and
`results[1]` either still has the value it had before the call or carries the
same sequence number as `sent_hdr`. A return of 0 does not imply a delivered
acknowledgement: when the write returns 0, the poll returns 0 and the message
queue is empty when it is processed (at least one loop iteration allowed), the
call returns 0 with `results` exactly as before the call. -/
theorem C29_send_cmd_zero (major fuel : Nat) (env : send_env) (hfi : a6xx_hfi)
    (idx : Fin HFI_QUEUE_MAX) (data : Mem) (p : pending_cmd) :
    (∀ r, a6xx_hfi_send_cmd major fuel env hfi idx data (some p) = some r → r.rc = 0 →
      ∃ q1 p1, a6xx_hfi_queue_write major (hfi.hfi_mem idx) (stamped_cmd hfi data) = some (0, q1) ∧
        poll_gmu_reg env.reads env.last HFI_IRQ_MSGQ_MASK HFI_IRQ_MSGQ_MASK = 0 ∧
        r.ret_cmd = some p1 ∧ p1.sent_hdr = stamped_cmd hfi data 0 ∧
        (p1.results 1 = p.results 1 ∨
          MSG_HDR_GET_SEQNUM (p1.results 1) = MSG_HDR_GET_SEQNUM p1.sent_hdr)) ∧
    (∀ q1, a6xx_hfi_queue_write major (hfi.hfi_mem idx) (stamped_cmd hfi data) = some (0, q1) →
      poll_gmu_reg env.reads env.last HFI_IRQ_MSGQ_MASK HFI_IRQ_MSGQ_MASK = 0 →
      1 ≤ fuel →
      (env.fw (hfi_mem_set hfi.hfi_mem idx q1) HFI_MSG_ID).hdr.read_index =
        (env.fw (hfi_mem_set hfi.hfi_mem idx q1) HFI_MSG_ID).hdr.write_index →
      ∃ r, a6xx_hfi_send_cmd major fuel env hfi idx data (some p) = some r ∧ r.rc = 0 ∧
        r.ret_cmd = some { p with sent_hdr := stamped_cmd hfi data 0 } ∧ r.events = []) := by
  constructor
  · intro r h h0
    unfold a6xx_hfi_send_cmd at h
    simp only at h
    unfold stamped_cmd
    split at h
    · exact absurd h (by simp)
    · next rc q hw =>
      split at h
      · next hrc => cases h; exact absurd h0 hrc
      · next hrc =>
        have hrc0 : rc = 0 := by simpa using hrc
        subst hrc0
        split at h
        · next hp => cases h; exact absurd h0 hp
        · next hp =>
          have hp0 : poll_gmu_reg env.reads env.last HFI_IRQ_MSGQ_MASK HFI_IRQ_MSGQ_MASK = 0 := by
            simpa using hp
          split at h
          · exact absurd h (by simp)
          · next r1 hr1 =>
            cases h
            obtain ⟨p1, e1, e2, e3⟩ := process_queue_results major fuel _ _ _ _ _ hr1
            refine ⟨q, p1, hw, hp0, e1, e2, ?_⟩
            rw [e2]
            exact e3
  · intro q1 hw hp hf he
    obtain ⟨f, rfl⟩ : ∃ f, fuel = f + 1 := ⟨fuel - 1, by omega⟩
    unfold stamped_cmd at hw ⊢
    unfold a6xx_hfi_send_cmd
    simp only [hw, hp, ne_eq, not_true_eq_false, if_false]
    rw [process_queue_empty major f _ _ _ _ he]
    exact ⟨_, rfl, rfl, rfl, rfl⟩

/-- Instance of the amended C29: the send answered by the acknowledgement
`ack5` returns 0 and leaves the sequence number 5 of the sent header in
`results[1]`, and the send on surroundings with an empty message queue returns
0 with the zeroed `results`. -/
theorem C29_send_cmd_zero_witness :
    (∃ r p1, a6xx_hfi_send_cmd 2 4 env_ack5 hfi_seq4 HFI_CMD_ID cmd_req (some pending_zero) = some r ∧
      r.ret_cmd = some p1 ∧
      (p1.results 1 = pending_zero.results 1 ∨
        MSG_HDR_GET_SEQNUM (p1.results 1) = MSG_HDR_GET_SEQNUM p1.sent_hdr)) ∧
    (∃ r, a6xx_hfi_send_cmd 2 4 env_bit_only hfi_seq4 HFI_CMD_ID cmd_req (some pending_zero)
        = some r ∧ r.rc = 0 ∧
      r.ret_cmd = some { pending_zero with sent_hdr := stamped_cmd hfi_seq4 cmd_req 0 } ∧
      r.events = []) := by
  have hrc : (a6xx_hfi_send_cmd 2 4 env_ack5 hfi_seq4 HFI_CMD_ID cmd_req (some pending_zero)).map
      (fun r => r.rc) = some 0 := by decide
  constructor
  · cases hcase : a6xx_hfi_send_cmd 2 4 env_ack5 hfi_seq4 HFI_CMD_ID cmd_req (some pending_zero) with
    | none => rw [hcase] at hrc; exact absurd hrc (by simp)
    | some r =>
      rw [hcase] at hrc
      have h0 : r.rc = 0 := by simpa using hrc
      obtain ⟨_, p1, _, _, e1, _, e3⟩ :=
        (C29_send_cmd_zero 2 4 env_ack5 hfi_seq4 HFI_CMD_ID cmd_req pending_zero).1 r hcase h0
      exact ⟨r, p1, rfl, e1, e3⟩
  · obtain ⟨q1, hq1⟩ : ∃ q1, a6xx_hfi_queue_write 2 (hfi_seq4.hfi_mem HFI_CMD_ID)
        (stamped_cmd hfi_seq4 cmd_req) = some (0, q1) := ⟨_, rfl⟩
    exact (C29_send_cmd_zero 2 4 env_bit_only hfi_seq4 HFI_CMD_ID cmd_req pending_zero).2 q1 hq1
      (by decide) (by decide) rfl

theorem queue_write_copy_mod4 (c : Nat) (src : Mem) (hc4 : c % 4 = 0) :
    ∀ (n i w : Nat) (ring : Mem) (w1 : Nat) (ring1 : Mem),
      queue_write_copy c src n i w ring = some (w1, ring1) → w1 % 4 = (w + n) % 4 := by
  intro n
  induction n with
  | zero =>
    intro i w ring w1 ring1 h
    simp only [queue_write_copy, Option.some.injEq, Prod.mk.injEq] at h
    rw [← h.1]; rfl
  | succ n ih =>
    intro i w ring w1 ring1 h
    simp only [queue_write_copy, umod] at h
    by_cases hc : c = 0
    · simp [hc] at h
    · simp only [hc, if_false] at h
      have e := ih _ _ _ _ _ h
      have e2 : u32 (w + 1) % c % 4 = (w + 1) % 4 := by
        rw [Nat.mod_mod_of_dvd _ (Nat.dvd_of_mod_eq_zero hc4)]
        unfold u32
        omega
      omega

theorem queue_write_copy_total (c : Nat) (src : Mem) (hc : 0 < c) :
    ∀ (n i w : Nat) (ring : Mem),
      ∃ w1 ring1, queue_write_copy c src n i w ring = some (w1, ring1) := by
  intro n
  induction n with
  | zero => intro i w ring; exact ⟨w, ring, rfl⟩
  | succ n ih =>
    intro i w ring
    simp only [queue_write_copy, umod_pos _ hc]
    exact ih _ _ _

theorem queue_read_copy_total (ring : Mem) (c : Nat) (hc : 0 < c) :
    ∀ (n i r : Nat) (out : Mem),
      ∃ r1 out1, queue_read_copy ring c n i r out = some (r1, out1) := by
  intro n
  induction n with
  | zero => intro i r out; exact ⟨r, out, rfl⟩
  | succ n ih =>
    intro i r out
    simp only [queue_read_copy, umod_pos _ hc]
    exact ih _ _ _

theorem queue_write_copy_index (c : Nat) (src : Mem) (hc32 : c < 2 ^ 32) :
    ∀ (n i w : Nat) (ring : Mem), w < c →
      ∃ ring1, queue_write_copy c src n i w ring = some ((w + n) % c, ring1) := by
  intro n
  induction n with
  | zero =>
    intro i w ring hw
    exact ⟨ring, by simp [queue_write_copy, Nat.mod_eq_of_lt hw]⟩
  | succ n ih =>
    intro i w ring hw
    have hc : 0 < c := by omega
    simp only [queue_write_copy, umod_pos _ hc, u32_of_lt (show w + 1 < 2 ^ 32 by omega)]
    obtain ⟨ring1, e⟩ := ih (i + 1) ((w + 1) % c) (store ring w (src i)) (Nat.mod_lt _ hc)
    refine ⟨ring1, ?_⟩
    rw [e]
    have : ((w + 1) % c + n) % c = (w + (n + 1)) % c := by
      rw [Nat.add_mod, Nat.mod_mod, ← Nat.add_mod]
      congr 1; omega
    rw [this]

theorem queue_write_total (major : Nat) (q : hfi_queue) (msg : Mem)
    (hc : 0 < q.hdr.queue_size) :
    ∃ rc q1, a6xx_hfi_queue_write major q msg = some (rc, q1) := by
  unfold a6xx_hfi_queue_write
  simp only
  by_cases h1 : q.hdr.status = HFI_QUEUE_STATUS_DISABLED
  · simp only [h1, if_true]; exact ⟨_, _, rfl⟩
  · by_cases h2 : MSG_HDR_GET_SIZE (msg 0) > HFI_MAX_MSG_SIZE
    · simp only [h1, h2, if_true, if_false]; exact ⟨_, _, rfl⟩
    · by_cases h3 : empty_space q.hdr ≤ ALIGN (MSG_HDR_GET_SIZE (msg 0)) SZ_4
      · simp only [h1, h2, h3, if_true, if_false]; exact ⟨_, _, rfl⟩
      · simp only [h1, h2, h3, if_false]
        obtain ⟨w1, ring1, e1⟩ := queue_write_copy_total q.hdr.queue_size msg hc
          (MSG_HDR_GET_SIZE (msg 0)) 0 q.hdr.write_index q.queue
        rw [e1]
        simp only
        by_cases hm : major ≥ 2
        · simp only [hm, if_true]
          obtain ⟨w2, ring2, e2⟩ := queue_write_copy_total q.hdr.queue_size
            (fun _ => 0xFAFAFAFA) hc
            (ALIGN (MSG_HDR_GET_SIZE (msg 0)) SZ_4 - MSG_HDR_GET_SIZE (msg 0))
            (MSG_HDR_GET_SIZE (msg 0)) w1 ring1
          rw [e2]
          exact ⟨_, _, rfl⟩
        · simp only [hm, if_false]
          exact ⟨_, _, rfl⟩

theorem queue_read_total (major : Nat) (q : hfi_queue) (out : Mem) (max_size : Nat)
    (hc : 0 < q.hdr.queue_size) :
    ∃ n q1 out1, a6xx_hfi_queue_read major q out max_size = some (n, q1, out1) := by
  unfold a6xx_hfi_queue_read
  simp only
  by_cases h1 : q.hdr.status = HFI_QUEUE_STATUS_DISABLED
  · simp only [h1, if_true]; exact ⟨_, _, _, rfl⟩
  · by_cases h2 : q.hdr.read_index = q.hdr.write_index
    · simp only [h1, h2, if_true, if_false]; exact ⟨_, _, _, rfl⟩
    · by_cases h3 : MSG_HDR_GET_SIZE (q.queue q.hdr.read_index) > max_size >>> 2
      · simp only [h1, h2, h3, if_true, if_false]; exact ⟨_, _, _, rfl⟩
      · simp only [h1, h2, h3, if_false]
        by_cases h4 : q.hdr.read_index < q.hdr.queue_size
        · simp only [h4, if_true]
          obtain ⟨r1, out1, e1⟩ := queue_read_copy_total q.queue q.hdr.queue_size hc
            (min (MSG_HDR_GET_SIZE (q.queue q.hdr.read_index)) (max_size >>> 2)) 0
            q.hdr.read_index (memset_zero out max_size)
          rw [e1]
          simp only
          by_cases hm : major ≥ 2
          · simp only [hm, if_true, umod_pos _ hc]; exact ⟨_, _, _, rfl⟩
          · simp only [hm, if_false]; exact ⟨_, _, _, rfl⟩
        · simp only [h4, if_false]
          by_cases hm : major ≥ 2
          · simp only [hm, if_true, umod_pos _ hc]; exact ⟨_, _, _, rfl⟩
          · simp only [hm, if_false]; exact ⟨_, _, _, rfl⟩

theorem ALIGN4_mod (x : Nat) : ALIGN x SZ_4 % 4 = 0 := by
  unfold ALIGN SZ_4
  omega

theorem queue_write_aligned (major : Nat) (q : hfi_queue) (msg : Mem) (hm : 2 ≤ major)
    (hc4 : q.hdr.queue_size % 4 = 0) (hr4 : q.hdr.read_index % 4 = 0)
    (hw4 : q.hdr.write_index % 4 = 0) (rc : Int) (q1 : hfi_queue)
    (h : a6xx_hfi_queue_write major q msg = some (rc, q1)) :
    q1.hdr.read_index % 4 = 0 ∧ q1.hdr.write_index % 4 = 0 ∧
      q1.hdr.queue_size = q.hdr.queue_size := by
  have hm2 : major ≥ 2 := hm
  unfold a6xx_hfi_queue_write at h
  simp only [hm2, if_true] at h
  by_cases h1 : q.hdr.status = HFI_QUEUE_STATUS_DISABLED
  · simp only [h1, if_true] at h; cases h; exact ⟨hr4, hw4, rfl⟩
  · by_cases h2 : MSG_HDR_GET_SIZE (msg 0) > HFI_MAX_MSG_SIZE
    · simp only [h1, h2, if_true, if_false] at h; cases h; exact ⟨hr4, hw4, rfl⟩
    · by_cases h3 : empty_space q.hdr ≤ ALIGN (MSG_HDR_GET_SIZE (msg 0)) SZ_4
      · simp only [h1, h2, h3, if_true, if_false] at h; cases h; exact ⟨hr4, hw4, rfl⟩
      · simp only [h1, h2, h3, if_false] at h
        cases e1 : queue_write_copy q.hdr.queue_size msg (MSG_HDR_GET_SIZE (msg 0)) 0
            q.hdr.write_index q.queue with
        | none => rw [e1] at h; exact absurd h (by simp)
        | some x1 =>
          obtain ⟨w1, ring1⟩ := x1
          rw [e1] at h
          simp only at h
          cases e2 : queue_write_copy q.hdr.queue_size (fun _ => 0xFAFAFAFA)
              (ALIGN (MSG_HDR_GET_SIZE (msg 0)) SZ_4 - MSG_HDR_GET_SIZE (msg 0))
              (MSG_HDR_GET_SIZE (msg 0)) w1 ring1 with
          | none => rw [e2] at h; exact absurd h (by simp)
          | some x2 =>
            obtain ⟨w2, ring2⟩ := x2
            rw [e2] at h
            simp only [Option.some.injEq, Prod.mk.injEq] at h
            obtain ⟨_, rfl⟩ := h
            have a1 := queue_write_copy_mod4 _ _ hc4 _ _ _ _ _ _ e1
            have a2 := queue_write_copy_mod4 _ _ hc4 _ _ _ _ _ _ e2
            have hL := get_size_le (msg 0)
            obtain ⟨b1, b2, b3⟩ := ALIGN4_bounds (MSG_HDR_GET_SIZE (msg 0)) (by omega)
            refine ⟨hr4, ?_, rfl⟩
            show w2 % 4 = 0
            omega

theorem queue_read_aligned (major : Nat) (q : hfi_queue) (out : Mem) (max_size : Nat)
    (hm : 2 ≤ major)
    (hc4 : q.hdr.queue_size % 4 = 0) (hr4 : q.hdr.read_index % 4 = 0)
    (hw4 : q.hdr.write_index % 4 = 0) (n : Int) (q1 : hfi_queue) (out1 : Mem)
    (h : a6xx_hfi_queue_read major q out max_size = some (n, q1, out1)) :
    q1.hdr.read_index % 4 = 0 ∧ q1.hdr.write_index % 4 = 0 ∧
      q1.hdr.queue_size = q.hdr.queue_size := by
  have hm2 : major ≥ 2 := hm
  have key : ∀ x, ∀ y, umod (ALIGN x SZ_4) q.hdr.queue_size = some y → y % 4 = 0 := by
    intro x y hy
    unfold umod at hy
    split at hy
    · exact absurd hy (by simp)
    · cases hy
      rw [Nat.mod_mod_of_dvd _ (Nat.dvd_of_mod_eq_zero hc4)]
      exact ALIGN4_mod x
  unfold a6xx_hfi_queue_read at h
  simp only [hm2, if_true] at h
  by_cases h1 : q.hdr.status = HFI_QUEUE_STATUS_DISABLED
  · simp only [h1, if_true] at h; cases h; exact ⟨hr4, hw4, rfl⟩
  · by_cases h2 : q.hdr.read_index = q.hdr.write_index
    · simp only [h1, h2, if_true, if_false] at h; cases h; exact ⟨hr4, hw4, rfl⟩
    · by_cases h3 : MSG_HDR_GET_SIZE (q.queue q.hdr.read_index) > max_size >>> 2
      · simp only [h1, h2, h3, if_true, if_false] at h; cases h; exact ⟨hr4, hw4, rfl⟩
      · simp only [h1, h2, h3, if_false] at h
        split at h
        · exact absurd h (by simp)
        · next res rd o _ =>
          split at h
          · exact absurd h (by simp)
          · next y hy =>
            cases h
            exact ⟨key _ _ hy, hw4, rfl⟩

theorem queue_write_index (major : Nat) (q q1 : hfi_queue) (msg : Mem) (hm : 2 ≤ major)
    (hc32 : q.hdr.queue_size < 2 ^ 32) (hw : q.hdr.write_index < q.hdr.queue_size)
    (h : a6xx_hfi_queue_write major q msg = some (0, q1)) :
    q1.hdr.write_index =
      (q.hdr.write_index + ALIGN (MSG_HDR_GET_SIZE (msg 0)) SZ_4) % q.hdr.queue_size := by
  have hm2 : major ≥ 2 := hm
  have hc : 0 < q.hdr.queue_size := by omega
  unfold a6xx_hfi_queue_write at h
  simp only [hm2, if_true] at h
  by_cases h1 : q.hdr.status = HFI_QUEUE_STATUS_DISABLED
  · simp [h1, EINVAL] at h
  · by_cases h2 : MSG_HDR_GET_SIZE (msg 0) > HFI_MAX_MSG_SIZE
    · simp [h1, h2, EINVAL] at h
    · by_cases h3 : empty_space q.hdr ≤ ALIGN (MSG_HDR_GET_SIZE (msg 0)) SZ_4
      · simp [h1, h2, h3, ENOSPC] at h
      · simp only [h1, h2, h3, if_false] at h
        obtain ⟨ring1, e1⟩ := queue_write_copy_index q.hdr.queue_size msg hc32
          (MSG_HDR_GET_SIZE (msg 0)) 0 q.hdr.write_index q.queue hw
        rw [e1] at h
        simp only at h
        obtain ⟨ring2, e2⟩ := queue_write_copy_index q.hdr.queue_size (fun _ => 0xFAFAFAFA) hc32
          (ALIGN (MSG_HDR_GET_SIZE (msg 0)) SZ_4 - MSG_HDR_GET_SIZE (msg 0))
          (MSG_HDR_GET_SIZE (msg 0))
          ((q.hdr.write_index + MSG_HDR_GET_SIZE (msg 0)) % q.hdr.queue_size) ring1
          (Nat.mod_lt _ hc)
        rw [e2] at h
        simp only [Option.some.injEq, Prod.mk.injEq, true_and] at h
        rw [← h]
        show ((q.hdr.write_index + MSG_HDR_GET_SIZE (msg 0)) % q.hdr.queue_size +
          (ALIGN (MSG_HDR_GET_SIZE (msg 0)) SZ_4 - MSG_HDR_GET_SIZE (msg 0))) % q.hdr.queue_size = _
        have hL := get_size_le (msg 0)
        obtain ⟨b1, b2, b3⟩ := ALIGN4_bounds (MSG_HDR_GET_SIZE (msg 0)) (by omega)
        rw [Nat.add_mod, Nat.mod_mod, ← Nat.add_mod]
        congr 1
        omega

/-- C27 — Alignment invariant of the version-2 framing: with protocol major
version at least 2, a `queue_size` that is a multiple of 4 and `read_index` and
`write_index` multiples of 4, every result of `a6xx_hfi_queue_write` and of
`a6xx_hfi_queue_read` has both indices multiples of 4 and the same
`queue_size`, and both calls do return when `queue_size` is not 0. Under this
invariant, a read that returns a message whose header is the one a successful
write stored at `write_index` moves `read_index` to where the write moved
`write_index`: both advance by `ALIGN(size,4)` modulo `queue_size`. -/
theorem C27_alignment_invariant (major : Nat) (q qr : hfi_queue) (msg out : Mem)
    (max_size : Nat)
    (hm : 2 ≤ major)
    (hq32 : q.hdr.queue_size < 2 ^ 32)
    (hc4 : q.hdr.queue_size % 4 = 0)
    (hr4 : q.hdr.read_index % 4 = 0)
    (hw4 : q.hdr.write_index % 4 = 0) :
    (∀ rc q1, a6xx_hfi_queue_write major q msg = some (rc, q1) →
      q1.hdr.read_index % 4 = 0 ∧ q1.hdr.write_index % 4 = 0 ∧
        q1.hdr.queue_size = q.hdr.queue_size) ∧
    (∀ n q1 out1, a6xx_hfi_queue_read major q out max_size = some (n, q1, out1) →
      q1.hdr.read_index % 4 = 0 ∧ q1.hdr.write_index % 4 = 0 ∧
        q1.hdr.queue_size = q.hdr.queue_size) ∧
    (0 < q.hdr.queue_size →
      (∃ rc q1, a6xx_hfi_queue_write major q msg = some (rc, q1)) ∧
      (∃ n q1 out1, a6xx_hfi_queue_read major q out max_size = some (n, q1, out1))) ∧
    (∀ q1 n q2 out2, a6xx_hfi_queue_write major q msg = some (0, q1) →
      qr.hdr.queue_size = q.hdr.queue_size →
      qr.hdr.read_index = q.hdr.write_index →
      qr.queue qr.hdr.read_index = msg 0 →
      a6xx_hfi_queue_read major qr out max_size = some (n, q2, out2) → 0 < n →
      n = (MSG_HDR_GET_SIZE (msg 0) : Int) ∧
      q1.hdr.write_index =
        (q.hdr.write_index + ALIGN (MSG_HDR_GET_SIZE (msg 0)) SZ_4) % q.hdr.queue_size ∧
      q2.hdr.read_index =
        (qr.hdr.read_index + ALIGN (MSG_HDR_GET_SIZE (msg 0)) SZ_4) % q.hdr.queue_size ∧
      q2.hdr.read_index = q1.hdr.write_index) := by
  refine ⟨fun rc q1 h => queue_write_aligned major q msg hm hc4 hr4 hw4 rc q1 h,
    fun n q1 out1 h => queue_read_aligned major q out max_size hm hc4 hr4 hw4 n q1 out1 h,
    fun hc => ⟨queue_write_total major q msg hc, queue_read_total major q out max_size hc⟩, ?_⟩
  intro q1 n q2 out2 hwr hsz hrd hhead hread hn
  obtain ⟨hen, hne, hr, hnL, hcap, _⟩ := queue_read_positive major qr out max_size n q2 out2 hread hn
  have hw : q.hdr.write_index < q.hdr.queue_size := by rw [← hrd, ← hsz]; exact hr
  have e1 := queue_write_index major q q1 msg hm hq32 hw hwr
  obtain ⟨out1, e2, _, _⟩ := queue_read_ok major qr out max_size hen (by rw [hsz]; exact hq32)
    hne hr hcap
  rw [hread] at e2
  have hm2 : major ≥ 2 := hm
  simp only [hm2, if_true, Option.some.injEq, Prod.mk.injEq] at e2
  obtain ⟨_, e3, _⟩ := e2
  have e4 : q2.hdr.read_index =
      ALIGN ((qr.hdr.read_index + MSG_HDR_GET_SIZE (qr.queue qr.hdr.read_index))
        % qr.hdr.queue_size) SZ_4 % qr.hdr.queue_size := by rw [e3]
  rw [align_advance hr (by rw [hsz]; exact hq32) (by rw [hsz]; exact hc4)
    (by rw [hrd]; exact hw4) (get_size_le _)] at e4
  rw [hhead] at hnL e4
  rw [hsz] at e4
  refine ⟨hnL, e1, e4, ?_⟩
  rw [e4, e1, hrd]

/-- Instance of C27: on the empty 16-dword queue the write of the 3-dword
command moves `write_index` to 4, and the read of that command moves
`read_index` to 4 as well. -/
theorem C27_alignment_invariant_witness :
    ∃ q2 out2, a6xx_hfi_queue_write 2 q16 msg3 = some (0, q16_msg3) ∧
      a6xx_hfi_queue_read 2 q16_msg3 out7 (4 * MAX_RCVD_SIZE) = some (3, q2, out2) ∧
      q16_msg3.hdr.write_index % 4 = 0 ∧
      q2.hdr.read_index = q16_msg3.hdr.write_index ∧
      q16_msg3.hdr.write_index = (0 + ALIGN (MSG_HDR_GET_SIZE (msg3 0)) SZ_4) % 16 := by
  have hq1 : a6xx_hfi_queue_write 2 q16 msg3 = some (0, q16_msg3) := rfl
  obtain ⟨q2, out2, hq2⟩ : ∃ q2 out2,
      a6xx_hfi_queue_read 2 q16_msg3 out7 (4 * MAX_RCVD_SIZE) = some (3, q2, out2) :=
    ⟨_, _, rfl⟩
  have h := C27_alignment_invariant 2 q16 q16_msg3 msg3 out7 (4 * MAX_RCVD_SIZE) (by decide)
    (by decide) (by decide) (by decide) (by decide)
  obtain ⟨_, hq1w, _⟩ := h.1 0 q16_msg3 hq1
  obtain ⟨_, e1, _, e3⟩ := h.2.2.2 q16_msg3 3 q2 out2 hq1 rfl rfl rfl hq2 (by decide)
  exact ⟨q2, out2, hq1, hq2, hq1w, e3, e1⟩

theorem framed_size_bounds (major : Nat) (m : Mem) :
    MSG_HDR_GET_SIZE (m 0) ≤ framed_size major m ∧
      framed_size major m ≤ ALIGN (MSG_HDR_GET_SIZE (m 0)) SZ_4 ∧
      (major ≥ 2 → framed_size major m = ALIGN (MSG_HDR_GET_SIZE (m 0)) SZ_4) ∧
      (¬ major ≥ 2 → framed_size major m = MSG_HDR_GET_SIZE (m 0)) := by
  have hL := get_size_le (m 0)
  obtain ⟨b1, b2, b3⟩ := ALIGN4_bounds (MSG_HDR_GET_SIZE (m 0)) (by omega)
  unfold framed_size
  by_cases hm : major ≥ 2
  · rw [if_pos hm]; exact ⟨b1, le_refl _, fun _ => rfl, fun h => absurd hm h⟩
  · rw [if_neg hm]; exact ⟨le_refl _, b1, fun h => absurd h hm, fun _ => rfl⟩

theorem stored_le (major : Nat) (ring : Mem) :
    ∀ (ms : List Mem) (pos w : Nat), stored major ring pos ms w → pos ≤ w := by
  intro ms
  induction ms with
  | nil => intro pos w h; simp only [stored] at h; omega
  | cons m ms ih =>
    intro pos w h
    simp only [stored] at h
    have := ih _ _ h.2
    omega

theorem stored_congr (major : Nat) (ring ring1 : Mem) :
    ∀ (ms : List Mem) (pos w : Nat), (∀ j, pos ≤ j → ring1 j = ring j) →
      stored major ring pos ms w → stored major ring1 pos ms w := by
  intro ms
  induction ms with
  | nil => intro pos w _ h; exact h
  | cons m ms ih =>
    intro pos w hj h
    simp only [stored] at h ⊢
    refine ⟨fun i hi => ?_, ih _ _ (fun j hj1 => hj j (by omega)) h.2⟩
    rw [hj _ (by omega)]
    exact h.1 i hi

theorem write_all_stored (major : Nat) :
    ∀ (ms : List Mem) (q q1 : hfi_queue),
      q.hdr.queue_size < 2 ^ 32 → q.hdr.read_index = 0 →
      q.hdr.write_index < q.hdr.queue_size →
      write_all major q ms = some q1 →
      q1.hdr = { q.hdr with write_index := q1.hdr.write_index } ∧
      q1.hdr.write_index < q.hdr.queue_size ∧
      stored major q1.queue q.hdr.write_index ms q1.hdr.write_index ∧
      (∀ j, j < q.hdr.write_index → q1.queue j = q.queue j) := by
  intro ms
  induction ms with
  | nil =>
    intro q q1 _ _ hw h
    simp only [write_all, Option.some.injEq] at h
    subst h
    exact ⟨rfl, hw, rfl, fun _ _ => rfl⟩
  | cons m ms ih =>
    intro q q1 hq32 hr hw h
    simp only [write_all] at h
    cases hwr : a6xx_hfi_queue_write major q m with
    | none => rw [hwr] at h; exact absurd h (by simp)
    | some x =>
      obtain ⟨rc, q'⟩ := x
      rw [hwr] at h
      simp only at h
      by_cases hrc : rc = 0
      · subst hrc
        simp only [if_true] at h
        obtain ⟨hen, hsp⟩ := queue_write_zero_inv major q q' m hwr
        have hes := empty_space_in_range q.hdr hq32 (by omega) hw
        rw [hr] at hes
        simp only [ge_iff_le, Nat.zero_le, if_true, Nat.sub_zero] at hes
        obtain ⟨f1, f2, _, _⟩ := framed_size_bounds major m
        obtain ⟨ring1, e, hk, _, hkeep⟩ := queue_write_ok major q m hen hq32 hw hsp (by omega)
        rw [hwr] at e
        simp only [Option.some.injEq, Prod.mk.injEq, true_and] at e
        have hfs : (q.hdr.write_index + framed_size major m) % q.hdr.queue_size =
            q.hdr.write_index + framed_size major m := Nat.mod_eq_of_lt (by omega)
        have hq'w : q'.hdr.write_index = q.hdr.write_index + framed_size major m := by
          rw [e]; exact hfs
        have hq'c : q'.hdr.queue_size = q.hdr.queue_size := by rw [e]
        have hq'r : q'.hdr.read_index = q.hdr.read_index := by rw [e]
        have hq'q : q'.queue = ring1 := by rw [e]
        obtain ⟨a1, a2, a3, a4⟩ := ih q' q1 (by rw [hq'c]; exact hq32) (by rw [hq'r]; exact hr)
          (by rw [hq'c, hq'w]; omega) h
        refine ⟨?_, ?_, ?_, ?_⟩
        · rw [a1, e]
        · rw [hq'c] at a2; exact a2
        · simp only [stored]
          rw [hq'w] at a3
          refine ⟨fun i hi => ?_, a3⟩
          rw [a4 _ (by rw [hq'w]; omega), hq'q]
          have := hk i hi
          rw [Nat.mod_eq_of_lt (by omega)] at this
          exact this
        · intro j hj
          rw [a4 _ (by rw [hq'w]; omega), hq'q]
          apply hkeep
          intro k hk1
          have hk2 : k < framed_size major m := hk1
          rw [Nat.mod_eq_of_lt (by omega)]
          omega
      · simp only [hrc, if_false] at h
        exact absurd h (by simp)

theorem read_all_stored (major : Nat) (out : Mem) (max_size : Nat)
    (hcap : MAX_RCVD_SIZE ≤ max_size >>> 2) :
    ∀ (ms : List Mem) (q : hfi_queue),
      q.hdr.status ≠ HFI_QUEUE_STATUS_DISABLED →
      q.hdr.queue_size < 2 ^ 32 →
      q.hdr.write_index < q.hdr.queue_size →
      (major ≥ 2 → q.hdr.read_index % 4 = 0) →
      stored major q.queue q.hdr.read_index ms q.hdr.write_index →
      (∀ m ∈ ms, 1 ≤ MSG_HDR_GET_SIZE (m 0) ∧ MSG_HDR_GET_SIZE (m 0) ≤ MAX_RCVD_SIZE) →
      ∃ rs q2, read_all major max_size out ms.length q = some (rs, q2) ∧
        List.Forall₂ (fun m r => r.1 = (MSG_HDR_GET_SIZE (m 0) : Int) ∧
          ∀ i, i < MSG_HDR_GET_SIZE (m 0) → r.2 i = m i) ms rs ∧
        q2.hdr = { q.hdr with read_index := q.hdr.write_index } ∧ q2.queue = q.queue := by
  intro ms
  induction ms with
  | nil =>
    intro q _ _ _ _ hst _
    simp only [stored] at hst
    refine ⟨[], q, rfl, List.Forall₂.nil, ?_, rfl⟩
    rw [← hst]
  | cons m ms ih =>
    intro q hen hq32 hw h4 hst hsz
    simp only [stored] at hst
    obtain ⟨hwords, hrest⟩ := hst
    obtain ⟨hL1, hL19⟩ := hsz m (List.mem_cons_self _ _)
    obtain ⟨f1, f2, f3, f4⟩ := framed_size_bounds major m
    have hle := stored_le major q.queue ms _ _ hrest
    have hhead : q.queue q.hdr.read_index = m 0 := by
      have := hwords 0 (by omega)
      simpa using this
    have hr : q.hdr.read_index < q.hdr.queue_size := by omega
    obtain ⟨out1, e, hk, _⟩ := queue_read_ok major q out max_size hen hq32 (by omega) hr
      (by rw [hhead]; omega)
    rw [hhead] at e hk
    have hnew : (if major ≥ 2 then
        ALIGN ((q.hdr.read_index + MSG_HDR_GET_SIZE (m 0)) % q.hdr.queue_size) SZ_4
          % q.hdr.queue_size
        else (q.hdr.read_index + MSG_HDR_GET_SIZE (m 0)) % q.hdr.queue_size) =
        q.hdr.read_index + framed_size major m := by
      have hLle := get_size_le (m 0)
      obtain ⟨b1, b2, b3⟩ := ALIGN4_bounds (MSG_HDR_GET_SIZE (m 0)) (by omega)
      by_cases hm : major ≥ 2
      · simp only [hm, if_true]
        rw [Nat.mod_eq_of_lt (show q.hdr.read_index + MSG_HDR_GET_SIZE (m 0) < q.hdr.queue_size
          by omega)]
        have h4r := h4 hm
        rw [f3 hm] at hle ⊢
        rw [ALIGN4_eq _ (by omega)]
        rw [ALIGN4_eq _ (by omega)] at hle ⊢
        rw [Nat.mod_eq_of_lt (by omega)]
        omega
      · simp only [hm, if_false]
        rw [f4 hm, Nat.mod_eq_of_lt (by omega)]
    rw [hnew] at e
    obtain ⟨rs, q2, e2, hall, hq2, hq2q⟩ := ih
      { q with hdr := { q.hdr with read_index := q.hdr.read_index + framed_size major m } }
      hen hq32 hw
      (by
        intro hm
        have h4r := h4 hm
        have hLle := get_size_le (m 0)
        obtain ⟨_, _, b3⟩ := ALIGN4_bounds (MSG_HDR_GET_SIZE (m 0)) (by omega)
        show (q.hdr.read_index + framed_size major m) % 4 = 0
        rw [f3 hm]
        omega)
      hrest (fun m1 hm1 => hsz m1 (List.mem_cons_of_mem _ hm1))
    refine ⟨((MSG_HDR_GET_SIZE (m 0) : Int), out1) :: rs, q2, ?_, ?_, ?_, ?_⟩
    · simp only [List.length_cons, read_all, e, e2]
    · refine List.Forall₂.cons ⟨rfl, fun i hi => ?_⟩ hall
      show out1 i = m i
      rw [hk i hi, Nat.mod_eq_of_lt (by omega)]
      exact hwords i hi
    · rw [hq2]
    · rw [hq2q]

/-- C26 — FIFO order over several messages: on an enabled queue with both
indices 0, after the writes of the messages `ms`, each with a size between 1
and `MAX_RCVD_SIZE` (19) dwords, have all returned 0 and no read has
intervened, as many reads as there are messages (into a buffer of at least 19
dwords) return the messages in the order written, each with its exact size and
its words, and the next read returns `-ENODATA` with
`read_index == write_index`; this holds for every protocol version. -/
theorem C26_fifo_order (major : Nat) (q q1 : hfi_queue) (ms : List Mem) (out : Mem)
    (max_size : Nat)
    (hen : q.hdr.status ≠ HFI_QUEUE_STATUS_DISABLED)
    (hq32 : q.hdr.queue_size < 2 ^ 32)
    (hr : q.hdr.read_index = 0) (hw : q.hdr.write_index = 0)
    (hsz : ∀ m ∈ ms, 1 ≤ MSG_HDR_GET_SIZE (m 0) ∧ MSG_HDR_GET_SIZE (m 0) ≤ MAX_RCVD_SIZE)
    (hcap : MAX_RCVD_SIZE ≤ max_size >>> 2)
    (hwr : write_all major q ms = some q1) :
    ∃ rs q2, read_all major max_size out ms.length q1 = some (rs, q2) ∧
      List.Forall₂ (fun m r => r.1 = (MSG_HDR_GET_SIZE (m 0) : Int) ∧
        ∀ i, i < MSG_HDR_GET_SIZE (m 0) → r.2 i = m i) ms rs ∧
      a6xx_hfi_queue_read major q2 out max_size = some (-ENODATA, q2, out) ∧
      q2.hdr.read_index = q2.hdr.write_index := by
  have hfinal : ∀ q2 : hfi_queue, q2.hdr.status ≠ HFI_QUEUE_STATUS_DISABLED →
      q2.hdr.read_index = q2.hdr.write_index →
      a6xx_hfi_queue_read major q2 out max_size = some (-ENODATA, q2, out) := by
    intro q2 h1 h2
    unfold a6xx_hfi_queue_read
    simp only [h1, h2, if_true, if_false]
  cases ms with
  | nil =>
    simp only [write_all, Option.some.injEq] at hwr
    subst hwr
    exact ⟨[], q, rfl, List.Forall₂.nil, hfinal q hen (by rw [hr, hw]), by rw [hr, hw]⟩
  | cons m ms =>
    have hc : 0 < q.hdr.queue_size := by
      simp only [write_all] at hwr
      cases hwq : a6xx_hfi_queue_write major q m with
      | none => rw [hwq] at hwr; exact absurd hwr (by simp)
      | some x =>
        obtain ⟨rc, q'⟩ := x
        rw [hwq] at hwr
        simp only at hwr
        by_cases hrc : rc = 0
        · subst hrc
          obtain ⟨_, hsp⟩ := queue_write_zero_inv major q q' m hwq
          by_contra hc0
          have hc0 : q.hdr.queue_size = 0 := by omega
          have : empty_space q.hdr = 0 := by
            simp [empty_space, usub32, hr, hw, hc0]
          omega
        · simp only [hrc, if_false] at hwr
          exact absurd hwr (by simp)
    obtain ⟨a1, a2, a3, _⟩ := write_all_stored major (m :: ms) q q1 hq32 hr (by omega) hwr
    have hs1 : q1.hdr.status = q.hdr.status := by rw [a1]
    have hc1 : q1.hdr.queue_size = q.hdr.queue_size := by rw [a1]
    have hr1 : q1.hdr.read_index = 0 := by rw [a1]; exact hr
    obtain ⟨rs, q2, e, hall, hq2, _⟩ := read_all_stored major out max_size hcap (m :: ms) q1
      (by rw [hs1]; exact hen) (by rw [hc1]; exact hq32) (by rw [hc1]; exact a2)
      (fun _ => by rw [hr1]) (by rw [hr1, ← hw]; exact a3) hsz
    have hrw : q2.hdr.read_index = q2.hdr.write_index := by rw [hq2]
    have hs2 : q2.hdr.status = q1.hdr.status := by rw [hq2]
    exact ⟨rs, q2, e, hall, hfinal q2 (by rw [hs2, hs1]; exact hen) hrw, hrw⟩

/-- Instance of C26: the 8-dword and the 3-dword command written to the empty
16-dword queue are read back in that order, under protocol version 1 and under
version 2. -/
theorem C26_fifo_order_witness :
    (∃ q1 rs q2, write_all 2 q16 [msg8, msg3] = some q1 ∧
      read_all 2 (4 * MAX_RCVD_SIZE) out7 2 q1 = some (rs, q2) ∧
      List.Forall₂ (fun m r => r.1 = (MSG_HDR_GET_SIZE (m 0) : Int) ∧
        ∀ i, i < MSG_HDR_GET_SIZE (m 0) → r.2 i = m i) [msg8, msg3] rs ∧
      a6xx_hfi_queue_read 2 q2 out7 (4 * MAX_RCVD_SIZE) = some (-ENODATA, q2, out7) ∧
      q2.hdr.read_index = q2.hdr.write_index) ∧
    (∃ q1 rs q2, write_all 1 q16 [msg8, msg3] = some q1 ∧
      read_all 1 (4 * MAX_RCVD_SIZE) out7 2 q1 = some (rs, q2) ∧
      List.Forall₂ (fun m r => r.1 = (MSG_HDR_GET_SIZE (m 0) : Int) ∧
        ∀ i, i < MSG_HDR_GET_SIZE (m 0) → r.2 i = m i) [msg8, msg3] rs ∧
      a6xx_hfi_queue_read 1 q2 out7 (4 * MAX_RCVD_SIZE) = some (-ENODATA, q2, out7) ∧
      q2.hdr.read_index = q2.hdr.write_index) := by
  have hsz : ∀ m ∈ [msg8, msg3],
      1 ≤ MSG_HDR_GET_SIZE (m 0) ∧ MSG_HDR_GET_SIZE (m 0) ≤ MAX_RCVD_SIZE := by
    intro m hm
    simp only [List.mem_cons, List.mem_singleton, List.not_mem_nil, or_false] at hm
    rcases hm with rfl | rfl
    · decide
    · decide
  constructor
  · obtain ⟨q1, hq1⟩ : ∃ q1, write_all 2 q16 [msg8, msg3] = some q1 := ⟨_, rfl⟩
    obtain ⟨rs, q2, h⟩ := C26_fifo_order 2 q16 q1 [msg8, msg3] out7 (4 * MAX_RCVD_SIZE)
      (by decide) (by decide) rfl rfl hsz (by decide) hq1
    exact ⟨q1, rs, q2, hq1, h⟩
  · obtain ⟨q1, hq1⟩ : ∃ q1, write_all 1 q16 [msg8, msg3] = some q1 := ⟨_, rfl⟩
    obtain ⟨rs, q2, h⟩ := C26_fifo_order 1 q16 q1 [msg8, msg3] out7 (4 * MAX_RCVD_SIZE)
      (by decide) (by decide) rfl rfl hsz (by decide) hq1
    exact ⟨q1, rs, q2, hq1, h⟩

end A6xxHfi
